import Mathlib

/-!
# TinyRedis_RPC: a shallow embedding of the value model, the key index,
the `RedisHelper` commands and the `RedisServer` dispatcher

C++ `std::string` is embedded as `String`.  Every byte that the code inspects
individually (escapes in `dump`, the quote characters removed by `erase`,
ASCII digits, ASCII whitespace) is below `0x80`, so working on characters and
working on the UTF-8 bytes agree.
-/

namespace TinyRedis

/-! ## RedisValue (RedisValue/RedisValue.cpp, RedisValue/Dump.h) -/

/-- The tagged value.  The constructors are those of `RedisValue.cpp`: the
null value, `std::string`, `RedisValue::array` and `RedisValue::object` (a
`std::map`, kept as the list of its entries in key order).  `Dump.h` also has
overloads for `double`, `int` and `bool`, but `RedisValue.cpp` has no
constructor, accessor or shared instance for them, so no value of these kinds
exists. -/
inductive RedisValue where
  | null
  | str (value : String)
  | array (items : List RedisValue)
  | object (items : List (String × RedisValue))

/-- The variant tags returned by `RedisValue::type()`.  The enumeration is
declared in a header that is not among the sources; `ARRAY` and `OBJECT` are
the tags the commands test. -/
inductive RedisValue.Type where
  | NUL | NUMBER | BOOL | STRING | ARRAY | OBJECT
  deriving DecidableEq, Repr

/-- `RedisValue::type()`. -/
def RedisValue.type : RedisValue → RedisValue.Type
  | .null => .NUL
  | .str _ => .STRING
  | .array _ => .ARRAY
  | .object _ => .OBJECT

/-- One lowercase hexadecimal digit, as printed by `%x`. -/
def hexDigit (n : Nat) : Char :=
  if n < 10 then Char.ofNat (48 + n) else Char.ofNat (87 + n)

/-- The `switch` of `dump(const std::string&, std::string&)` for one
character: the text appended to `out`. -/
def dumpChar (ch : Char) : List Char :=
  if ch = '\\' then ['\\', '\\']
  else if ch = '"' then ['\\', '"']
  else if ch = Char.ofNat 8 then ['\\', 'b']
  else if ch = Char.ofNat 12 then ['\\', 'f']
  else if ch = '\n' then ['\\', 'n']
  else if ch = '\r' then ['\\', 'r']
  else if ch = '\t' then ['\\', 't']
  else if ch.toNat ≤ 0x1f then
    ['\\', 'u', hexDigit (ch.toNat / 4096 % 16), hexDigit (ch.toNat / 256 % 16),
      hexDigit (ch.toNat / 16 % 16), hexDigit (ch.toNat % 16)]
  else [ch]

/-- The loop of `dump(const std::string&, std::string&)` without the quotes. -/
def dumpChars : List Char → List Char
  | [] => []
  | ch :: rest => dumpChar ch ++ dumpChars rest

/-- `dump(const std::string &value, std::string &out)`: the text appended. -/
def dumpString (value : String) : String :=
  "\"" ++ String.mk (dumpChars value.data) ++ "\""

/-- `std::to_string(int)`. -/
def to_string (value : Int) : String :=
  match value with
  | Int.ofNat n => Nat.repr n
  | Int.negSucc n => "-" ++ Nat.repr (n + 1)

mutual
/-- `RedisValue::dump()`: the JSON-shaped text of a value. -/
def RedisValue.dump : RedisValue → String
  | .null => "null"
  | .str value => dumpString value
  | .array items => "[" ++ dumpArrayItems true items ++ "]"
  | .object items => "\x7b" ++ dumpObjectItems true items ++ "\x7d"
/-- The loop of `dump(const RedisValue::array&, std::string&)`. -/
def dumpArrayItems : Bool → List RedisValue → String
  | _, [] => ""
  | first, value :: rest =>
    (if first then "" else ", ") ++ value.dump ++ dumpArrayItems false rest
/-- The loop of `dump(const RedisValue::object&, std::string&)`. -/
def dumpObjectItems : Bool → List (String × RedisValue) → String
  | _, [] => ""
  | first, (k, value) :: rest =>
    (if first then "" else ", ") ++ dumpString k ++ ": " ++ value.dump
      ++ dumpObjectItems false rest
end

/-! ## Exceptions and the string helpers of the standard library -/

/-- The exceptions of the standard library that the commands can raise, with
the text returned by `what()`. -/
inductive Exception where
  | invalid_argument (what : String)
  | out_of_range (what : String)
  deriving DecidableEq, Repr

/-- `std::exception::what()`. -/
def Exception.what : Exception → String
  | .invalid_argument w => w
  | .out_of_range w => w

/-- `isdigit` on an ASCII character. -/
def isdigit (ch : Char) : Bool := decide (48 ≤ ch.toNat) && decide (ch.toNat ≤ 57)

/-- `isspace` in the C locale: space, `\t`, `\n`, `\v`, `\f`, `\r`. -/
def isspace (ch : Char) : Bool :=
  ch.toNat == 32 || (decide (9 ≤ ch.toNat) && decide (ch.toNat ≤ 13))

/-- `std::string::erase(pos, n)`: throws `out_of_range` when `pos > size()`,
else removes `n` characters (or up to the end) starting at `pos`. -/
def erase (s : String) (pos n : Nat) : Except Exception String :=
  if pos > s.length then
    .error (.out_of_range ("basic_string::erase: __pos (which is " ++ Nat.repr pos
      ++ ") > this->size() (which is " ++ Nat.repr s.length ++ ")"))
  else .ok (String.mk (s.data.take pos ++ s.data.drop (pos + n)))

/-- The value of `size_t(-1)`, also `std::string::npos`. -/
def npos : Nat := 2 ^ 64 - 1

/-- The expression `value.size() - 1` on the unsigned `size_t`. -/
def sizeMinusOne (s : String) : Nat := if s.length = 0 then npos else s.length - 1

/-- The value of a run of decimal digits, left to right from `acc`. -/
def digitsValue (acc : Nat) : List Char → Nat
  | [] => acc
  | ch :: rest => digitsValue (10 * acc + (ch.toNat - 48)) rest

/-- Two's complement wrap-around of a 32-bit `int`. -/
def wrapInt (x : Int) : Int := (x + 2 ^ 31) % 2 ^ 32 - 2 ^ 31

/-- The optional sign in front of a number: whether it is `-`, and the text
after it. -/
def readSign : List Char → Bool × List Char
  | '-' :: rest => (true, rest)
  | '+' :: rest => (false, rest)
  | body => (false, body)

/-- `std::stoi(str)` in base 10: skip leading white space, read an optional
sign and the longest run of digits; `invalid_argument` when there is no digit,
`out_of_range` when the number does not fit an `int`. -/
def stoi (s : String) : Except Exception Int :=
  let signed := readSign (s.data.dropWhile isspace)
  let digits := signed.2.takeWhile isdigit
  if digits = [] then .error (.invalid_argument "stoi")
  else
    let magnitude : Int := Int.ofNat (digitsValue 0 digits)
    let value : Int := if signed.1 then -magnitude else magnitude
    if value < -(2 ^ 31) ∨ value > 2 ^ 31 - 1 then .error (.out_of_range "stoi")
    else .ok value

/-! ## The key index -/

/-- Modelled from the spec: the skip list `SkipList<std::string, RedisValue>`
(its header is not among the sources).  The state is the level-0 forward
chain after the head sentinel, the entries in the order iteration yields
them. -/
abbrev SkipList := List (String × RedisValue)

/-- `std::string::operator<` on the characters: lexicographic order. -/
def lessChars : List Char → List Char → Bool
  | _, [] => false
  | [], _ :: _ => true
  | a :: as, b :: bs =>
    if a.toNat < b.toNat then true
    else if b.toNat < a.toNat then false
    else lessChars as bs

/-- `std::string::operator<`, the comparison of keys in the index. -/
def keyLess (a b : String) : Bool := lessChars a.data b.data

/-- Modelled from the spec: `searchItem`, "stepping right while
`forward[level].key < key`", then the node reached is the answer exactly when
it carries the key.  The value of the node found is returned.  The walk is
the one along level 0; it is the search of the skip list on every ascending
chain, whatever the heights of the nodes.  On a chain that is not ascending
the search from the upper levels can stop short of a node that this walk
reaches. -/
def searchItem : SkipList → String → Option RedisValue
  | [], _ => none
  | (k, v) :: rest, key =>
    if keyLess k key then searchItem rest key
    else if k = key then some v
    else none

/-- Modelled from the spec: `addItem`, "if key exists, no-op and returns
false; else creates node" spliced at the place the search stops. -/
def addItem : SkipList → String → RedisValue → SkipList
  | [], key, value => [(key, value)]
  | (k, v) :: rest, key, value =>
    if keyLess k key then (k, v) :: addItem rest key value
    else if k = key then (k, v) :: rest
    else (key, value) :: (k, v) :: rest

/-- The assignment `currentNode->value = value` through the node that
`searchItem` returned for `key`. -/
def assignValue : SkipList → String → RedisValue → SkipList
  | [], _, _ => []
  | (k, v) :: rest, key, value =>
    if keyLess k key then (k, v) :: assignValue rest key value
    else if k = key then (k, value) :: rest
    else (k, v) :: rest

/-! ## RedisHelper (RedisHelper.cpp) -/

/-- The `SET_MODEL` argument of `set`: no suffix, `NX` or `XX`. -/
inductive SET_MODEL where
  | NONE | NX | XX
  deriving DecidableEq, Repr

namespace RedisHelper

/-- `RedisHelper::setnx`. -/
def setnx (db : SkipList) (key : String) (value : RedisValue) : String × SkipList :=
  match searchItem db key with
  | some _ => ("key: " ++ key ++ "  exists!", db)
  | none => ("OK", addItem db key value)

/-- `RedisHelper::setex`. -/
def setex (db : SkipList) (key : String) (value : RedisValue) : String × SkipList :=
  match searchItem db key with
  | none => ("key: " ++ key ++ " does not exist!", db)
  | some _ => ("OK", assignValue db key value)

/-- `RedisHelper::set`. -/
def set (db : SkipList) (key : String) (value : RedisValue) (model : SET_MODEL) :
    String × SkipList :=
  if model = SET_MODEL.XX then setex db key value
  else if model = SET_MODEL.NX then setnx db key value
  else
    match searchItem db key with
    | none => ("OK", (setnx db key value).2)
    | some _ => ("OK", (setex db key value).2)

/-- `RedisHelper::get`. -/
def get (db : SkipList) (key : String) : String :=
  match searchItem db key with
  | none => "key: " ++ key ++ " does not exist!"
  | some value => value.dump

/-- `RedisHelper::incrby`.  The sum `std::stoi(value) + increment` is an
`int` addition, taken modulo `2^32`. -/
def incrby (db : SkipList) (key : String) (increment : Int) :
    Except Exception (String × SkipList) :=
  match searchItem db key with
  | none =>
    let value := to_string increment
    .ok ("(integer) " ++ value, addItem db key (.str value))
  | some current => do
    let value ← erase current.dump 0 1
    let value ← erase value (sizeMinusOne value) npos
    if value.data.all isdigit then
      let parsed ← stoi value
      let curValue := wrapInt (parsed + increment)
      let value := to_string curValue
      .ok ("(integer) " ++ value, assignValue db key (.str value))
    else .ok ("The value of " ++ key ++ " is not a numeric type", db)

/-- `RedisHelper::incr`. -/
def incr (db : SkipList) (key : String) : Except Exception (String × SkipList) :=
  incrby db key 1

/-- `RedisHelper::decr`. -/
def decr (db : SkipList) (key : String) : Except Exception (String × SkipList) :=
  incrby db key (-1)

/-- `RedisHelper::decrby`: the argument of `incrby` is the `int` negation
`-increment`. -/
def decrby (db : SkipList) (key : String) (increment : Int) :
    Except Exception (String × SkipList) :=
  incrby db key (wrapInt (-increment))

end RedisHelper

/-! ## RedisServer (RedisServer.cpp) -/

/-- The loop `while (iss >> command) tokens.push_back(command)`: `current`
is the token being read. -/
def tokenizeChars : List Char → List Char → List String
  | [], current => if current = [] then [] else [String.mk current]
  | ch :: rest, current =>
    if isspace ch then
      if current = [] then tokenizeChars rest []
      else String.mk current :: tokenizeChars rest []
    else tokenizeChars rest (current ++ [ch])

/-- The tokens of a received line, split at white space. -/
def tokenize (receivedData : String) : List String :=
  tokenizeChars receivedData.data []

/-- The interface `CommandParser` (its header is not among the sources):
`parse(tokens)` works on the state `σ` behind `getRedisHelper()` and either
returns the reply or throws a `std::exception`. -/
structure CommandParser (σ : Type) where
  parse : List String → σ → Except Exception String × σ

/-- Modelled from the spec: the parser registry `ParserFlyweightFactory`,
"a process-wide cache keyed by command name"; "unknown command names return a
null parser".  The cache is not observable, so the lookup is a function of the
name. -/
structure ParserFlyweightFactory (σ : Type) where
  getParser : String → Option (CommandParser σ)

/-- The session fields of `RedisServer`. -/
structure RedisServer where
  startMulti : Bool
  fallback : Bool
  commandsQueue : List String
  deriving DecidableEq, Repr

/-- The session a server starts with. -/
def RedisServer.initial : RedisServer :=
  { startMulti := false, fallback := false, commandsQueue := [] }

/-- The `try`/`catch` around `commandParser->parse(tokens)`. -/
def parseResponse (command : String) (result : Except Exception String) : String :=
  match result with
  | .ok responseMessage => responseMessage
  | .error e => "Error processing command \x27" ++ command ++ "\x27: " ++ e.what

/-- The final loop of `executeTransaction` from index `i`: the rows
`to_string(i + 1) + ")" + responseMessagesList[i]`, a newline after every row
but the one at index `size - 1`. -/
def joinResponses (size : Nat) : Nat → List String → String
  | _, [] => ""
  | i, responseMessage :: rest =>
    to_string (Int.ofNat (i + 1)) ++ ")" ++ responseMessage
      ++ (if i ≠ size - 1 then "\n" else "") ++ joinResponses size (i + 1) rest

/-- `RedisServer::executeTransaction`: the reply, the queue left behind and
the state of the helper.  `none` stands for undefined behaviour: `front()` of
an empty token vector, or `parse` called through a null parser. -/
def executeTransaction {σ : Type} (flyweightFactory : ParserFlyweightFactory σ) :
    List String → List String → σ → Option (String × List String × σ)
  | [], responseMessagesList, helper =>
    some (joinResponses responseMessagesList.length 0 responseMessagesList, [], helper)
  | receivedData :: commandsQueue, responseMessagesList, helper =>
    match tokenize receivedData with
    | [] => none
    | command :: rest =>
      if command = "quit" ∨ command = "exit" then some ("stop", commandsQueue, helper)
      else if command = "multi" then
        executeTransaction flyweightFactory commandsQueue
          (responseMessagesList ++ ["Open the transaction repeatedly!"]) helper
      else if command = "exec" then
        executeTransaction flyweightFactory commandsQueue
          (responseMessagesList ++ ["No transaction is opened!"]) helper
      else
        match flyweightFactory.getParser command with
        | none => none
        | some commandParser =>
          let result := commandParser.parse (command :: rest) helper
          executeTransaction flyweightFactory commandsQueue
            (responseMessagesList ++ [parseResponse command result.1]) result.2

/-- `RedisServer::handleClient`: the reply, the session and the state of the
helper after one received line; `none` only when `executeTransaction` has
undefined behaviour. -/
def handleClient {σ : Type} (flyweightFactory : ParserFlyweightFactory σ)
    (self : RedisServer) (helper : σ) (receivedData : String) :
    Option (String × RedisServer × σ) :=
  if receivedData.length > 0 then
    match tokenize receivedData with
    | [] => some ("error", self, helper)
    | command :: rest =>
      if command = "quit" ∨ command = "exit" then some ("stop", self, helper)
      else if command = "multi" then
        if self.startMulti then some ("Open the transaction repeatedly!", self, helper)
        else some ("OK", { self with startMulti := true, commandsQueue := [] }, helper)
      else if command = "exec" then
        if self.startMulti = false then some ("No transaction is opened!", self, helper)
        else if !self.fallback then
          match executeTransaction flyweightFactory self.commandsQueue [] helper with
          | none => none
          | some (responseMessage, queue, helper1) =>
            some (responseMessage,
              { self with startMulti := false, commandsQueue := queue }, helper1)
        else
          some ("(error) EXECABORT Transaction discarded because of previous errors.",
            { self with startMulti := false, fallback := false }, helper)
      else if command = "discard" then
        some ("OK", { self with startMulti := false, fallback := false }, helper)
      else if !self.startMulti then
        match flyweightFactory.getParser command with
        | none =>
          some ("Error: Command \x27" ++ command ++ "\x27 not recognized.", self, helper)
        | some commandParser =>
          let result := commandParser.parse (command :: rest) helper
          some (parseResponse command result.1, self, result.2)
      else
        match flyweightFactory.getParser command with
        | none =>
          some ("Error: Command \x27" ++ command ++ "\x27 not recognized.",
            { self with fallback := true }, helper)
        | some _ =>
          some ("QUEUED",
            { self with commandsQueue := self.commandsQueue ++ [receivedData] }, helper)
  else some ("nil", self, helper)

/-- A run of `handleClient` over received lines, with the replies in order;
`none` as soon as one call has no defined result. -/
def handleClients {σ : Type} (flyweightFactory : ParserFlyweightFactory σ) :
    RedisServer → σ → List String → Option (List String × RedisServer × σ)
  | self, helper, [] => some ([], self, helper)
  | self, helper, receivedData :: rest =>
    match handleClient flyweightFactory self helper receivedData with
    | none => none
    | some (responseMessage, self1, helper1) =>
      match handleClients flyweightFactory self1 helper1 rest with
      | none => none
      | some (responses, self2, helper2) => some (responseMessage :: responses, self2, helper2)

/-- The session states a server can be in: the initial session with any
helper state, and every state `handleClient` leads to from one of them. -/
inductive Reachable {σ : Type} (flyweightFactory : ParserFlyweightFactory σ) :
    RedisServer → σ → Prop where
  | initial (helper : σ) : Reachable flyweightFactory RedisServer.initial helper
  | step {self : RedisServer} {helper : σ} (receivedData : String)
      {responseMessage : String} {self1 : RedisServer} {helper1 : σ} :
      Reachable flyweightFactory self helper →
      handleClient flyweightFactory self helper receivedData
        = some (responseMessage, self1, helper1) →
      Reachable flyweightFactory self1 helper1

/-- The first token of a received line, if it has one. -/
def firstToken (receivedData : String) : Option String :=
  (tokenize receivedData).head?

/-! ## The command catalogue used in the scenarios -/

/-- Modelled from the spec: the parsers of `get k` (2 tokens), `setnx k v`,
`setex k v` (3 tokens) and `set k v [NX|XX]` (3 or 4 tokens) from the command
table, over `RedisHelper`.  The command table gives no text for a wrong
arity or an unknown mode suffix; `diagnostic` is that reply. -/
def catalogue (diagnostic : String) : ParserFlyweightFactory SkipList where
  getParser command :=
    if command = "get" then
      some ⟨fun tokens db =>
        match tokens with
        | [_, k] => (.ok (RedisHelper.get db k), db)
        | _ => (.ok diagnostic, db)⟩
    else if command = "setnx" then
      some ⟨fun tokens db =>
        match tokens with
        | [_, k, v] => (.ok (RedisHelper.setnx db k (.str v)).1, (RedisHelper.setnx db k (.str v)).2)
        | _ => (.ok diagnostic, db)⟩
    else if command = "setex" then
      some ⟨fun tokens db =>
        match tokens with
        | [_, k, v] => (.ok (RedisHelper.setex db k (.str v)).1, (RedisHelper.setex db k (.str v)).2)
        | _ => (.ok diagnostic, db)⟩
    else if command = "set" then
      some ⟨fun tokens db =>
        match tokens with
        | [_, k, v] =>
          (.ok (RedisHelper.set db k (.str v) .NONE).1, (RedisHelper.set db k (.str v) .NONE).2)
        | [_, k, v, mode] =>
          if mode = "NX" then
            (.ok (RedisHelper.set db k (.str v) .NX).1, (RedisHelper.set db k (.str v) .NX).2)
          else if mode = "XX" then
            (.ok (RedisHelper.set db k (.str v) .XX).1, (RedisHelper.set db k (.str v) .XX).2)
          else (.ok diagnostic, db)
        | _ => (.ok diagnostic, db)⟩
    else none

/-! ## RedisHelper: lists, hashes, keys and bulk commands -/

/-- `RedisValue::stringValue()`: the text of a string, the shared empty
string for every other variant. -/
def RedisValue.stringValue : RedisValue → String
  | .str value => value
  | _ => ""

/-- `RedisValue::arrayItems()`: the items of a list, the shared empty vector
for every other variant. -/
def RedisValue.arrayItems : RedisValue → List RedisValue
  | .array items => items
  | _ => []

/-- `RedisValue::objectItems()`: the entries of a hash, the shared empty map
for every other variant. -/
def RedisValue.objectItems : RedisValue → List (String × RedisValue)
  | .object items => items
  | _ => []

/-- How a call of a command that can fail ends: it returns a reply, it throws
a `std::exception`, or its behaviour is undefined (an element read from an
empty vector or past its end).  The first two carry the database the call
leaves. -/
inductive Outcome where
  | returned (reply : String) (db : SkipList)
  | thrown (e : Exception) (db : SkipList)
  | undefined

/-- Modelled from the spec: `deleteItem`, "like search, records the
predecessor at each level; unlinks and frees node if found".  The result says
whether a node was removed. -/
def deleteItem : SkipList → String → Bool × SkipList
  | [], _ => (false, [])
  | (k, v) :: rest, key =>
    if keyLess k key then ((deleteItem rest key).1, (k, v) :: (deleteItem rest key).2)
    else if k = key then (true, rest)
    else (false, (k, v) :: rest)

/-- The assignment `currentNode->key = newName` through the node that
`searchItem` returned for `key`. -/
def assignKey : SkipList → String → String → SkipList
  | [], _, _ => []
  | (k, v) :: rest, key, newName =>
    if keyLess k key then (k, v) :: assignKey rest key newName
    else if k = key then (newName, v) :: rest
    else (k, v) :: rest

/-- `std::map::count(key)` and `find(key)` on the entries of a
`RedisValue::object`, which a `std::map` keeps in key order: the value stored
under `key`, if any. -/
def mapFind (valueMap : List (String × RedisValue)) (key : String) : Option RedisValue :=
  searchItem valueMap key

/-- `valueMap[key] = value` on a `std::map`: the entry is created at its place
in key order, or its value replaced. -/
def mapAssign (valueMap : List (String × RedisValue)) (key : String) (value : RedisValue) :
    List (String × RedisValue) :=
  match searchItem valueMap key with
  | none => addItem valueMap key value
  | some _ => assignValue valueMap key value

/-- The representation invariant of the key index and of a `std::map`: the
entries are in strictly ascending key order (so the keys are distinct). -/
def Ascending (entries : List (String × RedisValue)) : Prop :=
  entries.Pairwise (fun a b => keyLess a.1 b.1 = true)

/-- The two calls `resMessage.erase(0, 1); resMessage.erase(resMessage.size() - 1)`
at the end of `lpop` and `rpop`, on the database `db` the pop has left. -/
def eraseEnds (resMessage : String) (db : SkipList) : Outcome :=
  match erase resMessage 0 1 with
  | .error e => .thrown e db
  | .ok once =>
    match erase once (sizeMinusOne once) npos with
    | .error e => .thrown e db
    | .ok twice => .returned twice db

/-- `valueList[i]` with an `int` index: the element at `i`, and `none`
(undefined behaviour) when `i` is negative or past the end. -/
def vectorAt (valueList : List RedisValue) (i : Int) : Option RedisValue :=
  if i < 0 then none else valueList.get? i.toNat

/-- The loop of `lrange`: `fuel` iterations from index `i`, each reading
`valueList[i]`; `none` when an index is negative or past the end. -/
def lrangeLoop (valueList : List RedisValue) (right : Int) : Nat → Int → Option String
  | 0, _ => some ""
  | fuel + 1, i =>
    match vectorAt valueList i with
    | none => none
    | some item =>
      match lrangeLoop valueList right fuel (i + 1) with
      | none => none
      | some rest =>
        some (to_string (i + 1) ++ ") " ++ item.dump ++ (if i ≠ right then "\n" else "")
          ++ rest)

/-- The loop of `hset` over `filed`, two entries at a time; `none` when
`filed[i + 1]` is past the end. -/
def hsetLoop : List String → List (String × RedisValue) → Nat →
    Option (List (String × RedisValue) × Nat)
  | [], valueMap, count => some (valueMap, count)
  | [_], _, _ => none
  | hkey :: hval :: rest, valueMap, count =>
    match mapFind valueMap hkey with
    | none => hsetLoop rest (mapAssign valueMap hkey (.str hval)) (count + 1)
    | some _ => hsetLoop rest valueMap count

/-- The loop of `hkeys`: a row `index) field` and a newline per entry. -/
def hkeysLoop : Nat → List (String × RedisValue) → String
  | _, [] => ""
  | index, hkey :: rest =>
    to_string (Int.ofNat index) ++ ") " ++ hkey.1 ++ "\n" ++ hkeysLoop (index + 1) rest

/-- The loop of `hvals`: a row `index) text` and a newline per entry. -/
def hvalsLoop : Nat → List (String × RedisValue) → String
  | _, [] => ""
  | index, hkey :: rest =>
    to_string (Int.ofNat index) ++ ") " ++ hkey.2.stringValue ++ "\n"
      ++ hvalsLoop (index + 1) rest

namespace RedisHelper

/-- `RedisHelper::rename`: the key of the node found is overwritten where
the node stands. -/
def rename (db : SkipList) (oldName newName : String) : String × SkipList :=
  match searchItem db oldName with
  | none => (oldName ++ " does not exist!", db)
  | some _ => ("OK", assignKey db oldName newName)

/-- `RedisHelper::exists`. -/
def exists_ (db : SkipList) (keys : List String) : String :=
  "(integer) "
    ++ to_string (Int.ofNat (keys.filter (fun key => (searchItem db key).isSome)).length)

/-- The loop of `RedisHelper::del`. -/
def delLoop : SkipList → List String → Nat → Nat × SkipList
  | db, [], count => (count, db)
  | db, key :: rest, count =>
    if (deleteItem db key).1 then delLoop (deleteItem db key).2 rest (count + 1)
    else delLoop (deleteItem db key).2 rest count

/-- `RedisHelper::del`. -/
def del (db : SkipList) (keys : List String) : String × SkipList :=
  ("(integer) " ++ to_string (Int.ofNat (delLoop db keys 0).1), (delLoop db keys 0).2)

/-- The loop of `RedisHelper::mset`: `set(key, value)` for `items[i]`,
`items[i + 1]`. -/
def msetLoop : SkipList → List String → SkipList
  | db, key :: value :: rest => msetLoop (set db key (.str value) .NONE).2 rest
  | db, _ => db

/-- `RedisHelper::mset`. -/
def mset (db : SkipList) (items : List String) : String × SkipList :=
  if items.length % 2 ≠ 0 then ("wrong number of arguments for MSET.", db)
  else ("OK", msetLoop db items)

/-- `RedisHelper::append`.  `size()` counts bytes. -/
def append (db : SkipList) (key value : String) : String × SkipList :=
  match searchItem db key with
  | none => ("(integer) " ++ to_string (Int.ofNat value.utf8ByteSize),
      addItem db key (.str value))
  | some current =>
    ("(integer) "
        ++ to_string (Int.ofNat (RedisValue.str (current.dump ++ value)).dump.utf8ByteSize),
      assignValue db key (.str (current.dump ++ value)))

/-- `RedisHelper::lpush`.  List sizes are taken to fit an `int`. -/
def lpush (db : SkipList) (key value : String) : String × SkipList :=
  match searchItem db key with
  | none => ("(integer) " ++ to_string 1, addItem db key (.array [.str value]))
  | some current =>
    if current.type ≠ .ARRAY then
      ("The key:" ++ key ++ " " ++ "already exists and the value is not a list!", db)
    else
      ("(integer) " ++ to_string (Int.ofNat (RedisValue.str value :: current.arrayItems).length),
        assignValue db key (.array (.str value :: current.arrayItems)))

/-- `RedisHelper::rpush`.  List sizes are taken to fit an `int`. -/
def rpush (db : SkipList) (key value : String) : String × SkipList :=
  match searchItem db key with
  | none => ("(integer) " ++ to_string 1, addItem db key (.array [.str value]))
  | some current =>
    if current.type ≠ .ARRAY then
      ("The key:" ++ key ++ " " ++ "already exists and the value is not a list!", db)
    else
      ("(integer) " ++ to_string (Int.ofNat (current.arrayItems ++ [RedisValue.str value]).length),
        assignValue db key (.array (current.arrayItems ++ [.str value])))

/-- `RedisHelper::lpop`: `*valueList.begin()` is read before the erase. -/
def lpop (db : SkipList) (key : String) : Outcome :=
  match searchItem db key with
  | none => .returned "(nil)" db
  | some current =>
    if current.type ≠ .ARRAY then .returned "(nil)" db
    else
      match current.arrayItems with
      | [] => .undefined
      | first :: rest => eraseEnds first.dump (assignValue db key (.array rest))

/-- `RedisHelper::rpop`: `valueList.back()` is read before `pop_back()`. -/
def rpop (db : SkipList) (key : String) : Outcome :=
  match searchItem db key with
  | none => .returned "(nil)" db
  | some current =>
    if current.type ≠ .ARRAY then .returned "(nil)" db
    else
      match current.arrayItems.getLast? with
      | none => .undefined
      | some last => eraseEnds last.dump (assignValue db key (.array current.arrayItems.dropLast))

/-- `RedisHelper::lrange` (the third parameter is named `end` in the source).
`int(valueList.size() - 1)` is the size minus one, `-1` for the empty list:
list sizes are taken to fit an `int`. -/
def lrange (db : SkipList) (key start stop : String) : Outcome :=
  match searchItem db key with
  | none => .returned "(nil)" db
  | some current =>
    if current.type ≠ .ARRAY then .returned "(nil)" db
    else
      match stoi start with
      | .error e => .thrown e db
      | .ok left0 =>
        match stoi stop with
        | .error e => .thrown e db
        | .ok right0 =>
          let left := max left0 0
          let right := min right0 (Int.ofNat current.arrayItems.length - 1)
          let resMessage :=
            if right < left ∨ left ≥ Int.ofNat current.arrayItems.length then
              "(empty list or set)"
            else ""
          match lrangeLoop current.arrayItems right (right - left + 1).toNat left with
          | none => .undefined
          | some rows => .returned (resMessage ++ rows) db

/-- `RedisHelper::hset`. -/
def hset (db : SkipList) (key : String) (filed : List String) : Outcome :=
  match searchItem db key with
  | none =>
    match hsetLoop filed [] 0 with
    | none => .undefined
    | some result =>
      .returned ("(integer) " ++ to_string (Int.ofNat result.2))
        (addItem db key (.object result.1))
  | some current =>
    if current.type ≠ .OBJECT then
      .returned ("The key:" ++ key ++ " " ++ "already exists and the value is not a hashtable!")
        db
    else
      match hsetLoop filed current.objectItems 0 with
      | none => .undefined
      | some result =>
        .returned ("(integer) " ++ to_string (Int.ofNat result.2))
          (assignValue db key (.object result.1))

/-- `RedisHelper::hget`. -/
def hget (db : SkipList) (key filed : String) : String :=
  match searchItem db key with
  | none => "(nil)"
  | some current =>
    if current.type ≠ .OBJECT then "(nil)"
    else
      match mapFind current.objectItems filed with
      | none => "(nil)"
      | some value => value.stringValue

/-- `RedisHelper::hkeys`. -/
def hkeys (db : SkipList) (key : String) : Outcome :=
  match searchItem db key with
  | none => .returned ("The key:" ++ key ++ " " ++ "does not exist!") db
  | some current =>
    if current.type ≠ .OBJECT then
      .returned ("The key:" ++ key ++ " " ++ "already exists and the value is not a hashtable!")
        db
    else
      match erase (hkeysLoop 1 current.objectItems)
          (sizeMinusOne (hkeysLoop 1 current.objectItems)) npos with
      | .error e => .thrown e db
      | .ok resMessage => .returned resMessage db

/-- `RedisHelper::hvals`. -/
def hvals (db : SkipList) (key : String) : Outcome :=
  match searchItem db key with
  | none => .returned ("The key:" ++ key ++ " " ++ "does not exist!") db
  | some current =>
    if current.type ≠ .OBJECT then
      .returned ("The key:" ++ key ++ " " ++ "already exists and the value is not a hashtable!")
        db
    else
      match erase (hvalsLoop 1 current.objectItems)
          (sizeMinusOne (hvalsLoop 1 current.objectItems)) npos with
      | .error e => .thrown e db
      | .ok resMessage => .returned resMessage db

end RedisHelper

/-- The reply of a call that returned. -/
def Outcome.reply? : Outcome → Option String
  | .returned reply _ => some reply
  | _ => none

/-- The database a call leaves, when it returned or threw. -/
def Outcome.db? : Outcome → Option SkipList
  | .returned _ db => some db
  | .thrown _ db => some db
  | .undefined => none

/-- The value paired with the last occurrence of `k` in an argument list
`k1 v1 ... kn vn`. -/
def lastValue : List String → String → Option String
  | key :: value :: rest, k =>
    match lastValue rest k with
    | some later => some later
    | none => if key = k then some value else none
  | _, _ => none

/-- The rows `p) dump` of a listing of list elements, where `p` is the
position of the element counted from 1 and the first element is the one at
index `i`. -/
def positionRows : Nat → List RedisValue → List String
  | _, [] => []
  | i, item :: rest =>
    (to_string (Int.ofNat i + 1) ++ ") " ++ item.dump) :: positionRows (i + 1) rest

/-- A text with its first and its last character removed. -/
def stripEnds (s : String) : String := String.mk (s.data.drop 1).dropLast

/-- The argument list `f1 v1 .. fn vn` of the pairs `(f1, v1) .. (fn, vn)`:
every list of even length is one. -/
def flatPairs : List (String × String) → List String
  | [] => []
  | (f, v) :: rest => f :: v :: flatPairs rest

/-- The value paired with the first occurrence of the field `g`. -/
def firstValue : List (String × String) → String → Option String
  | [], _ => none
  | (f, v) :: rest, g => if f = g then some v else firstValue rest g

/-- The number of distinct fields among `f1 .. fn` that the hash `h` does not
have. -/
def newFieldCount (h : List (String × RedisValue)) (ps : List (String × String)) : Nat :=
  ((ps.map Prod.fst).toFinset.filter (fun f => (mapFind h f).isNone = true)).card

/-- The rows `i) text` of a listing, numbered from `i`. -/
def numberedRows : Nat → List String → List String
  | _, [] => []
  | i, text :: rest => (to_string (Int.ofNat i) ++ ") " ++ text) :: numberedRows (i + 1) rest

/-! ## RedisHelper: `strlen`, `hdel`, the dump files and `select` -/

/-- Modelled from the spec: the sentinel `head` of the skip list, which
"precedes all keys"; `getHead()` returns it and its key is the empty string. -/
def headNode : String × RedisValue := ("", .null)

/-- The loop of `RedisHelper::flush` from a node on: one line
`key:dump(value)` per node whose key is not empty. -/
def flushLoop : SkipList → String
  | [] => ""
  | currentNode :: rest =>
    (if currentNode.1 ≠ "" then currentNode.1 ++ ":" ++ currentNode.2.dump ++ "\n" else "")
      ++ flushLoop rest

/-- `std::map::erase(key)` on the entries of a hash. -/
def mapErase (valueMap : List (String × RedisValue)) (key : String) :
    List (String × RedisValue) :=
  (deleteItem valueMap key).2

/-- The loop of `RedisHelper::hdel` over the fields. -/
def hdelLoop : List String → List (String × RedisValue) → Nat →
    List (String × RedisValue) × Nat
  | [], valueMap, count => (valueMap, count)
  | hkey :: rest, valueMap, count =>
    match mapFind valueMap hkey with
    | some _ => hdelLoop rest (mapErase valueMap hkey) (count + 1)
    | none => hdelLoop rest valueMap count

/-- What `RedisHelper.cpp` takes from headers and the environment: the macros
`DEFAULT_DB_FOLDER`, `DATABASE_FILE_NAME` and `DATABASE_FILE_NUMBER`, whether
`std::ofstream` opens a path, and the index `SkipList::loadFile` builds in a
fresh skip list from the content of a file (`none` for a missing file). -/
structure Settings where
  DEFAULT_DB_FOLDER : String
  DATABASE_FILE_NAME : String
  DATABASE_FILE_NUMBER : Int
  opens : String → Bool
  loadFile : Option String → SkipList

/-- The fields of a `RedisHelper` and the dump files it reads and writes, by
path. -/
structure RedisHelper.State where
  redisDataBase : SkipList
  dataBaseIndex : String
  files : String → Option String

namespace RedisHelper

/-- `RedisHelper::strlen`.  `size()` counts bytes. -/
def strlen (db : SkipList) (key : String) : String :=
  match searchItem db key with
  | none => "(integer) 0"
  | some current => "(integer) " ++ to_string (Int.ofNat current.dump.utf8ByteSize)

/-- `RedisHelper::hdel`. -/
def hdel (db : SkipList) (key : String) (filed : List String) : String × SkipList :=
  match searchItem db key with
  | none => ("(integer) " ++ to_string 0, db)
  | some current =>
    if current.type ≠ .OBJECT then ("(integer) " ++ to_string 0, db)
    else
      ("(integer) " ++ to_string (Int.ofNat (hdelLoop filed current.objectItems 0).2),
        assignValue db key (.object (hdelLoop filed current.objectItems 0).1))

/-- `RedisHelper::getFilePath`. -/
def getFilePath (env : Settings) (self : State) : String :=
  env.DEFAULT_DB_FOLDER ++ "/" ++ env.DATABASE_FILE_NAME ++ self.dataBaseIndex

/-- `RedisHelper::flush`: when the file opens, it is overwritten with the
lines of the loop, which starts at the head. -/
def flush (env : Settings) (self : State) : State :=
  if env.opens (getFilePath env self) then
    { self with
      files := fun path =>
        if path = getFilePath env self then some (flushLoop (headNode :: self.redisDataBase))
        else self.files path }
  else self

/-- `RedisHelper::select`. -/
def select (env : Settings) (self : State) (index : Int) : String × State :=
  if index < 0 ∨ index > env.DATABASE_FILE_NUMBER - 1 then
    ("database index out of range.", self)
  else
    ("OK",
      { redisDataBase :=
          env.loadFile ((flush env self).files
            (getFilePath env { flush env self with dataBaseIndex := to_string index }))
        dataBaseIndex := to_string index
        files := (flush env self).files })

end RedisHelper

/-! ## Comparison of values (RedisValue.cpp) -/

/-- `RedisValue::operator==`.  `samePointer` says whether the two handles
share their object (`redisValue == other.redisValue`); `equals` is the
virtual `equals` of the value classes, whose header is not among the
sources. -/
def RedisValue.eqOp (equals : RedisValue → RedisValue → Bool) (samePointer : Bool)
    (a b : RedisValue) : Bool :=
  if samePointer then true
  else if a.type ≠ b.type then false
  else equals a b

/-- `RedisValue::operator<`.  `tagValue` gives the integer of each enumerator
of `Type` and `less` is the virtual `less` of the value classes; both come
from headers that are not among the sources. -/
def RedisValue.ltOp (less : RedisValue → RedisValue → Bool)
    (tagValue : RedisValue.Type → Int) (samePointer : Bool) (a b : RedisValue) : Bool :=
  if samePointer then false
  else if a.type ≠ b.type then decide (tagValue a.type < tagValue b.type)
  else less a b

/-- The lines a dump file holds for an index: `key:dump(value)` and a
newline for every entry whose key is not empty, in the order of the chain. -/
def dumpLines (db : SkipList) : List String :=
  (db.filter (fun entry => entry.1 ≠ "")).map
    (fun entry => entry.1 ++ ":" ++ entry.2.dump ++ "\n")

/-- A lowercase hexadecimal digit, read off the digit string. -/
def lowerHexDigit (d : Nat) : Char := "0123456789abcdef".data.getD d '0'

/-- The escape of one character as the format of a dumped string states it:
two characters for backslash, double quote and the five named control
characters, `\u` and four lowercase hexadecimal digits for any other character
up to `0x1F`, the character itself otherwise. -/
def specEscape (ch : Char) : List Char :=
  if ch.toNat = 92 then ['\\', '\\']
  else if ch.toNat = 34 then ['\\', '"']
  else if ch.toNat = 8 then ['\\', 'b']
  else if ch.toNat = 12 then ['\\', 'f']
  else if ch.toNat = 10 then ['\\', 'n']
  else if ch.toNat = 13 then ['\\', 'r']
  else if ch.toNat = 9 then ['\\', 't']
  else if ch.toNat ≤ 31 then
    ['\\', 'u', lowerHexDigit (ch.toNat / 4096 % 16), lowerHexDigit (ch.toNat / 256 % 16),
      lowerHexDigit (ch.toNat / 16 % 16), lowerHexDigit (ch.toNat % 16)]
  else [ch]

/-- Whether a text between two delimiting quotes has no double quote outside
an escape: a backslash takes the character after it with it. -/
def wellEscaped : List Char → Bool
  | [] => true
  | ch :: rest =>
    if ch.toNat = 92 then
      match rest with
      | [] => false
      | _ :: rest2 => wellEscaped rest2
    else if ch.toNat = 34 then false
    else wellEscaped rest

/-- The settings of the scenarios: folder `redis-data`, 16 databases, every
file opens; the loader, which is not among the sources, is taken to build the
empty index. -/
def scenarioSettings : Settings where
  DEFAULT_DB_FOLDER := "redis-data"
  DATABASE_FILE_NAME := "db"
  DATABASE_FILE_NUMBER := 16
  opens := fun _ => true
  loadFile := fun _ => []

/-- The enumerators of `Type` numbered in the order they are listed here. -/
def declaredOrder : RedisValue.Type → Int
  | .NUL => 0
  | .NUMBER => 1
  | .BOOL => 2
  | .STRING => 3
  | .ARRAY => 4
  | .OBJECT => 5

/-! ## The parser of dumped values (RedisValue.cpp, Global.h) -/

/-- `max_depth` of `Global.h`. -/
def max_depth : Nat := 200

/-- The number `%d` prints for the `char` at the place of the character `c`:
the first byte of the UTF-8 encoding of `c`, read as a signed value. -/
def charAsInt (c : Char) : Int :=
  if c.toNat < 0x80 then Int.ofNat c.toNat
  else if c.toNat < 0x800 then Int.ofNat (0xC0 + c.toNat / 64) - 256
  else if c.toNat < 0x10000 then Int.ofNat (0xE0 + c.toNat / 4096) - 256
  else Int.ofNat (0xF0 + c.toNat / 262144) - 256

/-- `esc` of `Global.h`: the character between apostrophes and its code when
it is between `0x20` and `0x7f`, its code alone otherwise. -/
def esc (c : Char) : String :=
  if c.toNat ≥ 0x20 ∧ c.toNat ≤ 0x7f then
    "\x27" ++ String.singleton c ++ "\x27 (" ++ to_string (charAsInt c) ++ ")"
  else "(" ++ to_string (charAsInt c) ++ ")"

/-- What a parsing step gives: the message passed to `fail`, or the value
read and the input left after it (`str` from position `i` on). -/
abbrev Parsed (α : Type) := Except String (α × List Char)

/-- Modelled from the spec: `consumeGarbage`, which "consumes trailing
whitespace": blanks, tabs, carriage returns and line feeds are skipped. -/
def consumeGarbage : List Char → List Char
  | [] => []
  | ch :: rest =>
    if ch = ' ' ∨ ch = '\r' ∨ ch = '\n' ∨ ch = '\t' then consumeGarbage rest else ch :: rest

/-- Modelled from the spec: the value of one hexadecimal digit of a `\uXXXX`
escape, in either case. -/
def hexValue (ch : Char) : Option Nat :=
  if 48 ≤ ch.toNat ∧ ch.toNat ≤ 57 then some (ch.toNat - 48)
  else if 97 ≤ ch.toNat ∧ ch.toNat ≤ 102 then some (ch.toNat - 87)
  else if 65 ≤ ch.toNat ∧ ch.toNat ≤ 70 then some (ch.toNat - 55)
  else none

/-- Modelled from the spec: the code point written by the four digits of a
`\uXXXX` escape. -/
def hex4 (a b c d : Char) : Option Nat :=
  match hexValue a, hexValue b, hexValue c, hexValue d with
  | some x, some y, some z, some w => some (4096 * x + 256 * y + 16 * z + w)
  | _, _, _, _ => none

/-- Modelled from the spec: appending a code point to a "UTF-8 byte
string".  A string of the embedding is the text its bytes encode, so the
bytes of a code point are one character.  Half of a surrogate pair on its
own is no character: its three bytes are not UTF-8 text, and `U+FFFD` stands
for them. -/
def encodeUtf8 (pt : Nat) : List Char :=
  if 0xD800 ≤ pt ∧ pt ≤ 0xDFFF then [Char.ofNat 0xFFFD] else [Char.ofNat pt]

/-- Modelled from the spec: the bytes owed for the last `\uXXXX` escape read,
which is held back until it is known whether a second half follows. -/
def flushPending : Option Nat → List Char
  | none => []
  | some pt => encodeUtf8 pt

/-- Modelled from the spec: "surrogate-pair `\uXXXX`".  A second half that
follows a first half gives one code point; any other escape releases the one
held back and is held back itself.  The result is the bytes to append and the
escape now held back. -/
def joinSurrogate (last : Option Nat) (codepoint : Nat) : List Char × Option Nat :=
  match last with
  | none => ([], some codepoint)
  | some hi =>
    if 0xD800 ≤ hi ∧ hi ≤ 0xDBFF ∧ 0xDC00 ≤ codepoint ∧ codepoint ≤ 0xDFFF then
      (encodeUtf8 ((hi - 0xD800) * 1024 + (codepoint - 0xDC00) + 0x10000), none)
    else (encodeUtf8 hi, some codepoint)

/-- Modelled from the spec: the character a two-character escape stands for,
"the full set of escapes". -/
def unescape (e : Char) : Option Char :=
  if e = 'b' then some (Char.ofNat 8)
  else if e = 'f' then some (Char.ofNat 12)
  else if e = 'n' then some '\n'
  else if e = 'r' then some '\r'
  else if e = 't' then some '\t'
  else if e = '"' ∨ e = '\\' ∨ e = '/' then some e
  else none

/-- Modelled from the spec: reading a string after its opening quote, up to
the closing quote: "strings with the full set of escapes including
surrogate-pair `\uXXXX`".  A character up to `0x1F` that is not escaped, an
unknown escape and the end of the input before the closing quote fail. -/
def parseString : Option Nat → List Char → List Char → Parsed String
  | _, _, [] => .error "unexpected end of input in string"
  | last, out, ch :: rest =>
    if ch = '"' then .ok (String.mk (out ++ flushPending last), rest)
    else if ch.toNat ≤ 0x1f then .error ("unescaped " ++ esc ch ++ " in string")
    else if ch ≠ '\\' then parseString none (out ++ flushPending last ++ [ch]) rest
    else
      match rest with
      | [] => .error "unexpected end of input in string"
      | e :: rest2 =>
        if e = 'u' then
          match rest2 with
          | a :: b :: c :: d :: rest3 =>
            match hex4 a b c d with
            | some codepoint =>
              parseString (joinSurrogate last codepoint).2
                (out ++ (joinSurrogate last codepoint).1) rest3
            | none => .error "bad \\u escape"
          | _ => .error "bad \\u escape"
        else
          match unescape e with
          | some c => parseString none (out ++ flushPending last ++ [c]) rest2
          | none => .error ("invalid escape character " ++ esc e)

/-- Modelled from the spec: the word `null`. -/
def parseNull (input : List Char) : Parsed RedisValue :=
  match input with
  | 'n' :: 'u' :: 'l' :: 'l' :: rest => .ok (.null, rest)
  | _ => .error "parse error: expected null"

/-- Modelled from the spec: the items of an array after `[`, separated by
commas and closed by `]`.  `parseElement` reads one item; the number of turns
is bounded by `fuel`, which the caller sets to the length of the input, since
every turn reads at least one character. -/
def parseArrayLoop (parseElement : List Char → Parsed RedisValue) :
    Nat → List RedisValue → List Char → Parsed RedisValue
  | 0, _, _ => .error "unexpected end of input"
  | fuel + 1, data, input =>
    match parseElement input with
    | .error e => .error e
    | .ok (value, rest) =>
      match consumeGarbage rest with
      | [] => .error "unexpected end of input"
      | ch :: rest2 =>
        if ch = ']' then .ok (.array (data ++ [value]), rest2)
        else if ch = ',' then parseArrayLoop parseElement fuel (data ++ [value]) rest2
        else .error ("expected \x27,\x27 in list, got " ++ esc ch)

/-- Modelled from the spec: the entries of an object after `\x7b`: a quoted
key, a colon and a value, separated by commas and closed by `\x7d`; each entry
is stored with `data[key] = value`.  The number of turns is bounded by `fuel`
as in `parseArrayLoop`. -/
def parseObjectLoop (parseElement : List Char → Parsed RedisValue) :
    Nat → List (String × RedisValue) → List Char → Parsed RedisValue
  | 0, _, _ => .error "unexpected end of input"
  | fuel + 1, data, input =>
    match consumeGarbage input with
    | [] => .error "unexpected end of input"
    | ch :: rest =>
      if ch ≠ '"' then .error ("expected \x27\"\x27 in object, got " ++ esc ch)
      else
        match parseString none [] rest with
        | .error e => .error e
        | .ok (key, rest2) =>
          match consumeGarbage rest2 with
          | [] => .error "unexpected end of input"
          | colon :: rest3 =>
            if colon ≠ ':' then .error ("expected \x27:\x27 in object, got " ++ esc colon)
            else
              match parseElement rest3 with
              | .error e => .error e
              | .ok (value, rest4) =>
                match consumeGarbage rest4 with
                | [] => .error "unexpected end of input"
                | sep :: rest5 =>
                  if sep = '\x7d' then .ok (.object (mapAssign data key value), rest5)
                  else if sep = ',' then
                    parseObjectLoop parseElement fuel (mapAssign data key value) rest5
                  else .error ("expected \x27,\x27 in object, got " ++ esc sep)

/-- Modelled from the spec: one value, with `budget` levels of nesting left
("max nesting depth 200; beyond that fail").  After the whitespace the first
character decides: a quote opens a string, `[` an array, `\x7b` an object, `n`
the word `null`.  The other words of the notation (`true`, `false`, numbers)
denote values for which `RedisValue.cpp` has no constructor; what the parser
does with them is the parameter `literal`. -/
def parseValue (literal : List Char → Parsed RedisValue) : Nat → List Char → Parsed RedisValue
  | 0, _ => .error "exceeded maximum nesting depth"
  | budget + 1, input =>
    match consumeGarbage input with
    | [] => .error "unexpected end of input"
    | ch :: rest =>
      if ch = '"' then
        match parseString none [] rest with
        | .error e => .error e
        | .ok (value, rest2) => .ok (.str value, rest2)
      else if ch = '[' then
        match consumeGarbage rest with
        | [] => .error "unexpected end of input"
        | close :: rest2 =>
          if close = ']' then .ok (.array [], rest2)
          else parseArrayLoop (parseValue literal budget) rest.length [] rest
      else if ch = '\x7b' then
        match consumeGarbage rest with
        | [] => .error "unexpected end of input"
        | close :: rest2 =>
          if close = '\x7d' then .ok (.object [], rest2)
          else parseObjectLoop (parseValue literal budget) rest.length [] rest
      else if ch = 'n' then parseNull (ch :: rest)
      else literal (ch :: rest)

/-- Modelled from the spec: `RedisValueParser::parseRedisValue(depth)`, which
fails when `depth` exceeds `max_depth`. -/
def parseRedisValue (literal : List Char → Parsed RedisValue) (depth : Nat)
    (input : List Char) : Parsed RedisValue :=
  parseValue literal (max_depth + 1 - depth) input

/-- `RedisValue::parse(const std::string &in, std::string &err)`: the value
returned and the content of `err` after the call.  A failure of the parser
returns the null value with the message in `err`; input left after the value
and the whitespace behind it fails with `unexpected trailing`; otherwise the
value read is returned and `err` is as the caller passed it. -/
def RedisValue.parse (literal : List Char → Parsed RedisValue) (input : String)
    (err : String) : RedisValue × String :=
  match parseRedisValue literal 0 input.data with
  | .error e => (.null, e)
  | .ok (result, rest) =>
    match consumeGarbage rest with
    | [] => (result, err)
    | ch :: _ => (.null, "unexpected trailing " ++ esc ch)

/-- The values the commands store: a string, a list of strings, or a hash
whose values are strings (a `std::map`, so its entries are in ascending key
order). -/
def CoreValue : RedisValue → Prop
  | .null => False
  | .str _ => True
  | .array items => ∀ x ∈ items, ∃ s, x = RedisValue.str s
  | .object items => (∀ e ∈ items, ∃ s, e.2 = RedisValue.str s) ∧ Ascending items

/-- A parser for the other words of the notation that rejects them all. -/
def noLiteral : List Char → Parsed RedisValue := fun _ => .error "unexpected character"

/-! ## The reads of `lrange` and the float counter (RedisHelper.cpp) -/

/-- `int(valueList.size() - 1)` for a vector of `size` elements: the
subtraction is made on `size_t`, modulo `2^64`, and the conversion to `int`
keeps the low 32 bits. -/
def sizeMinusOneAsInt (size : Nat) : Int :=
  wrapInt (Int.ofNat ((size + (2 ^ 64 - 1)) % 2 ^ 64))

/-- The values of `i` at which the loop `for (int i = left; i <= right; i++)`
of `lrange` reads `valueList[i]`, for at most `fuel` turns from `i`. -/
def lrangeIndices : Nat → Int → Int → List Int
  | 0, _, _ => []
  | fuel + 1, i, right => if i ≤ right then i :: lrangeIndices fuel (i + 1) right else []

namespace RedisHelper

/-- `RedisHelper::incrbyfloat`.  The embedding has no `double`:
`incrementText` is `std::to_string(increment)`, and `addTo value` is the text
`std::to_string(std::stod(value) + increment)` or the exception `std::stod`
throws, of which only `std::invalid_argument` is caught. -/
def incrbyfloat (incrementText : String) (addTo : String → Except Exception String)
    (db : SkipList) (key : String) : Except Exception (String × SkipList) :=
  match searchItem db key with
  | none => .ok ("(float) " ++ incrementText, addItem db key (.str incrementText))
  | some current => do
    let value ← erase current.dump 0 1
    let value ← erase value (sizeMinusOne value) npos
    match addTo value with
    | .error (.invalid_argument _) =>
      .ok ("The value of " ++ key ++ " is not a numeric type", db)
    | .error e => .error e
    | .ok text => .ok ("(float) " ++ text, assignValue db key (.str text))

end RedisHelper

/-- The hashes the commands build: the empty map that `hset` creates for an
absent key, and what the loops of `hset` and `hdel` make of such a map. -/
inductive BuiltHash : List (String × RedisValue) → Prop where
  | empty : BuiltHash []
  | hset (filed : List String) (valueMap result : List (String × RedisValue))
      (count total : Nat) :
      BuiltHash valueMap → hsetLoop filed valueMap count = some (result, total) →
      BuiltHash result
  | hdel (filed : List String) (valueMap : List (String × RedisValue)) (count : Nat) :
      BuiltHash valueMap → BuiltHash (hdelLoop filed valueMap count).1

/-- The rows of a listing built the way `executeTransaction` builds them:
`to_string(i + 1) + ")" + responseMessagesList[i]`, from index `i` on. -/
def execRows : Nat → List String → List String
  | _, [] => []
  | i, responseMessage :: rest =>
    (to_string (Int.ofNat (i + 1)) ++ ")" ++ responseMessage) :: execRows (i + 1) rest

/-- The characters `dump` copies unchanged in a decimal numeral. -/
def isNumeralChar (ch : Char) : Bool := isdigit ch || ch == '-'

/-- A line that `handleClient` queues: it has a first token, the token is
not a transaction or session command, and the registry has a parser for it. -/
def Queueable {σ : Type} (f : ParserFlyweightFactory σ) (line : String) : Prop :=
  ∃ c rest p, tokenize line = c :: rest ∧ ¬ (c = "quit" ∨ c = "exit") ∧ c ≠ "multi"
    ∧ c ≠ "exec" ∧ c ≠ "discard" ∧ f.getParser c = some p

/-! ## The key index: search after insertion and assignment -/

theorem lessChars_irrefl (a : List Char) : lessChars a a = false := by
  induction a with
  | nil => rfl
  | cons c cs ih => simp [lessChars, ih]

theorem keyLess_irrefl (k : String) : keyLess k k = false :=
  lessChars_irrefl k.data

theorem searchItem_addItem_self (db : SkipList) (key : String) (value : RedisValue)
    (h : searchItem db key = none) : searchItem (addItem db key value) key = some value := by
  induction db with
  | nil => simp [addItem, searchItem, keyLess_irrefl]
  | cons e rest ih =>
    obtain ⟨k, v⟩ := e
    by_cases hlt : keyLess k key = true
    · simp only [searchItem, hlt, if_true] at h
      simp [addItem, searchItem, hlt, ih h]
    · by_cases heq : k = key
      · subst heq
        simp [searchItem, keyLess_irrefl] at h
      · simp [addItem, searchItem, hlt, heq, keyLess_irrefl]

theorem searchItem_assignValue_self (db : SkipList) (key : String) (value w : RedisValue)
    (h : searchItem db key = some w) :
    searchItem (assignValue db key value) key = some value := by
  induction db with
  | nil => simp [searchItem] at h
  | cons e rest ih =>
    obtain ⟨k, v⟩ := e
    by_cases hlt : keyLess k key = true
    · simp only [searchItem, hlt, if_true] at h
      simp [assignValue, searchItem, hlt, ih h]
    · by_cases heq : k = key
      · simp [assignValue, searchItem, hlt, heq, keyLess_irrefl]
      · simp [searchItem, hlt, heq] at h

/-- C7: on a database where `k` is absent, `setnx k v1` replies `OK`, a second
`setnx k v2` replies `key: <k>  exists!` and changes nothing, and `get k`
then replies `dump(v1)`. -/
theorem setnx_first_write_wins (db : SkipList) (k : String) (v1 v2 : RedisValue)
    (habsent : searchItem db k = none) :
    (RedisHelper.setnx db k v1).1 = "OK"
    ∧ RedisHelper.setnx (RedisHelper.setnx db k v1).2 k v2
        = ("key: " ++ k ++ "  exists!", (RedisHelper.setnx db k v1).2)
    ∧ RedisHelper.get (RedisHelper.setnx (RedisHelper.setnx db k v1).2 k v2).2 k = v1.dump := by
  have h1 : RedisHelper.setnx db k v1 = ("OK", addItem db k v1) := by
    simp [RedisHelper.setnx, habsent]
  have h2 := searchItem_addItem_self db k v1 habsent
  have h3 : RedisHelper.setnx (addItem db k v1) k v2
      = ("key: " ++ k ++ "  exists!", addItem db k v1) := by
    simp [RedisHelper.setnx, h2]
  refine ⟨by rw [h1], by rw [h1]; exact h3, ?_⟩
  rw [h1]
  simp only [h3]
  simp [RedisHelper.get, h2]

theorem setnx_first_write_wins_witness :
    searchItem [("b", RedisValue.str "0")] "a" = none
    ∧ (RedisHelper.setnx [("b", RedisValue.str "0")] "a" (.str "1")).1 = "OK"
    ∧ RedisHelper.get (RedisHelper.setnx
        (RedisHelper.setnx [("b", RedisValue.str "0")] "a" (.str "1")).2 "a" (.str "2")).2 "a"
        = "\"1\"" :=
  ⟨rfl,
    (setnx_first_write_wins [("b", .str "0")] "a" (.str "1") (.str "2") rfl).1,
    (setnx_first_write_wins [("b", .str "0")] "a" (.str "1") (.str "2") rfl).2.2⟩

/-- C8: `setex k v` on a database where `k` is absent replies
`key: <k> does not exist!` and returns the database unchanged (so `k` is still
absent); where `k` is present it replies `OK` and `get k` then replies
`dump(v)`. -/
theorem setex_absent_fails_present_updates (db db1 : SkipList) (k : String)
    (v w : RedisValue) (habsent : searchItem db k = none)
    (hpresent : searchItem db1 k = some w) :
    RedisHelper.setex db k v = ("key: " ++ k ++ " does not exist!", db)
    ∧ searchItem (RedisHelper.setex db k v).2 k = none
    ∧ (RedisHelper.setex db1 k v).1 = "OK"
    ∧ RedisHelper.get (RedisHelper.setex db1 k v).2 k = v.dump := by
  have h1 : RedisHelper.setex db k v = ("key: " ++ k ++ " does not exist!", db) := by
    simp [RedisHelper.setex, habsent]
  have h2 : RedisHelper.setex db1 k v = ("OK", assignValue db1 k v) := by
    simp [RedisHelper.setex, hpresent]
  refine ⟨h1, by rw [h1]; exact habsent, by rw [h2], ?_⟩
  rw [h2]
  simp [RedisHelper.get, searchItem_assignValue_self db1 k v w hpresent]

theorem setex_absent_fails_present_updates_witness :
    RedisHelper.setex [] "a" (.str "1") = ("key: a does not exist!", [])
    ∧ RedisHelper.get (RedisHelper.setex [("a", .str "0")] "a" (.str "1")).2 "a" = "\"1\"" :=
  ⟨(setex_absent_fails_present_updates [] [("a", .str "0")] "a" (.str "1") (.str "0")
      rfl rfl).1,
    (setex_absent_fails_present_updates [] [("a", .str "0")] "a" (.str "1") (.str "0")
      rfl rfl).2.2.2⟩

/-- C9: `set` without mode replies `OK` whether or not the key existed and
`get k` then replies `dump(v)`; with mode `NX` it is `setnx`, with mode `XX`
it is `setex`, replies included. -/
theorem set_default_upsert (db : SkipList) (k : String) (v : RedisValue) :
    (RedisHelper.set db k v .NONE).1 = "OK"
    ∧ RedisHelper.get (RedisHelper.set db k v .NONE).2 k = v.dump
    ∧ RedisHelper.set db k v .NX = RedisHelper.setnx db k v
    ∧ RedisHelper.set db k v .XX = RedisHelper.setex db k v := by
  refine ⟨?_, ?_, by simp [RedisHelper.set], by simp [RedisHelper.set]⟩
  · cases h : searchItem db k <;> simp [RedisHelper.set, h]
  · cases h : searchItem db k with
    | none =>
      simp [RedisHelper.set, RedisHelper.setnx, RedisHelper.get, h,
        searchItem_addItem_self db k v h]
    | some w =>
      simp [RedisHelper.set, RedisHelper.setex, RedisHelper.get, h,
        searchItem_assignValue_self db k v w h]

/-! ## Decimal text -/

theorem dumpChar_of_isdigit (ch : Char) (h : isdigit ch = true) : dumpChar ch = [ch] := by
  simp only [isdigit, Bool.and_eq_true, decide_eq_true_eq] at h
  have e1 : ch ≠ '\\' := by rintro rfl; revert h; decide
  have e2 : ch ≠ '"' := by rintro rfl; revert h; decide
  have e3 : ch ≠ Char.ofNat 8 := by rintro rfl; revert h; decide
  have e4 : ch ≠ Char.ofNat 12 := by rintro rfl; revert h; decide
  have e5 : ch ≠ '\n' := by rintro rfl; revert h; decide
  have e6 : ch ≠ '\r' := by rintro rfl; revert h; decide
  have e7 : ch ≠ '\t' := by rintro rfl; revert h; decide
  have e8 : ¬ ch.toNat ≤ 0x1f := by omega
  simp [dumpChar, e1, e2, e3, e4, e5, e6, e7, e8]

theorem dumpChar_minus : dumpChar '-' = ['-'] := by decide

theorem dumpChars_of_numeral (cs : List Char) (h : ∀ ch ∈ cs, isNumeralChar ch = true) :
    dumpChars cs = cs := by
  induction cs with
  | nil => rfl
  | cons c rest ih =>
    have hc := h c (List.mem_cons_self _ _)
    have hr : dumpChars rest = rest := ih (fun ch hch => h ch (List.mem_cons_of_mem _ hch))
    simp only [isNumeralChar, Bool.or_eq_true, beq_iff_eq] at hc
    rcases hc with hc | hc
    · simp [dumpChars, dumpChar_of_isdigit c hc, hr]
    · subst hc
      simp [dumpChars, dumpChar_minus, hr]

theorem isdigit_digitChar (m : Nat) (h : m < 10) : isdigit (Nat.digitChar m) = true := by
  interval_cases m <;> decide

theorem toDigitsCore_isdigit (fuel : Nat) : ∀ (n : Nat) (ds : List Char),
    (∀ ch ∈ ds, isdigit ch = true) →
    ∀ ch ∈ Nat.toDigitsCore 10 fuel n ds, isdigit ch = true := by
  induction fuel with
  | zero => intro n ds hds ch hch; exact hds ch (by simpa [Nat.toDigitsCore] using hch)
  | succ fuel ih =>
    intro n ds hds ch hch
    have hd : isdigit (Nat.digitChar (n % 10)) = true :=
      isdigit_digitChar _ (Nat.mod_lt _ (by decide))
    have hcons : ∀ c ∈ Nat.digitChar (n % 10) :: ds, isdigit c = true := by
      intro c hc
      rcases List.mem_cons.mp hc with rfl | hc
      · exact hd
      · exact hds c hc
    simp only [Nat.toDigitsCore] at hch
    split at hch
    · exact hcons ch hch
    · exact ih _ _ hcons ch hch

theorem repr_isdigit (n : Nat) : ∀ ch ∈ (Nat.repr n).data, isdigit ch = true := by
  intro ch hch
  exact toDigitsCore_isdigit (n + 1) n [] (by simp) ch (by simpa [Nat.repr, Nat.toDigits] using hch)

theorem to_string_numeral (x : Int) : ∀ ch ∈ (to_string x).data, isNumeralChar ch = true := by
  intro ch hch
  cases x with
  | ofNat n =>
    simp only [to_string] at hch
    simp [isNumeralChar, repr_isdigit n ch hch]
  | negSucc n =>
    simp only [to_string, String.data_append] at hch
    rcases List.mem_append.mp hch with h | h
    · have : ch = '-' := by simpa using h
      simp [isNumeralChar, this]
    · simp [isNumeralChar, repr_isdigit (n + 1) ch h]

theorem dumpString_data (s : String) :
    (dumpString s).data = '"' :: (dumpChars s.data ++ ['"']) := by
  simp [dumpString, String.data_append]

theorem dumpString_to_string (x : Int) :
    dumpString (to_string x) = "\"" ++ to_string x ++ "\"" := by
  apply String.ext
  rw [dumpString_data, dumpChars_of_numeral _ (to_string_numeral x)]
  simp [String.data_append]

/-- Removing the first and the last character of a dumped string, as the two
`erase` calls of `incrby` do, leaves the escaped body. -/
theorem erase_quotes (s : String) :
    (do
      let value ← erase (dumpString s) 0 1
      erase value (sizeMinusOne value) npos) = .ok (String.mk (dumpChars s.data)) := by
  have h1 : erase (dumpString s) 0 1 = .ok (String.mk (dumpChars s.data ++ ['"'])) := by
    simp [erase, dumpString_data]
  rw [h1]
  show erase _ _ npos = _
  have hlen : (String.mk (dumpChars s.data ++ ['"'])).length = (dumpChars s.data).length + 1 := by
    simp [String.length]
  have hs : sizeMinusOne (String.mk (dumpChars s.data ++ ['"'])) = (dumpChars s.data).length := by
    simp [sizeMinusOne, hlen]
  rw [hs]
  simp [erase, hlen, npos]

theorem stoi_of_digits (cs : List Char) (hne : cs ≠ []) (hd : ∀ ch ∈ cs, isdigit ch = true)
    (hfit : (Int.ofNat (digitsValue 0 cs)) ≤ 2 ^ 31 - 1) :
    stoi (String.mk cs) = .ok (Int.ofNat (digitsValue 0 cs)) := by
  obtain ⟨c, rest, rfl⟩ := List.exists_cons_of_ne_nil hne
  have hc := hd c (List.mem_cons_self _ _)
  have hsp : isspace c = false := by
    simp only [isdigit, Bool.and_eq_true, decide_eq_true_eq] at hc
    simp [isspace]
    omega
  have hm : c ≠ '-' := by rintro rfl; revert hc; decide
  have hp : c ≠ '+' := by rintro rfl; revert hc; decide
  have htake : (c :: rest).takeWhile isdigit = c :: rest :=
    List.takeWhile_eq_self_iff.mpr hd
  have hnn : (0 : Int) ≤ Int.ofNat (digitsValue 0 (c :: rest)) := Int.ofNat_nonneg _
  have hsign : readSign (c :: rest) = (false, c :: rest) := by
    unfold readSign
    split
    · rename_i heq; cases heq; exact absurd rfl hm
    · rename_i heq; cases heq; exact absurd rfl hp
    · rfl
  unfold stoi
  simp only [List.dropWhile, hsp, hsign, htake]
  rw [if_neg (by simp)]
  simp only [Bool.false_eq_true, if_false]
  rw [if_neg]
  omega

theorem wrapInt_of_fits (x : Int) (hlo : -(2 ^ 31) ≤ x) (hhi : x ≤ 2 ^ 31 - 1) :
    wrapInt x = x := by
  unfold wrapInt
  omega

theorem incrby_present (db : SkipList) (k s : String) (m : Int)
    (hk : searchItem db k = some (.str s)) (hne : s.data ≠ [])
    (hd : ∀ ch ∈ s.data, isdigit ch = true)
    (hn : Int.ofNat (digitsValue 0 s.data) ≤ 2 ^ 31 - 1)
    (hlo : -(2 ^ 31) ≤ Int.ofNat (digitsValue 0 s.data) + m)
    (hhi : Int.ofNat (digitsValue 0 s.data) + m ≤ 2 ^ 31 - 1) :
    RedisHelper.incrby db k m
      = .ok ("(integer) " ++ to_string (Int.ofNat (digitsValue 0 s.data) + m),
          assignValue db k (.str (to_string (Int.ofNat (digitsValue 0 s.data) + m)))) := by
  have hplain : dumpChars s.data = s.data :=
    dumpChars_of_numeral _ (fun ch hch => by simp [isNumeralChar, hd ch hch])
  have herase := erase_quotes s
  rw [hplain] at herase
  have hall : (String.mk s.data).data.all isdigit = true := by
    simpa [List.all_eq_true] using hd
  unfold RedisHelper.incrby
  simp only [hk, RedisValue.dump]
  have hbind : ∀ (f : String → Except Exception (String × SkipList)),
      (do
        let value ← erase (dumpString s) 0 1
        let value ← erase value (sizeMinusOne value) npos
        f value) = f (String.mk s.data) := by
    intro f
    have := congrArg (fun r => r >>= f) herase
    simpa [bind_assoc] using this
  rw [hbind]
  rw [if_pos hall]
  rw [stoi_of_digits s.data hne hd hn]
  show Except.ok (_, _) = Except.ok _
  rw [wrapInt_of_fits _ hlo hhi]

/-- C10: `incrby k m` on a key holding a non-empty string of decimal digits
of value `n`, with `n` and `n + m` in the range of a 32-bit `int`, replies
`(integer) ` followed by the decimal form of `n + m`, and `get k` then
replies that form in double quotes; on an absent key it replies
`(integer) ` followed by the decimal form of `m`, which is what it stores.
`decrby k d` is `incrby k (-d)` for every `d` whose negation is an `int`. -/
theorem incrby_adds_exactly (db db0 : SkipList) (k s : String) (m d : Int)
    (hk : searchItem db k = some (.str s)) (hne : s.data ≠ [])
    (hdigits : ∀ ch ∈ s.data, isdigit ch = true)
    (hn : Int.ofNat (digitsValue 0 s.data) ≤ 2 ^ 31 - 1)
    (hlo : -(2 ^ 31) ≤ Int.ofNat (digitsValue 0 s.data) + m)
    (hhi : Int.ofNat (digitsValue 0 s.data) + m ≤ 2 ^ 31 - 1)
    (habsent : searchItem db0 k = none)
    (hd : -(2 ^ 31) < d ∧ d ≤ 2 ^ 31 - 1) :
    (∃ db1, RedisHelper.incrby db k m
        = .ok ("(integer) " ++ to_string (Int.ofNat (digitsValue 0 s.data) + m), db1)
      ∧ RedisHelper.get db1 k
        = "\"" ++ to_string (Int.ofNat (digitsValue 0 s.data) + m) ++ "\"")
    ∧ (∃ db1, RedisHelper.incrby db0 k m = .ok ("(integer) " ++ to_string m, db1)
      ∧ searchItem db1 k = some (.str (to_string m))
      ∧ RedisHelper.get db1 k = "\"" ++ to_string m ++ "\"")
    ∧ RedisHelper.decrby db k d = RedisHelper.incrby db k (-d)
    ∧ RedisHelper.decrby db0 k d = RedisHelper.incrby db0 k (-d) := by
  have hneg : wrapInt (-d) = -d := wrapInt_of_fits _ (by omega) (by omega)
  refine ⟨⟨_, incrby_present db k s m hk hne hdigits hn hlo hhi, ?_⟩,
    ⟨addItem db0 k (.str (to_string m)), ?_, ?_, ?_⟩, ?_, ?_⟩
  · simp [RedisHelper.get, searchItem_assignValue_self db k _ _ hk, RedisValue.dump,
      dumpString_to_string]
  · simp only [RedisHelper.incrby, habsent]
  · exact searchItem_addItem_self db0 k _ habsent
  · simp [RedisHelper.get, searchItem_addItem_self db0 k _ habsent, RedisValue.dump,
      dumpString_to_string]
  · simp [RedisHelper.decrby, hneg]
  · simp [RedisHelper.decrby, hneg]

theorem incrby_adds_exactly_witness :
    (∃ db1, RedisHelper.incrby [("a", .str "1")] "a" 10 = .ok ("(integer) 11", db1)
      ∧ RedisHelper.get db1 "a" = "\"11\"")
    ∧ (∃ db1, RedisHelper.incrby [] "a" 10 = .ok ("(integer) 10", db1)
      ∧ searchItem db1 "a" = some (.str "10")
      ∧ RedisHelper.get db1 "a" = "\"10\"")
    ∧ RedisHelper.decrby [("a", .str "1")] "a" 3 = RedisHelper.incrby [("a", .str "1")] "a" (-3)
    ∧ RedisHelper.decrby [] "a" 3 = RedisHelper.incrby [] "a" (-3) :=
  incrby_adds_exactly [("a", .str "1")] [] "a" "1" 10 3 rfl (by decide) (by decide)
    (by decide) (by decide) (by decide) rfl (by decide)

/-! ## The dispatcher -/

theorem tokenize_of_length_zero (line : String) (h : ¬ line.length > 0) :
    tokenize line = [] := by
  have hd : line.data = [] := by
    have : line.data.length = 0 := by
      simp only [String.length] at h
      omega
    exact List.length_eq_zero.mp this
  simp [tokenize, hd, tokenizeChars]

/-- While a transaction is open, a line that is neither `exec` nor `discard`
leaves the helper alone and the transaction open; the fallback flag can only
be raised, and an unknown command raises it. -/
theorem handleClient_in_transaction {σ : Type} (f : ParserFlyweightFactory σ)
    (self : RedisServer) (helper : σ) (line : String) (hs : self.startMulti = true)
    (h1 : firstToken line ≠ some "exec") (h2 : firstToken line ≠ some "discard") :
    ∃ reply self1, handleClient f self helper line = some (reply, self1, helper)
      ∧ self1.startMulti = true
      ∧ (self.fallback = true → self1.fallback = true)
      ∧ (∀ c, firstToken line = some c → f.getParser c = none →
          c ≠ "multi" → c ≠ "quit" → c ≠ "exit" → self1.fallback = true) := by
  unfold handleClient
  by_cases hlen : line.length > 0
  · rw [if_pos hlen]
    cases htok : tokenize line with
    | nil => exact ⟨_, _, rfl, hs, id, by simp [firstToken, htok]⟩
    | cons c rest =>
      simp only [firstToken, htok, List.head?_cons, ne_eq, Option.some.injEq] at h1 h2
      by_cases hq : c = "quit" ∨ c = "exit"
      · simp only [hq, if_true]
        refine ⟨_, _, rfl, hs, id, ?_⟩
        intro c1 hc1 _ _ h4 h5
        simp only [firstToken, htok, List.head?_cons, Option.some.injEq] at hc1
        subst hc1
        rcases hq with hq | hq
        · exact absurd hq h4
        · exact absurd hq h5
      · by_cases hm : c = "multi"
        · simp only [hq, if_false, hm, if_true, hs]
          refine ⟨_, _, rfl, hs, id, ?_⟩
          intro c1 hc1 _ h3 _ _
          simp only [firstToken, htok, List.head?_cons, Option.some.injEq] at hc1
          exact absurd (hc1 ▸ hm) h3
        · simp only [hq, if_false, hm, h1, h2, hs, Bool.not_true, Bool.false_eq_true]
          cases hp : f.getParser c with
          | none =>
            refine ⟨_, _, rfl, rfl, fun _ => rfl, fun _ _ _ _ _ _ => rfl⟩
          | some p =>
            refine ⟨_, _, rfl, rfl, id, ?_⟩
            intro c1 hc1 hnone _ _ _
            simp only [firstToken, htok, List.head?_cons, Option.some.injEq] at hc1
            subst hc1
            rw [hp] at hnone
            cases hnone
  · rw [if_neg hlen]
    refine ⟨_, _, rfl, hs, id, ?_⟩
    intro c hc
    simp [firstToken, tokenize_of_length_zero line hlen] at hc

/-- A whole run of such lines inside an open transaction. -/
theorem handleClients_in_transaction {σ : Type} (f : ParserFlyweightFactory σ)
    (helper : σ) (lines : List String) :
    ∀ (self : RedisServer), self.startMulti = true →
    (∀ l ∈ lines, firstToken l ≠ some "exec" ∧ firstToken l ≠ some "discard") →
    ∃ replies self1, handleClients f self helper lines = some (replies, self1, helper)
      ∧ self1.startMulti = true
      ∧ (self.fallback = true → self1.fallback = true)
      ∧ ((∃ l ∈ lines, ∃ c, firstToken l = some c ∧ f.getParser c = none
            ∧ c ≠ "multi" ∧ c ≠ "quit" ∧ c ≠ "exit") → self1.fallback = true) := by
  induction lines with
  | nil =>
    intro self hs _
    exact ⟨[], self, rfl, hs, id, by simp⟩
  | cons l rest ih =>
    intro self hs hl
    obtain ⟨hl1, hl2⟩ := hl l (List.mem_cons_self _ _)
    obtain ⟨reply, self1, hstep, hs1, hmono, hbad⟩ :=
      handleClient_in_transaction f self helper l hs hl1 hl2
    obtain ⟨replies, self2, hrun, hs2, hmono2, hbad2⟩ :=
      ih self1 hs1 (fun x hx => hl x (List.mem_cons_of_mem _ hx))
    refine ⟨reply :: replies, self2, ?_, hs2, fun hfb => hmono2 (hmono hfb), ?_⟩
    · simp only [handleClients, hstep, hrun]
    · rintro ⟨x, hx, c, hc, hnone, h3, h4, h5⟩
      rcases List.mem_cons.mp hx with rfl | hx
      · exact hmono2 (hbad c hc hnone h3 h4 h5)
      · exact hbad2 ⟨x, hx, c, hc, hnone, h3, h4, h5⟩

theorem handleClient_multi {σ : Type} (f : ParserFlyweightFactory σ)
    (self : RedisServer) (helper : σ) :
    handleClient f self helper "multi"
      = some (if self.startMulti then ("Open the transaction repeatedly!", self, helper)
          else ("OK", { self with startMulti := true, commandsQueue := [] }, helper)) := by
  have ht : tokenize "multi" = ["multi"] := by decide
  have hl : "multi".length > 0 := by decide
  unfold handleClient
  rw [if_pos hl, ht]
  cases hs : self.startMulti <;> simp

theorem handleClient_discard {σ : Type} (f : ParserFlyweightFactory σ)
    (self : RedisServer) (helper : σ) :
    handleClient f self helper "discard"
      = some ("OK", { self with startMulti := false, fallback := false }, helper) := by
  have ht : tokenize "discard" = ["discard"] := by decide
  have hl : "discard".length > 0 := by decide
  unfold handleClient
  rw [if_pos hl, ht]
  simp

theorem handleClient_exec_closed {σ : Type} (f : ParserFlyweightFactory σ)
    (self : RedisServer) (helper : σ) (hs : self.startMulti = false) :
    handleClient f self helper "exec" = some ("No transaction is opened!", self, helper) := by
  have ht : tokenize "exec" = ["exec"] := by decide
  have hl : "exec".length > 0 := by decide
  unfold handleClient
  rw [if_pos hl, ht]
  simp [hs]

theorem handleClient_exec_fallback {σ : Type} (f : ParserFlyweightFactory σ)
    (self : RedisServer) (helper : σ) (hs : self.startMulti = true)
    (hfb : self.fallback = true) :
    handleClient f self helper "exec"
      = some ("(error) EXECABORT Transaction discarded because of previous errors.",
          { self with startMulti := false, fallback := false }, helper) := by
  have ht : tokenize "exec" = ["exec"] := by decide
  have hl : "exec".length > 0 := by decide
  unfold handleClient
  rw [if_pos hl, ht]
  simp [hs, hfb]

theorem tokenizeChars_blank (cs : List Char) (h : ∀ ch ∈ cs, isspace ch = true) :
    tokenizeChars cs [] = [] := by
  induction cs with
  | nil => rfl
  | cons c rest ih =>
    have hc := h c (List.mem_cons_self _ _)
    simp [tokenizeChars, hc, ih (fun ch hch => h ch (List.mem_cons_of_mem _ hch))]

/-- The session invariant: outside a transaction the fallback flag is down. -/
theorem handleClient_keeps_fallback_down {σ : Type} (f : ParserFlyweightFactory σ)
    (self self1 : RedisServer) (helper helper1 : σ) (line reply : String)
    (hstep : handleClient f self helper line = some (reply, self1, helper1))
    (hinv : self.startMulti = false → self.fallback = false) :
    self1.startMulti = false → self1.fallback = false := by
  unfold handleClient at hstep
  by_cases hlen : line.length > 0
  · rw [if_pos hlen] at hstep
    cases htok : tokenize line with
    | nil =>
      rw [htok] at hstep
      cases hstep
      exact hinv
    | cons c rest =>
      rw [htok] at hstep
      simp only at hstep
      split_ifs at hstep with h1 h2 h3 h4 h5 h6 h7 h8
      · cases hstep; exact hinv
      · cases hstep; exact hinv
      · cases hstep; intro h; cases h
      · cases hstep; exact hinv
      · cases hexec : executeTransaction f self.commandsQueue [] helper with
        | none => rw [hexec] at hstep; cases hstep
        | some r =>
          obtain ⟨r1, q, w⟩ := r
          rw [hexec] at hstep
          cases hstep
          intro _
          simpa using h6
      · cases hstep; intro _; rfl
      · cases hstep; intro _; rfl
      · cases hp : f.getParser c with
        | none => rw [hp] at hstep; cases hstep; exact hinv
        | some p => rw [hp] at hstep; cases hstep; exact hinv
      · cases hp : f.getParser c with
        | none =>
          rw [hp] at hstep; cases hstep
          intro h
          simp at h8
          simp [h8] at h
        | some p =>
          rw [hp] at hstep; cases hstep
          intro h
          simp at h8
          simp [h8] at h
  · rw [if_neg hlen] at hstep
    cases hstep
    exact hinv

theorem reachable_fallback_down {σ : Type} (f : ParserFlyweightFactory σ)
    (self : RedisServer) (helper : σ) (h : Reachable f self helper) :
    self.startMulti = false → self.fallback = false := by
  induction h with
  | initial helper => intro _; rfl
  | step line _ hstep ih => exact handleClient_keeps_fallback_down f _ _ _ _ _ _ hstep ih

/-- C1: from a session outside a transaction and a database `D`, after
`multi` and any lines whose first token is never `exec` or `discard`, one of
which has a first token without a parser (other than `multi`, `quit`,
`exit`), the database is still `D`, `exec` replies with the abort message
and runs nothing, and the session is outside a transaction with the fallback
flag down. -/
theorem transaction_fallback_aborts {σ : Type} (f : ParserFlyweightFactory σ)
    (self : RedisServer) (D : σ) (lines : List String)
    (hself : self.startMulti = false)
    (hlines : ∀ l ∈ lines, firstToken l ≠ some "exec" ∧ firstToken l ≠ some "discard")
    (hbad : ∃ l ∈ lines, ∃ c, firstToken l = some c ∧ f.getParser c = none
      ∧ c ≠ "multi" ∧ c ≠ "quit" ∧ c ≠ "exit") :
    ∃ replies self1 self2,
      handleClients f self D ("multi" :: lines) = some (replies, self1, D)
      ∧ handleClient f self1 D "exec"
        = some ("(error) EXECABORT Transaction discarded because of previous errors.",
            self2, D)
      ∧ self2.startMulti = false ∧ self2.fallback = false := by
  have hmulti := handleClient_multi f self D
  simp only [hself, Bool.false_eq_true, if_false] at hmulti
  obtain ⟨replies, self1, hrun, hs1, _, hfb⟩ :=
    handleClients_in_transaction f D lines
      { self with startMulti := true, commandsQueue := [] } rfl hlines
  refine ⟨"OK" :: replies, self1, _, ?_, handleClient_exec_fallback f self1 D hs1 (hfb hbad),
    rfl, rfl⟩
  simp only [handleClients, hmulti, hrun]

theorem transaction_fallback_aborts_witness :
    ∃ replies self1 self2,
      handleClients (catalogue "?") RedisServer.initial [] ["multi", "set a 1", "bogus"]
        = some (replies, self1, [])
      ∧ handleClient (catalogue "?") self1 [] "exec"
        = some ("(error) EXECABORT Transaction discarded because of previous errors.",
            self2, [])
      ∧ self2.startMulti = false ∧ self2.fallback = false :=
  transaction_fallback_aborts (catalogue "?") RedisServer.initial [] ["set a 1", "bogus"] rfl
    (by decide) ⟨"bogus", by simp, "bogus", by decide, rfl, by decide, by decide, by decide⟩

/-- C2: `multi`, then lines whose first token is never `exec` or `discard`,
then `discard`: the database is the one before `multi`, the reply to
`discard` is `OK`, the session is outside a transaction with the fallback
flag down, and a following `exec` replies `No transaction is opened!`
without running anything. -/
theorem discard_restores {σ : Type} (f : ParserFlyweightFactory σ)
    (self : RedisServer) (D : σ) (lines : List String)
    (hlines : ∀ l ∈ lines, firstToken l ≠ some "exec" ∧ firstToken l ≠ some "discard") :
    ∃ replies self1 self2,
      handleClients f self D ("multi" :: lines) = some (replies, self1, D)
      ∧ handleClient f self1 D "discard" = some ("OK", self2, D)
      ∧ self2.startMulti = false ∧ self2.fallback = false
      ∧ handleClient f self2 D "exec" = some ("No transaction is opened!", self2, D) := by
  have hmulti := handleClient_multi f self D
  have hopen : ∃ r0 self0, handleClient f self D "multi" = some (r0, self0, D)
      ∧ self0.startMulti = true := by
    cases hs : self.startMulti
    · simp only [hs, Bool.false_eq_true, if_false] at hmulti
      exact ⟨_, _, hmulti, rfl⟩
    · simp only [hs, if_true] at hmulti
      exact ⟨_, _, hmulti, hs⟩
  obtain ⟨r0, self0, h0, hs0⟩ := hopen
  obtain ⟨replies, self1, hrun, _, _, _⟩ :=
    handleClients_in_transaction f D lines self0 hs0 hlines
  refine ⟨r0 :: replies, self1, _, ?_, handleClient_discard f self1 D, rfl, rfl,
    handleClient_exec_closed f _ D rfl⟩
  simp only [handleClients, h0, hrun]

theorem discard_restores_witness :
    ∃ replies self1 self2,
      handleClients (catalogue "?") RedisServer.initial [("b", .str "0")]
        ["multi", "set a 1", "bogus", "get b"] = some (replies, self1, [("b", .str "0")])
      ∧ handleClient (catalogue "?") self1 [("b", .str "0")] "discard"
        = some ("OK", self2, [("b", .str "0")])
      ∧ self2.startMulti = false ∧ self2.fallback = false
      ∧ handleClient (catalogue "?") self2 [("b", .str "0")] "exec"
        = some ("No transaction is opened!", self2, [("b", .str "0")]) :=
  discard_restores (catalogue "?") RedisServer.initial [("b", .str "0")]
    ["set a 1", "bogus", "get b"] (by decide)

/-- C4: in every session state reachable from the initial one, if no
transaction is open then `multi` replies `OK` and leaves the session in a
transaction with an empty queue and the fallback flag down. -/
theorem multi_opens_clean_transaction {σ : Type} (f : ParserFlyweightFactory σ)
    (self : RedisServer) (helper : σ) (hreach : Reachable f self helper)
    (hclosed : self.startMulti = false) :
    handleClient f self helper "multi"
      = some ("OK", { startMulti := true, fallback := false, commandsQueue := [] }, helper) := by
  have hfb := reachable_fallback_down f self helper hreach hclosed
  have hmulti := handleClient_multi f self helper
  simp only [hclosed, Bool.false_eq_true, if_false] at hmulti
  rw [hmulti, hfb]

theorem multi_opens_clean_transaction_witness :
    handleClient (catalogue "?")
        { startMulti := false, fallback := false, commandsQueue := ["set a 1"] } [] "multi"
      = some ("OK", { startMulti := true, fallback := false, commandsQueue := [] }, []) :=
  multi_opens_clean_transaction (catalogue "?")
    { startMulti := false, fallback := false, commandsQueue := ["set a 1"] } []
    (Reachable.step "exec"
      (Reachable.step "bogus"
        (Reachable.step "set a 1"
          (Reachable.step "multi" (Reachable.initial []) rfl) rfl) rfl) rfl)
    rfl

/-- C6 as the code has it: a line with no token leaves session and database
unchanged; the reply is `nil` for the empty line and `error` for a non-empty
line of white space. -/
theorem blank_line_reply {σ : Type} (f : ParserFlyweightFactory σ)
    (self : RedisServer) (helper : σ) (line : String)
    (hblank : ∀ ch ∈ line.data, isspace ch = true) :
    handleClient f self helper line
      = some (if line.length = 0 then "nil" else "error", self, helper) := by
  have htok : tokenize line = [] := tokenizeChars_blank _ hblank
  unfold handleClient
  by_cases hlen : line.length > 0
  · have hne : line.length ≠ 0 := by omega
    rw [if_pos hlen, htok, if_neg hne]
  · have he : line.length = 0 := by omega
    rw [if_neg hlen, if_pos he]

theorem blank_line_reply_witness :
    handleClient (catalogue "?") RedisServer.initial [] " \t "
      = some ("error", RedisServer.initial, [])
    ∧ handleClient (catalogue "?") RedisServer.initial [] ""
      = some ("nil", RedisServer.initial, []) :=
  ⟨blank_line_reply (catalogue "?") RedisServer.initial [] " \t " (by decide),
    blank_line_reply (catalogue "?") RedisServer.initial [] "" (by decide)⟩

/-- C6 fails on a line of white space: the line `" "` is empty after
trimming, and the reply is `error`, not `nil`. -/
theorem whitespace_line_replies_error :
    tokenize " " = []
    ∧ (handleClient (catalogue "?") RedisServer.initial [] " ").map (fun r => r.1)
        = some "error"
    ∧ (handleClient (catalogue "?") RedisServer.initial [] " ").map (fun r => r.1)
        ≠ some "nil" := by
  decide

/-! ## `exec` against sequential dispatch -/

theorem handleClient_queueable_closed {σ : Type} (f : ParserFlyweightFactory σ)
    (s0 : RedisServer) (helper : σ) (line c : String) (rest : List String)
    (p : CommandParser σ) (htok : tokenize line = c :: rest)
    (h1 : ¬ (c = "quit" ∨ c = "exit")) (h2 : c ≠ "multi") (h3 : c ≠ "exec")
    (h4 : c ≠ "discard") (hp : f.getParser c = some p) (hs : s0.startMulti = false) :
    handleClient f s0 helper line
      = some (parseResponse c (p.parse (c :: rest) helper).1, s0,
          (p.parse (c :: rest) helper).2) := by
  have hlen : line.length > 0 := by
    by_contra hlen
    rw [tokenize_of_length_zero line hlen] at htok
    cases htok
  unfold handleClient
  rw [if_pos hlen, htok]
  simp [h1, h2, h3, h4, hp, hs]

/-- Draining a queue of queueable lines gives the replies of dispatching the
lines one after another outside a transaction, and the same final helper. -/
theorem executeTransaction_sequential {σ : Type} (f : ParserFlyweightFactory σ)
    (qs : List String) : ∀ (acc : List String) (helper : σ),
    (∀ l ∈ qs, Queueable f l) →
    ∃ replies helper1, replies.length = qs.length
      ∧ (∀ s0 : RedisServer, s0.startMulti = false →
          handleClients f s0 helper qs = some (replies, s0, helper1))
      ∧ executeTransaction f qs acc helper
        = some (joinResponses (acc ++ replies).length 0 (acc ++ replies), [], helper1) := by
  induction qs with
  | nil =>
    intro acc helper _
    exact ⟨[], helper, rfl, fun s0 _ => rfl, by simp [executeTransaction]⟩
  | cons l rest ih =>
    intro acc helper hq
    obtain ⟨c, cs, p, htok, h1, h2, h3, h4, hp⟩ := hq l (List.mem_cons_self _ _)
    obtain ⟨replies, helper1, hlen, hseq, hexec⟩ :=
      ih (acc ++ [parseResponse c (p.parse (c :: cs) helper).1]) (p.parse (c :: cs) helper).2
        (fun x hx => hq x (List.mem_cons_of_mem _ hx))
    refine ⟨parseResponse c (p.parse (c :: cs) helper).1 :: replies, helper1, by simp [hlen],
      ?_, ?_⟩
    · intro s0 hs0
      simp only [handleClients,
        handleClient_queueable_closed f s0 helper l c cs p htok h1 h2 h3 h4 hp hs0,
        hseq s0 hs0]
    · unfold executeTransaction
      rw [htok]
      simp only [h1, h2, h3, if_false, hp]
      rw [hexec]
      simp

/-- C5: at a transaction holding `set a 1` and `get a`, the reply of `exec`
is `1)OK` and `2)"1"` joined by a newline: the rows have no space after the
closing parenthesis, so the reply is not the listing `1) OK`, `2) "1"`. -/
theorem exec_rows_lack_space :
    (handleClient (catalogue "?")
        { startMulti := true, fallback := false, commandsQueue := ["set a 1", "get a"] }
        [] "exec").map (fun r => r.1) = some "1)OK\n2)\"1\""
    ∧ (handleClient (catalogue "?")
        { startMulti := true, fallback := false, commandsQueue := ["set a 1", "get a"] }
        [] "exec").map (fun r => r.1) ≠ some "1) OK\n2) \"1\"" := by
  decide

/-! ## The shape of the reply of `exec` -/

theorem intercalate_go_append (s a b : String) (l : List String) :
    String.intercalate.go (a ++ b) s l = a ++ String.intercalate.go b s l := by
  induction l generalizing b with
  | nil => simp [String.intercalate.go]
  | cons x rest ih =>
    simp only [String.intercalate.go]
    rw [String.append_assoc, String.append_assoc, ← String.append_assoc b s x]
    exact ih (b ++ s ++ x)

theorem intercalate_cons_cons (s a b : String) (l : List String) :
    String.intercalate s (a :: b :: l) = a ++ s ++ String.intercalate s (b :: l) := by
  simp only [String.intercalate, String.intercalate.go]
  exact intercalate_go_append s (a ++ s) b l

/-- The reply of `exec` for the replies `r1..rn`: the rows `i)ri`, numbered
from 1, with one newline between two rows and none after the last. -/
theorem joinResponses_rows (l : List String) : ∀ i : Nat,
    joinResponses (i + l.length) i l = String.intercalate "\n" (execRows i l) := by
  induction l with
  | nil => intro i; rfl
  | cons m rest ih =>
    intro i
    have hsize : i + (m :: rest).length = (i + 1) + rest.length := by
      simp only [List.length_cons]; omega
    rw [hsize]
    cases rest with
    | nil =>
      simp [joinResponses, execRows, String.intercalate, String.intercalate.go]
    | cons m1 rest1 =>
      have hne : i ≠ i + 1 + (m1 :: rest1).length - 1 := by
        simp only [List.length_cons]; omega
      have h := ih (i + 1)
      simp only [joinResponses, execRows, if_pos hne] at h ⊢
      rw [intercalate_cons_cons, h]

/-! ## The order of keys -/

theorem char_eq_of_toNat_eq (a b : Char) (h : a.toNat = b.toNat) : a = b := by
  apply Char.ext
  apply UInt32.ext
  simpa [Char.toNat, UInt32.toNat] using h

theorem lessChars_trans (a : List Char) : ∀ b c : List Char,
    lessChars a b = true → lessChars b c = true → lessChars a c = true := by
  induction a with
  | nil =>
    intro b c hab hbc
    cases b with
    | nil => simp [lessChars] at hab
    | cons y ys =>
      cases c with
      | nil => simp [lessChars] at hbc
      | cons z zs => simp [lessChars]
  | cons x xs ih =>
    intro b c hab hbc
    cases b with
    | nil => simp [lessChars] at hab
    | cons y ys =>
      cases c with
      | nil => simp [lessChars] at hbc
      | cons z zs =>
        simp only [lessChars] at hab hbc ⊢
        by_cases hxy : x.toNat < y.toNat
        · by_cases hyz : y.toNat < z.toNat
          · have : x.toNat < z.toNat := by omega
            simp [this]
          · by_cases hzy : z.toNat < y.toNat
            · simp [hyz, hzy] at hbc
            · have : x.toNat < z.toNat := by omega
              simp [this]
        · by_cases hyx : y.toNat < x.toNat
          · simp [hxy, hyx] at hab
          · simp only [hxy, hyx, if_false] at hab
            by_cases hyz : y.toNat < z.toNat
            · have : x.toNat < z.toNat := by omega
              simp [this]
            · by_cases hzy : z.toNat < y.toNat
              · simp [hyz, hzy] at hbc
              · simp only [hyz, hzy, if_false] at hbc
                have h1 : ¬ x.toNat < z.toNat := by omega
                have h2 : ¬ z.toNat < x.toNat := by omega
                simp only [h1, h2, if_false]
                exact ih ys zs hab hbc

theorem lessChars_total (a : List Char) : ∀ b : List Char,
    lessChars a b = false → a ≠ b → lessChars b a = true := by
  induction a with
  | nil =>
    intro b hab hne
    cases b with
    | nil => exact absurd rfl hne
    | cons y ys => simp [lessChars] at hab
  | cons x xs ih =>
    intro b hab hne
    cases b with
    | nil => simp [lessChars]
    | cons y ys =>
      simp only [lessChars] at hab ⊢
      by_cases hxy : x.toNat < y.toNat
      · simp [hxy] at hab
      · by_cases hyx : y.toNat < x.toNat
        · simp [hyx]
        · simp only [hxy, hyx, if_false] at hab ⊢
          have hxe : x = y := char_eq_of_toNat_eq x y (by omega)
          subst hxe
          exact ih ys hab (fun h => hne (by rw [h]))

theorem keyLess_trans (a b c : String) (hab : keyLess a b = true) (hbc : keyLess b c = true) :
    keyLess a c = true :=
  lessChars_trans a.data b.data c.data hab hbc

theorem keyLess_total (a b : String) (hab : keyLess a b = false) (hne : a ≠ b) :
    keyLess b a = true :=
  lessChars_total a.data b.data hab (fun h => hne (String.ext h))

theorem keyLess_asymm (a b : String) (hab : keyLess a b = true) : keyLess b a = false := by
  cases h : keyLess b a with
  | false => rfl
  | true =>
    have := keyLess_trans a b a hab h
    rw [keyLess_irrefl] at this
    cases this

theorem keyLess_ne (a b : String) (hab : keyLess a b = true) : a ≠ b := by
  rintro rfl
  rw [keyLess_irrefl] at hab
  cases hab

/-! ## The key index: other keys are not disturbed -/

theorem searchItem_addItem_other (db : SkipList) (key other : String) (value : RedisValue)
    (hne : other ≠ key) : searchItem (addItem db key value) other = searchItem db other := by
  induction db with
  | nil =>
    have : ¬ key = other := fun h => hne h.symm
    simp [addItem, searchItem, this]
  | cons e rest ih =>
    obtain ⟨k, v⟩ := e
    by_cases hlt : keyLess k key = true
    · by_cases hlo : keyLess k other = true
      · simp [addItem, searchItem, hlt, hlo, ih]
      · simp [addItem, searchItem, hlt, hlo]
    · by_cases heq : k = key
      · subst heq
        simp [addItem, keyLess_irrefl]
      · have hkk : keyLess key k = true :=
          keyLess_total k key (by simpa using hlt) heq
        simp only [addItem, hlt, heq, if_false]
        by_cases hko : keyLess key other = true
        · simp [searchItem, hko]
        · have hne2 : ¬ key = other := fun h => hne h.symm
          have hok : keyLess other key = true :=
            keyLess_total key other (by simpa using hko) hne2
          have hok2 : keyLess other k = true := keyLess_trans other key k hok hkk
          have h1 : keyLess k other = false := keyLess_asymm other k hok2
          have h2 : ¬ k = other := fun h => keyLess_ne other k hok2 h.symm
          simp [searchItem, hko, hne2, h1, h2]

theorem searchItem_assignValue_other (db : SkipList) (key other : String)
    (value : RedisValue) (hne : other ≠ key) :
    searchItem (assignValue db key value) other = searchItem db other := by
  induction db with
  | nil => simp [assignValue]
  | cons e rest ih =>
    obtain ⟨k, v⟩ := e
    by_cases hlt : keyLess k key = true
    · by_cases hlo : keyLess k other = true
      · simp [assignValue, searchItem, hlt, hlo, ih]
      · simp [assignValue, searchItem, hlt, hlo]
    · by_cases heq : k = key
      · subst heq
        have hne2 : ¬ k = other := fun h => hne h.symm
        simp [assignValue, searchItem, keyLess_irrefl, hne2]
      · simp [assignValue, hlt, heq]

/-! ## `set` seen through the search -/

theorem set_search_self (db : SkipList) (key : String) (value : RedisValue) :
    searchItem (RedisHelper.set db key value .NONE).2 key = some value := by
  cases h : searchItem db key with
  | none =>
    simp [RedisHelper.set, RedisHelper.setnx, h, searchItem_addItem_self db key value h]
  | some w =>
    simp [RedisHelper.set, RedisHelper.setex, h, searchItem_assignValue_self db key value w h]

theorem set_search_other (db : SkipList) (key other : String) (value : RedisValue)
    (hne : other ≠ key) :
    searchItem (RedisHelper.set db key value .NONE).2 other = searchItem db other := by
  cases h : searchItem db key with
  | none =>
    simp [RedisHelper.set, RedisHelper.setnx, h, searchItem_addItem_other db key other value hne]
  | some w =>
    simp [RedisHelper.set, RedisHelper.setex, h,
      searchItem_assignValue_other db key other value hne]

theorem msetLoop_search : ∀ (items : List String) (db : SkipList) (k : String),
    searchItem (RedisHelper.msetLoop db items) k
      = match lastValue items k with
        | some value => some (.str value)
        | none => searchItem db k
  | [], db, k => by simp [RedisHelper.msetLoop, lastValue]
  | [_], db, k => by simp [RedisHelper.msetLoop, lastValue]
  | key :: value :: rest, db, k => by
    have ih := msetLoop_search rest (RedisHelper.set db key (.str value) .NONE).2 k
    simp only [RedisHelper.msetLoop, lastValue]
    rw [ih]
    cases hl : lastValue rest k with
    | some v => rfl
    | none =>
      by_cases hk : key = k
      · subst hk
        simp [set_search_self]
      · have hne : k ≠ key := fun h => hk h.symm
        simp [hk, set_search_other db key k _ hne]

/-- C11: a key left holding the empty list (after `rpush L x` and `rpop L`)
or the empty hash is not a string of digits, yet `incr`, `decr`, `incrby`
and `decrby` do not reply that the value is not numeric: the digit loop has
nothing to reject and `std::stoi("")` throws `invalid_argument`. -/
theorem incr_on_empty_list_throws :
    (RedisHelper.rpop (RedisHelper.rpush [] "L" "x").2 "L").db? = some [("L", .array [])]
    ∧ RedisHelper.incr [("L", .array [])] "L" = .error (.invalid_argument "stoi")
    ∧ RedisHelper.decr [("L", .array [])] "L" = .error (.invalid_argument "stoi")
    ∧ RedisHelper.incrby [("L", .array [])] "L" 5 = .error (.invalid_argument "stoi")
    ∧ RedisHelper.decrby [("L", .array [])] "L" 5 = .error (.invalid_argument "stoi")
    ∧ RedisHelper.incr [("H", .object [])] "H" = .error (.invalid_argument "stoi") :=
  ⟨rfl, rfl, rfl, rfl, rfl, rfl⟩

/-- C12: on a key holding the list `es`, `rpush k v` replies `(integer) n+1`
and leaves `es` followed by the string `v`, `lpush k v` replies
`(integer) n+1` and leaves the string `v` followed by `es`; on an absent key
each replies `(integer) 1` and creates the list holding the string `v`. -/
theorem push_appends_and_prepends (db db0 : SkipList) (k v : String)
    (es : List RedisValue) (hk : searchItem db k = some (.array es))
    (habsent : searchItem db0 k = none) :
    (RedisHelper.rpush db k v).1 = "(integer) " ++ to_string (Int.ofNat es.length + 1)
    ∧ searchItem (RedisHelper.rpush db k v).2 k = some (.array (es ++ [.str v]))
    ∧ (RedisHelper.lpush db k v).1 = "(integer) " ++ to_string (Int.ofNat es.length + 1)
    ∧ searchItem (RedisHelper.lpush db k v).2 k = some (.array (.str v :: es))
    ∧ (RedisHelper.rpush db0 k v).1 = "(integer) 1"
    ∧ searchItem (RedisHelper.rpush db0 k v).2 k = some (.array [.str v])
    ∧ (RedisHelper.lpush db0 k v).1 = "(integer) 1"
    ∧ searchItem (RedisHelper.lpush db0 k v).2 k = some (.array [.str v]) := by
  have hr : RedisHelper.rpush db k v
      = ("(integer) " ++ to_string (Int.ofNat (es ++ [RedisValue.str v]).length),
          assignValue db k (.array (es ++ [.str v]))) := by
    simp [RedisHelper.rpush, hk, RedisValue.type, RedisValue.arrayItems]
  have hl : RedisHelper.lpush db k v
      = ("(integer) " ++ to_string (Int.ofNat (RedisValue.str v :: es).length),
          assignValue db k (.array (.str v :: es))) := by
    simp [RedisHelper.lpush, hk, RedisValue.type, RedisValue.arrayItems]
  have hr0 : RedisHelper.rpush db0 k v
      = ("(integer) " ++ to_string 1, addItem db0 k (.array [.str v])) := by
    simp [RedisHelper.rpush, habsent]
  have hl0 : RedisHelper.lpush db0 k v
      = ("(integer) " ++ to_string 1, addItem db0 k (.array [.str v])) := by
    simp [RedisHelper.lpush, habsent]
  have hone : "(integer) " ++ to_string 1 = "(integer) 1" := by decide
  have hlen1 : Int.ofNat (es ++ [RedisValue.str v]).length = Int.ofNat es.length + 1 := by
    simp
  have hlen2 : Int.ofNat (RedisValue.str v :: es).length = Int.ofNat es.length + 1 := by
    simp
  rw [hr, hl, hr0, hl0, hlen1, hlen2]
  exact ⟨rfl, searchItem_assignValue_self db k _ _ hk, rfl,
    searchItem_assignValue_self db k _ _ hk, hone,
    searchItem_addItem_self db0 k _ habsent, hone,
    searchItem_addItem_self db0 k _ habsent⟩

theorem push_appends_and_prepends_witness :
    (RedisHelper.rpush [("L", .array [.str "x"])] "L" "y").1 = "(integer) 2"
    ∧ searchItem (RedisHelper.rpush [("L", .array [.str "x"])] "L" "y").2 "L"
        = some (.array [.str "x", .str "y"])
    ∧ (RedisHelper.lpush [("L", .array [.str "x"])] "L" "y").1 = "(integer) 2"
    ∧ searchItem (RedisHelper.lpush [("L", .array [.str "x"])] "L" "y").2 "L"
        = some (.array [.str "y", .str "x"])
    ∧ (RedisHelper.rpush [] "L" "y").1 = "(integer) 1"
    ∧ searchItem (RedisHelper.rpush [] "L" "y").2 "L" = some (.array [.str "y"])
    ∧ (RedisHelper.lpush [] "L" "y").1 = "(integer) 1"
    ∧ searchItem (RedisHelper.lpush [] "L" "y").2 "L" = some (.array [.str "y"]) :=
  push_appends_and_prepends [("L", .array [.str "x"])] [] "L" "y" [.str "x"] rfl rfl

/-- C19: `mset` on an argument list of odd length replies
`wrong number of arguments for MSET.` and leaves the database unchanged; on
one of even length it replies `OK`, and afterwards every key of the list holds
the string paired with its last occurrence, every other key what it held. -/
theorem mset_bulk_upsert (db : SkipList) (odd items : List String)
    (hodd : odd.length % 2 = 1) (heven : items.length % 2 = 0) :
    RedisHelper.mset db odd = ("wrong number of arguments for MSET.", db)
    ∧ (RedisHelper.mset db items).1 = "OK"
    ∧ ∀ k : String, searchItem (RedisHelper.mset db items).2 k
        = match lastValue items k with
          | some value => some (.str value)
          | none => searchItem db k := by
  refine ⟨by simp [RedisHelper.mset, hodd], by simp [RedisHelper.mset, heven], ?_⟩
  intro k
  have : RedisHelper.mset db items = ("OK", RedisHelper.msetLoop db items) := by
    simp [RedisHelper.mset, heven]
  rw [this]
  exact msetLoop_search items db k

theorem mset_bulk_upsert_witness :
    RedisHelper.mset [("c", .str "0")] ["a", "1", "b"]
      = ("wrong number of arguments for MSET.", [("c", .str "0")])
    ∧ (RedisHelper.mset [("c", .str "0")] ["a", "1", "b", "2", "a", "3"]).1 = "OK"
    ∧ ∀ k : String,
        searchItem (RedisHelper.mset [("c", .str "0")] ["a", "1", "b", "2", "a", "3"]).2 k
        = match lastValue ["a", "1", "b", "2", "a", "3"] k with
          | some value => some (.str value)
          | none => searchItem [("c", .str "0")] k :=
  mset_bulk_upsert [("c", .str "0")] ["a", "1", "b"] ["a", "1", "b", "2", "a", "3"]
    (by decide) (by decide)

/-- C20: on a key holding the string `666`, `append k hi` stores the dumped
text of the old value followed by `hi`, that is `"666"hi` with the two
quotes, and replies `(integer) 11`, the size of the dump of the new value:
not the string `666hi` and not `(integer) 5`. -/
theorem append_keeps_quotes :
    RedisHelper.append [("k", .str "666")] "k" "hi"
      = ("(integer) 11", [("k", .str "\"666\"hi")])
    ∧ (RedisHelper.append [("k", .str "666")] "k" "hi").1 ≠ "(integer) 5"
    ∧ RedisHelper.get (RedisHelper.append [("k", .str "666")] "k" "hi").2 "k"
        ≠ (RedisValue.str "666hi").dump
    ∧ RedisHelper.append [] "k" "hi" = ("(integer) 2", [("k", .str "hi")]) :=
  ⟨rfl, by decide, by decide, rfl⟩

/-! ## `lrange` -/

theorem intercalate_singleton (s a : String) : String.intercalate s [a] = a := by
  simp [String.intercalate, String.intercalate.go]

theorem lrangeLoop_rows (es : List RedisValue) (right : Int) : ∀ (c a : Nat),
    a + c ≤ es.length → (a : Int) + (c : Int) - 1 = right →
    lrangeLoop es right c (a : Int)
      = some (String.intercalate "\n" (positionRows a ((es.drop a).take c))) := by
  intro c
  induction c with
  | zero => intro a _ _; simp [lrangeLoop, positionRows, String.intercalate]
  | succ c ih =>
    intro a hle hright
    have hlt : a < es.length := by omega
    have hget : vectorAt es (a : Int) = some (es.get ⟨a, hlt⟩) := by
      have hnn : ¬ ((a : Int) < 0) := by omega
      simp [vectorAt, hnn, List.get?_eq_get hlt]
    have hdrop : (es.drop a).take (c + 1) = es.get ⟨a, hlt⟩ :: (es.drop (a + 1)).take c := by
      rw [List.drop_eq_getElem_cons hlt, List.take_succ_cons]
      rfl
    have hnext : (a : Int) + 1 = ((a + 1 : Nat) : Int) := by simp
    have hrec := ih (a + 1) (by omega) (by push_cast at hright ⊢; omega)
    simp only [lrangeLoop, hget]
    rw [hnext, hrec, hdrop]
    simp only [positionRows, Int.ofNat_eq_coe]
    cases c with
    | zero =>
      have hr : (a : Int) = right := by push_cast at hright; omega
      simp [hr, positionRows, String.intercalate, String.intercalate.go]
    | succ c =>
      have hlt2 : a + 1 < es.length := by omega
      have hr : (a : Int) ≠ right := by push_cast at hright; omega
      have hdrop2 : (es.drop (a + 1)).take (c + 1)
          = es.get ⟨a + 1, hlt2⟩ :: (es.drop (a + 1 + 1)).take c := by
        rw [List.drop_eq_getElem_cons hlt2, List.take_succ_cons]
        rfl
      rw [hdrop2]
      simp only [positionRows, if_pos hr, intercalate_cons_cons, Option.some.injEq,
        Int.ofNat_eq_coe]
      simp [String.append_assoc]

/-- C13 as the code has it: on a key holding a list of size `n`, with
`s' = max(s, 0)` and `e' = min(e, n-1)`, `lrange` replies
`(empty list or set)` when `e' < s'`; otherwise it replies `e'-s'+1` rows
joined by newlines, no newline at the end, and row `j` is the number `s'+j`
(the position of the element in the list, counted from 1), `) ` and the dump
of the element at index `s'+j-1`. -/
theorem lrange_rows_carry_positions (db : SkipList) (k start stop : String)
    (es : List RedisValue) (s e : Int) (hk : searchItem db k = some (.array es))
    (hs : stoi start = .ok s) (he : stoi stop = .ok e) :
    RedisHelper.lrange db k start stop
      = .returned
          (if min e ((es.length : Int) - 1) < max s 0 then "(empty list or set)"
           else String.intercalate "\n"
            (positionRows (max s 0).toNat
              ((es.drop (max s 0).toNat).take
                (min e ((es.length : Int) - 1) - max s 0 + 1).toNat))) db
    ∧ (¬ min e ((es.length : Int) - 1) < max s 0 →
        (positionRows (max s 0).toNat
          ((es.drop (max s 0).toNat).take
            (min e ((es.length : Int) - 1) - max s 0 + 1).toNat)).length
          = (min e ((es.length : Int) - 1) - max s 0 + 1).toNat) := by
  have hlen : ∀ (i : Nat) (l : List RedisValue), (positionRows i l).length = l.length := by
    intro i l
    induction l generalizing i with
    | nil => rfl
    | cons x xs ih => simp [positionRows, ih]
  have hmin : min e ((es.length : Int) - 1) ≤ (es.length : Int) - 1 := min_le_right _ _
  have h0 : (0 : Int) ≤ max s 0 := le_max_right _ _
  constructor
  · simp only [RedisHelper.lrange, hk, RedisValue.type, RedisValue.arrayItems, hs, he, ne_eq,
      not_true_eq_false, if_false, Int.ofNat_eq_coe]
    by_cases hempty : min e ((es.length : Int) - 1) < max s 0
    · have hfuel : (min e ((es.length : Int) - 1) - max s 0 + 1).toNat = 0 := by omega
      rw [hfuel]
      simp [hempty, lrangeLoop]
    · have hleft : max s 0 = (((max s 0).toNat : Nat) : Int) := by
        simp [Int.toNat_of_nonneg h0]
      have hnot : ¬ (min e ((es.length : Int) - 1) < max s 0
          ∨ max s 0 ≥ (es.length : Int)) := by
        omega
      have hrows := lrangeLoop_rows es (min e ((es.length : Int) - 1))
        (min e ((es.length : Int) - 1) - max s 0 + 1).toNat (max s 0).toNat
        (by omega) (by omega)
      rw [← hleft] at hrows
      rw [hrows]
      have h2 : ¬ (max s 0 ≥ (es.length : Int)) := fun h => hnot (Or.inr h)
      simp [hempty, h2]
  · intro hne
    rw [hlen, List.length_take, List.length_drop]
    omega

theorem lrange_rows_carry_positions_witness :
    RedisHelper.lrange [("L", .array [.str "x", .str "y", .str "z"])] "L" "1" "5"
      = .returned "2) \"y\"\n3) \"z\"" [("L", .array [.str "x", .str "y", .str "z"])]
    ∧ RedisHelper.lrange [("L", .array [.str "x", .str "y", .str "z"])] "L" "2" "1"
      = .returned "(empty list or set)" [("L", .array [.str "x", .str "y", .str "z"])] :=
  ⟨(lrange_rows_carry_positions [("L", .array [.str "x", .str "y", .str "z"])] "L" "1" "5"
      [.str "x", .str "y", .str "z"] 1 5 rfl rfl rfl).1.trans
      (congrArg (fun r => Outcome.returned r [("L", .array [.str "x", .str "y", .str "z"])])
        (by decide)),
    (lrange_rows_carry_positions [("L", .array [.str "x", .str "y", .str "z"])] "L" "2" "1"
      [.str "x", .str "y", .str "z"] 2 1 rfl rfl rfl).1.trans
      (congrArg (fun r => Outcome.returned r [("L", .array [.str "x", .str "y", .str "z"])])
        (by decide))⟩

/-- C13 fails when the range does not start at the head of the list: on the
list `x, y, z`, `lrange L 1 2` replies the rows `2) "y"` and `3) "z"`, not
`1) "y"` and `2) "z"`. -/
theorem lrange_numbers_by_position :
    (RedisHelper.lrange [("L", .array [.str "x", .str "y", .str "z"])] "L" "1" "2").reply?
      = some "2) \"y\"\n3) \"z\""
    ∧ (RedisHelper.lrange [("L", .array [.str "x", .str "y", .str "z"])] "L" "1" "2").reply?
      ≠ some "1) \"y\"\n2) \"z\"" := by
  decide

/-! ## `lpop` and `rpop` -/

theorem dump_has_two_ends (v : RedisValue) :
    ∃ (a b : Char) (mid : List Char), v.dump.data = a :: (mid ++ [b]) := by
  cases v with
  | null => exact ⟨'n', 'l', ['u', 'l'], by decide⟩
  | str s => exact ⟨'"', '"', dumpChars s.data, dumpString_data s⟩
  | array items =>
    exact ⟨'[', ']', (dumpArrayItems true items).data, by
      simp [RedisValue.dump, String.data_append]⟩
  | object items =>
    exact ⟨Char.ofNat 123, Char.ofNat 125, (dumpObjectItems true items).data, by
      simp only [RedisValue.dump, String.data_append]
      rfl⟩

theorem eraseEnds_of_two_ends (s : String) (db : SkipList) (a b : Char) (mid : List Char)
    (h : s.data = a :: (mid ++ [b])) : eraseEnds s db = .returned (String.mk mid) db := by
  have h1 : erase s 0 1 = .ok (String.mk (mid ++ [b])) := by
    simp [erase, h]
  have hlen : (String.mk (mid ++ [b])).length = mid.length + 1 := by
    simp [String.length]
  have hs : sizeMinusOne (String.mk (mid ++ [b])) = mid.length := by
    simp [sizeMinusOne, hlen]
  have h2 : erase (String.mk (mid ++ [b])) mid.length npos = .ok (String.mk mid) := by
    simp [erase, hlen, npos]
  simp only [eraseEnds, h1, hs, h2]

theorem stripEnds_of_two_ends (s : String) (a b : Char) (mid : List Char)
    (h : s.data = a :: (mid ++ [b])) : stripEnds s = String.mk mid := by
  simp [stripEnds, h]

theorem eraseEnds_dump (v : RedisValue) (db : SkipList) :
    eraseEnds v.dump db = .returned (stripEnds v.dump) db := by
  obtain ⟨a, b, mid, h⟩ := dump_has_two_ends v
  rw [eraseEnds_of_two_ends _ db a b mid h, stripEnds_of_two_ends _ a b mid h]

theorem lpop_front (db : SkipList) (k : String) (e1 : RedisValue) (tl : List RedisValue)
    (hk : searchItem db k = some (.array (e1 :: tl))) :
    RedisHelper.lpop db k = .returned (stripEnds e1.dump) (assignValue db k (.array tl)) := by
  simp only [RedisHelper.lpop, hk, RedisValue.type, RedisValue.arrayItems, ne_eq,
    not_true_eq_false, if_false]
  exact eraseEnds_dump e1 _

theorem rpop_back (db : SkipList) (k : String) (en : RedisValue) (init : List RedisValue)
    (hk : searchItem db k = some (.array (init ++ [en]))) :
    RedisHelper.rpop db k = .returned (stripEnds en.dump) (assignValue db k (.array init)) := by
  simp only [RedisHelper.rpop, hk, RedisValue.type, RedisValue.arrayItems, ne_eq,
    not_true_eq_false, if_false]
  have h1 : (init ++ [en]).getLast? = some en := by simp
  have h2 : (init ++ [en]).dropLast = init := by simp
  rw [h1, h2]
  exact eraseEnds_dump en _

theorem assignValue_array_ne (db : SkipList) (k : String) (es shorter : List RedisValue)
    (hk : searchItem db k = some (.array es)) (hlen : shorter.length < es.length) :
    assignValue db k (.array shorter) ≠ db := by
  intro h
  have h1 := searchItem_assignValue_self db k (.array shorter) _ hk
  rw [h, hk] at h1
  simp only [Option.some.injEq, RedisValue.array.injEq] at h1
  rw [h1] at hlen
  exact Nat.lt_irrefl _ hlen

theorem lpop_nil_iff (db : SkipList) (k : String) :
    RedisHelper.lpop db k = .returned "(nil)" db
      ↔ (searchItem db k = none ∨ ∃ v, searchItem db k = some v ∧ v.type ≠ .ARRAY) := by
  constructor
  · intro h
    cases hs : searchItem db k with
    | none => exact Or.inl rfl
    | some v =>
      right
      refine ⟨v, rfl, ?_⟩
      intro hty
      cases v with
      | null => cases hty
      | str s => cases hty
      | object items => cases hty
      | array es =>
        cases es with
        | nil =>
          simp [RedisHelper.lpop, hs, RedisValue.type, RedisValue.arrayItems] at h
        | cons e1 tl =>
          rw [lpop_front db k e1 tl hs] at h
          simp only [Outcome.returned.injEq] at h
          exact assignValue_array_ne db k (e1 :: tl) tl hs (by simp) h.2
  · rintro (h | ⟨v, hv, hty⟩)
    · simp [RedisHelper.lpop, h]
    · simp [RedisHelper.lpop, hv, hty]

theorem rpop_nil_iff (db : SkipList) (k : String) :
    RedisHelper.rpop db k = .returned "(nil)" db
      ↔ (searchItem db k = none ∨ ∃ v, searchItem db k = some v ∧ v.type ≠ .ARRAY) := by
  constructor
  · intro h
    cases hs : searchItem db k with
    | none => exact Or.inl rfl
    | some v =>
      right
      refine ⟨v, rfl, ?_⟩
      intro hty
      cases v with
      | null => cases hty
      | str s => cases hty
      | object items => cases hty
      | array es =>
        rcases List.eq_nil_or_concat es with hnil | ⟨init, en, hcat⟩
        · subst hnil
          simp [RedisHelper.rpop, hs, RedisValue.type, RedisValue.arrayItems] at h
        · subst hcat
          rw [List.concat_eq_append] at hs
          rw [rpop_back db k en init hs] at h
          simp only [Outcome.returned.injEq] at h
          exact assignValue_array_ne db k (init ++ [en]) init hs (by simp) h.2
  · rintro (h | ⟨v, hv, hty⟩)
    · simp [RedisHelper.rpop, h]
    · simp [RedisHelper.rpop, hv, hty]

/-- C14: on a key holding the list `e1, e2 .. en`, `lpop` replies `dump(e1)`
without its first and last character and leaves `e2 .. en`; on a key holding
`e1 .. e(n-1), en`, `rpop` replies the same for `en` and leaves
`e1 .. e(n-1)`.  On any database, the reply is `(nil)` with the database
unchanged exactly when the key is absent or its value is not a list. -/
theorem pop_removes_one_end (db dbl dbr : SkipList) (k : String) (e1 en : RedisValue)
    (tl init : List RedisValue)
    (hl : searchItem dbl k = some (.array (e1 :: tl)))
    (hr : searchItem dbr k = some (.array (init ++ [en]))) :
    (∃ db1, RedisHelper.lpop dbl k = .returned (stripEnds e1.dump) db1
      ∧ searchItem db1 k = some (.array tl))
    ∧ (∃ db1, RedisHelper.rpop dbr k = .returned (stripEnds en.dump) db1
      ∧ searchItem db1 k = some (.array init))
    ∧ (RedisHelper.lpop db k = .returned "(nil)" db
        ↔ (searchItem db k = none ∨ ∃ v, searchItem db k = some v ∧ v.type ≠ .ARRAY))
    ∧ (RedisHelper.rpop db k = .returned "(nil)" db
        ↔ (searchItem db k = none ∨ ∃ v, searchItem db k = some v ∧ v.type ≠ .ARRAY)) :=
  ⟨⟨_, lpop_front dbl k e1 tl hl, searchItem_assignValue_self dbl k _ _ hl⟩,
    ⟨_, rpop_back dbr k en init hr, searchItem_assignValue_self dbr k _ _ hr⟩,
    lpop_nil_iff db k, rpop_nil_iff db k⟩

theorem pop_removes_one_end_witness :
    (∃ db1, RedisHelper.lpop [("L", .array [.str "x", .str "y"])] "L"
        = .returned (stripEnds (RedisValue.str "x").dump) db1
      ∧ searchItem db1 "L" = some (.array [.str "y"]))
    ∧ (∃ db1, RedisHelper.rpop [("L", .array ([RedisValue.str "x"] ++ [RedisValue.str "y"]))] "L"
        = .returned (stripEnds (RedisValue.str "y").dump) db1
      ∧ searchItem db1 "L" = some (.array [.str "x"]))
    ∧ (RedisHelper.lpop [("s", .str "1")] "L" = .returned "(nil)" [("s", .str "1")]
        ↔ (searchItem [("s", .str "1")] "L" = none
          ∨ ∃ v, searchItem [("s", .str "1")] "L" = some v ∧ v.type ≠ .ARRAY))
    ∧ (RedisHelper.rpop [("s", .str "1")] "L" = .returned "(nil)" [("s", .str "1")]
        ↔ (searchItem [("s", .str "1")] "L" = none
          ∨ ∃ v, searchItem [("s", .str "1")] "L" = some v ∧ v.type ≠ .ARRAY)) :=
  pop_removes_one_end [("s", .str "1")] [("L", .array [.str "x", .str "y"])]
    [("L", .array ([RedisValue.str "x"] ++ [RedisValue.str "y"]))] "L" (.str "x") (.str "y")
    [.str "y"] [.str "x"] rfl rfl

/-! ## Push then pop -/

theorem dumpChar_of_plain (ch : Char)
    (h : ch ≠ '"' ∧ ch ≠ '\\' ∧ 32 ≤ ch.toNat) : dumpChar ch = [ch] := by
  obtain ⟨e2, e1, hge⟩ := h
  have e3 : ch ≠ Char.ofNat 8 := by rintro rfl; revert hge; decide
  have e4 : ch ≠ Char.ofNat 12 := by rintro rfl; revert hge; decide
  have e5 : ch ≠ '\n' := by rintro rfl; revert hge; decide
  have e6 : ch ≠ '\r' := by rintro rfl; revert hge; decide
  have e7 : ch ≠ '\t' := by rintro rfl; revert hge; decide
  have e8 : ¬ ch.toNat ≤ 0x1f := by omega
  simp [dumpChar, e1, e2, e3, e4, e5, e6, e7, e8]

theorem dumpChars_of_plain (cs : List Char)
    (h : ∀ ch ∈ cs, ch ≠ '"' ∧ ch ≠ '\\' ∧ 32 ≤ ch.toNat) : dumpChars cs = cs := by
  induction cs with
  | nil => rfl
  | cons c rest ih =>
    simp [dumpChars, dumpChar_of_plain c (h c (List.mem_cons_self _ _)),
      ih (fun ch hch => h ch (List.mem_cons_of_mem _ hch))]

theorem stripEnds_dumpString (v : String) :
    stripEnds (RedisValue.str v).dump = String.mk (dumpChars v.data) :=
  stripEnds_of_two_ends _ '"' '"' _ (dumpString_data v)

/-- C15 as the code has it: on an absent key, `rpush k v` then `rpop k`, and
`lpush k v` then `lpop k`, reply `v` itself when `v` has no double quote, no
backslash and no character below `0x20`; for any token `w` the reply is the
text `dump` writes between the quotes for `w`. -/
theorem push_pop_round_trip (db : SkipList) (k v w : String)
    (habsent : searchItem db k = none)
    (hplain : ∀ ch ∈ v.data, ch ≠ '"' ∧ ch ≠ '\\' ∧ 32 ≤ ch.toNat) :
    (RedisHelper.rpop (RedisHelper.rpush db k v).2 k).reply? = some v
    ∧ (RedisHelper.lpop (RedisHelper.lpush db k v).2 k).reply? = some v
    ∧ (RedisHelper.rpop (RedisHelper.rpush db k w).2 k).reply?
        = some (String.mk (dumpChars w.data))
    ∧ (RedisHelper.lpop (RedisHelper.lpush db k w).2 k).reply?
        = some (String.mk (dumpChars w.data)) := by
  have hr : ∀ x, (RedisHelper.rpush db k x).2 = addItem db k (.array [.str x]) := by
    intro x; simp [RedisHelper.rpush, habsent]
  have hl : ∀ x, (RedisHelper.lpush db k x).2 = addItem db k (.array [.str x]) := by
    intro x; simp [RedisHelper.lpush, habsent]
  have hs : ∀ x, searchItem (addItem db k (.array [.str x])) k = some (.array [.str x]) :=
    fun x => searchItem_addItem_self db k (.array [.str x]) habsent
  have hv : String.mk (dumpChars v.data) = v := by
    rw [dumpChars_of_plain v.data hplain]
  have hpopr : ∀ x, (RedisHelper.rpop (RedisHelper.rpush db k x).2 k).reply?
      = some (String.mk (dumpChars x.data)) := by
    intro x
    rw [hr, rpop_back _ k (.str x) [] (by simpa using hs x), stripEnds_dumpString]
    rfl
  have hpopl : ∀ x, (RedisHelper.lpop (RedisHelper.lpush db k x).2 k).reply?
      = some (String.mk (dumpChars x.data)) := by
    intro x
    rw [hl, lpop_front _ k (.str x) [] (hs x), stripEnds_dumpString]
    rfl
  refine ⟨?_, ?_, hpopr w, hpopl w⟩
  · rw [hpopr v, hv]
  · rw [hpopl v, hv]

theorem push_pop_round_trip_witness :
    (RedisHelper.rpop (RedisHelper.rpush [] "L" "hello").2 "L").reply? = some "hello"
    ∧ (RedisHelper.lpop (RedisHelper.lpush [] "L" "hello").2 "L").reply? = some "hello"
    ∧ (RedisHelper.rpop (RedisHelper.rpush [] "L" "a\"b").2 "L").reply?
        = some (String.mk (dumpChars "a\"b".data))
    ∧ (RedisHelper.lpop (RedisHelper.lpush [] "L" "a\"b").2 "L").reply?
        = some (String.mk (dumpChars "a\"b".data)) :=
  push_pop_round_trip [] "L" "hello" "a\"b" rfl (by decide)

/-- C15 fails on a token with a double quote: after `rpush L a"b`, `rpop L`
replies `a\"b`, the escaped text, and `lpush` then `lpop` does the same. -/
theorem pop_replies_escaped_text :
    tokenize "a\"b" = ["a\"b"]
    ∧ (RedisHelper.rpop (RedisHelper.rpush [] "L" "a\"b").2 "L").reply? = some "a\\\"b"
    ∧ (RedisHelper.rpop (RedisHelper.rpush [] "L" "a\"b").2 "L").reply? ≠ some "a\"b"
    ∧ (RedisHelper.lpop (RedisHelper.lpush [] "L" "a\"b").2 "L").reply? ≠ some "a\"b" := by
  decide

/-! ## Counting distinct keys -/

theorem card_filter_insert_split (S : Finset String) (a : String) (p q : String → Bool)
    (hq : ∀ g, q g = (p g && decide (g ≠ a))) :
    ((insert a S).filter (fun g => p g = true)).card
      = (if p a = true then 1 else 0) + (S.filter (fun g => q g = true)).card := by
  have hS : S.filter (fun g => q g = true) = (S.filter (fun g => p g = true)).erase a := by
    ext g
    simp only [Finset.mem_filter, Finset.mem_erase, hq, Bool.and_eq_true, decide_eq_true_eq]
    tauto
  rw [hS]
  by_cases hp : p a = true
  · rw [Finset.filter_insert, if_pos hp, if_pos hp]
    rw [← Finset.erase_insert_eq_erase (S.filter (fun g => p g = true)) a]
    rw [Nat.add_comm]
    exact (Finset.card_erase_add_one (Finset.mem_insert_self a _)).symm
  · rw [Finset.filter_insert, if_neg hp, if_neg hp, Nat.zero_add]
    rw [Finset.erase_eq_of_not_mem]
    simp [hp]

/-! ## `del` and `exists` on an index in ascending key order -/

theorem searchItem_none_of_all_greater (l : SkipList) (g : String)
    (h : ∀ e ∈ l, keyLess g e.1 = true) : searchItem l g = none := by
  cases l with
  | nil => rfl
  | cons e rest =>
    obtain ⟨k, v⟩ := e
    have hgk : keyLess g k = true := h (k, v) (List.mem_cons_self _ _)
    have h1 : keyLess k g = false := keyLess_asymm g k hgk
    have h2 : ¬ k = g := fun h => keyLess_ne g k hgk h.symm
    simp [searchItem, h1, h2]

theorem deleteItem_found (db : SkipList) (k : String) :
    (deleteItem db k).1 = (searchItem db k).isSome := by
  induction db with
  | nil => rfl
  | cons e rest ih =>
    obtain ⟨a, va⟩ := e
    by_cases hlt : keyLess a k = true
    · simp [deleteItem, searchItem, hlt, ih]
    · by_cases heq : a = k
      · subst heq
        simp [deleteItem, searchItem, keyLess_irrefl]
      · simp [deleteItem, searchItem, hlt, heq]

theorem deleteItem_mem (db : SkipList) (k : String) :
    ∀ e ∈ (deleteItem db k).2, e ∈ db := by
  induction db with
  | nil => intro e he; simp [deleteItem] at he
  | cons x rest ih =>
    obtain ⟨a, va⟩ := x
    intro e he
    by_cases hlt : keyLess a k = true
    · simp only [deleteItem, hlt, if_true, List.mem_cons] at he ⊢
      rcases he with he | he
      · exact Or.inl he
      · exact Or.inr (ih e he)
    · by_cases heq : a = k
      · subst heq
        simp only [deleteItem, keyLess_irrefl, if_true, Bool.false_eq_true, if_false] at he
        exact List.mem_cons_of_mem _ he
      · simp only [deleteItem, hlt, heq, if_false] at he
        exact he

theorem deleteItem_ascending (db : SkipList) (k : String) (h : Ascending db) :
    Ascending (deleteItem db k).2 := by
  induction db with
  | nil => simp [deleteItem, Ascending]
  | cons x rest ih =>
    obtain ⟨a, va⟩ := x
    have hpair := List.pairwise_cons.mp h
    by_cases hlt : keyLess a k = true
    · simp only [deleteItem, hlt, if_true]
      exact List.pairwise_cons.mpr
        ⟨fun e he => hpair.1 e (deleteItem_mem rest k e he), ih hpair.2⟩
    · by_cases heq : a = k
      · subst heq
        simp only [deleteItem, keyLess_irrefl, if_true, Bool.false_eq_true, if_false]
        exact hpair.2
      · simp only [deleteItem, hlt, heq, if_false]
        exact h

theorem searchItem_deleteItem_self (db : SkipList) (k : String) (h : Ascending db) :
    searchItem (deleteItem db k).2 k = none := by
  induction db with
  | nil => rfl
  | cons x rest ih =>
    obtain ⟨a, va⟩ := x
    have hpair := List.pairwise_cons.mp h
    by_cases hlt : keyLess a k = true
    · simp [deleteItem, searchItem, hlt, ih hpair.2]
    · by_cases heq : a = k
      · subst heq
        simp only [deleteItem, keyLess_irrefl, if_true, Bool.false_eq_true, if_false]
        exact searchItem_none_of_all_greater rest a (fun e he => hpair.1 e he)
      · simp [deleteItem, searchItem, hlt, heq]

theorem searchItem_deleteItem_other (db : SkipList) (k g : String) (h : Ascending db)
    (hne : g ≠ k) : searchItem (deleteItem db k).2 g = searchItem db g := by
  induction db with
  | nil => rfl
  | cons x rest ih =>
    obtain ⟨a, va⟩ := x
    have hpair := List.pairwise_cons.mp h
    by_cases hlt : keyLess a k = true
    · by_cases hlg : keyLess a g = true
      · simp [deleteItem, searchItem, hlt, hlg, ih hpair.2]
      · simp [deleteItem, searchItem, hlt, hlg]
    · by_cases heq : a = k
      · subst heq
        simp only [deleteItem, keyLess_irrefl, if_true, Bool.false_eq_true, if_false]
        by_cases hlg : keyLess a g = true
        · simp [searchItem, hlg]
        · have hne2 : ¬ a = g := fun h => hne h.symm
          have hga : keyLess g a = true := keyLess_total a g (by simpa using hlg) hne2
          simp only [searchItem, hlg, hne2, if_false]
          exact searchItem_none_of_all_greater rest g
            (fun e he => keyLess_trans g a e.1 hga (hpair.1 e he))
      · simp [deleteItem, hlt, heq]

theorem delLoop_spec (ks : List String) : ∀ (db : SkipList) (count : Nat), Ascending db →
    (RedisHelper.delLoop db ks count).1
        = count + (ks.toFinset.filter (fun k => (searchItem db k).isSome = true)).card
    ∧ (∀ g, searchItem (RedisHelper.delLoop db ks count).2 g
        = if g ∈ ks then none else searchItem db g)
    ∧ Ascending (RedisHelper.delLoop db ks count).2 := by
  induction ks with
  | nil => intro db count h; simp [RedisHelper.delLoop, h]
  | cons k rest ih =>
    intro db count h
    have hasc := deleteItem_ascending db k h
    have hfound := deleteItem_found db k
    have hcard := card_filter_insert_split rest.toFinset k
      (fun g => (searchItem db g).isSome) (fun g => (searchItem (deleteItem db k).2 g).isSome)
      (by
        intro g
        by_cases hg : g = k
        · subst hg
          simp [searchItem_deleteItem_self db g h]
        · simp [searchItem_deleteItem_other db k g h hg, hg])
    have hsearch : ∀ g count1, searchItem (RedisHelper.delLoop (deleteItem db k).2 rest count1).2 g
        = if g ∈ k :: rest then none else searchItem db g := by
      intro g count1
      rw [(ih (deleteItem db k).2 count1 hasc).2.1 g]
      by_cases hg : g = k
      · subst hg
        simp [searchItem_deleteItem_self db g h]
      · simp [searchItem_deleteItem_other db k g h hg, hg]
    simp only [RedisHelper.delLoop, List.toFinset_cons]
    rw [hcard]
    cases hf : (deleteItem db k).1 with
    | true =>
      rw [hf] at hfound
      simp only [if_true, ← hfound]
      refine ⟨?_, fun g => hsearch g _, (ih _ _ hasc).2.2⟩
      rw [(ih (deleteItem db k).2 (count + 1) hasc).1]
      omega
    | false =>
      rw [hf] at hfound
      simp only [Bool.false_eq_true, if_false, ← hfound]
      refine ⟨?_, fun g => hsearch g _, (ih _ _ hasc).2.2⟩
      rw [(ih (deleteItem db k).2 count hasc).1]
      omega

/-- C18 on an index whose keys are distinct and in ascending order:
`del ks` replies `(integer) n`, `n` the number of distinct keys of
`ks` that were present; afterwards every key of `ks` is absent, `exists ks`
replies `(integer) 0`, and every key not in `ks` holds what it held. -/
theorem del_counts_removals (db : SkipList) (ks : List String) (hasc : Ascending db) :
    (RedisHelper.del db ks).1
        = "(integer) " ++ to_string (Int.ofNat
            (ks.toFinset.filter (fun k => (searchItem db k).isSome = true)).card)
    ∧ (∀ k ∈ ks, searchItem (RedisHelper.del db ks).2 k = none)
    ∧ RedisHelper.exists_ (RedisHelper.del db ks).2 ks = "(integer) 0"
    ∧ (∀ g, g ∉ ks → searchItem (RedisHelper.del db ks).2 g = searchItem db g) := by
  obtain ⟨hcount, hsearch, _⟩ := delLoop_spec ks db 0 hasc
  have habs : ∀ k ∈ ks, searchItem (RedisHelper.del db ks).2 k = none := by
    intro k hk
    simp only [RedisHelper.del]
    rw [hsearch k, if_pos hk]
  refine ⟨?_, habs, ?_, ?_⟩
  · simp only [RedisHelper.del, hcount, Nat.zero_add]
  · have hnone : ks.filter (fun key => (searchItem (RedisHelper.del db ks).2 key).isSome) = [] := by
      rw [List.filter_eq_nil_iff]
      intro k hk
      simp [habs k hk]
    simp only [RedisHelper.exists_, hnone]
    decide
  · intro g hg
    simp only [RedisHelper.del]
    rw [hsearch g, if_neg hg]

theorem del_counts_removals_witness :
    (RedisHelper.del [("a", .str "1"), ("b", .str "2"), ("c", .str "3")] ["a", "c", "a", "z"]).1
        = "(integer) 2"
    ∧ (∀ k ∈ ["a", "c", "a", "z"], searchItem (RedisHelper.del
        [("a", .str "1"), ("b", .str "2"), ("c", .str "3")] ["a", "c", "a", "z"]).2 k = none)
    ∧ RedisHelper.exists_ (RedisHelper.del
        [("a", .str "1"), ("b", .str "2"), ("c", .str "3")] ["a", "c", "a", "z"]).2
        ["a", "c", "a", "z"] = "(integer) 0"
    ∧ (∀ g, g ∉ ["a", "c", "a", "z"] → searchItem (RedisHelper.del
        [("a", .str "1"), ("b", .str "2"), ("c", .str "3")] ["a", "c", "a", "z"]).2 g
        = searchItem [("a", .str "1"), ("b", .str "2"), ("c", .str "3")] g) :=
  ⟨(del_counts_removals [("a", .str "1"), ("b", .str "2"), ("c", .str "3")]
      ["a", "c", "a", "z"] (by simp [Ascending]; decide)).1.trans (by decide),
    (del_counts_removals [("a", .str "1"), ("b", .str "2"), ("c", .str "3")]
      ["a", "c", "a", "z"] (by simp [Ascending]; decide)).2⟩

/-! ## Hashes -/

theorem addItem_mem (l : SkipList) (k : String) (v : RedisValue) :
    ∀ e ∈ addItem l k v, e ∈ l ∨ e = (k, v) := by
  induction l with
  | nil => intro e he; simpa [addItem] using he
  | cons x rest ih =>
    obtain ⟨a, va⟩ := x
    intro e he
    by_cases hlt : keyLess a k = true
    · simp only [addItem, hlt, if_true, List.mem_cons] at he ⊢
      rcases he with he | he
      · exact Or.inl (Or.inl he)
      · rcases ih e he with h | h
        · exact Or.inl (Or.inr h)
        · exact Or.inr h
    · by_cases heq : a = k
      · subst heq
        simp only [addItem, keyLess_irrefl, if_true, Bool.false_eq_true, if_false] at he
        exact Or.inl he
      · simp only [addItem, hlt, heq, if_false] at he
        cases List.mem_cons.mp he with
        | inl h1 => exact Or.inr h1
        | inr h2 => exact Or.inl h2

theorem addItem_ascending (l : SkipList) (k : String) (v : RedisValue) (h : Ascending l) :
    Ascending (addItem l k v) := by
  induction l with
  | nil => simp [addItem, Ascending]
  | cons x rest ih =>
    obtain ⟨a, va⟩ := x
    have hpair := List.pairwise_cons.mp h
    by_cases hlt : keyLess a k = true
    · simp only [addItem, hlt, if_true]
      refine List.pairwise_cons.mpr ⟨?_, ih hpair.2⟩
      intro e he
      rcases addItem_mem rest k v e he with h1 | h1
      · exact hpair.1 e h1
      · rw [h1]; exact hlt
    · by_cases heq : a = k
      · subst heq
        simp only [addItem, keyLess_irrefl, if_true, Bool.false_eq_true, if_false]
        exact h
      · have hka : keyLess k a = true := keyLess_total a k (by simpa using hlt) heq
        simp only [addItem, hlt, heq, if_false]
        refine List.pairwise_cons.mpr ⟨?_, h⟩
        intro e he
        rcases List.mem_cons.mp he with h1 | h1
        · rw [h1]; exact hka
        · exact keyLess_trans k a e.1 hka (hpair.1 e h1)

theorem hsetLoop_spec (ps : List (String × String)) :
    ∀ (m : List (String × RedisValue)) (count : Nat),
    ∃ m1, hsetLoop (flatPairs ps) m count = some (m1, count + newFieldCount m ps)
      ∧ (∀ f, mapFind m1 f
          = match mapFind m f with
            | some old => some old
            | none => (firstValue ps f).map RedisValue.str)
      ∧ (Ascending m → Ascending m1) := by
  induction ps with
  | nil =>
    intro m count
    refine ⟨m, by simp [hsetLoop, flatPairs, newFieldCount], ?_, id⟩
    intro f
    cases mapFind m f <;> simp [firstValue]
  | cons p rest ih =>
    obtain ⟨f, v⟩ := p
    intro m count
    cases hf : mapFind m f with
    | none =>
      have hfs : searchItem m f = none := hf
      have hassign : mapAssign m f (.str v) = addItem m f (.str v) := by
        simp [mapAssign, hfs]
      obtain ⟨m1, hloop, hfind, hasc⟩ := ih (mapAssign m f (.str v)) (count + 1)
      have hself : mapFind (mapAssign m f (.str v)) f = some (.str v) := by
        rw [hassign]; exact searchItem_addItem_self m f _ hfs
      have hother : ∀ g, g ≠ f → mapFind (mapAssign m f (.str v)) g = mapFind m g := by
        intro g hg
        rw [hassign]; exact searchItem_addItem_other m f g _ hg
      have hcard := card_filter_insert_split (rest.map Prod.fst).toFinset f
        (fun g => (mapFind m g).isNone) (fun g => (mapFind (mapAssign m f (.str v)) g).isNone)
        (by
          intro g
          by_cases hg : g = f
          · subst hg; simp [hself]
          · simp [hother g hg, hg])
      refine ⟨m1, ?_, ?_, ?_⟩
      · simp only [flatPairs, hsetLoop, hf, hloop, newFieldCount, List.map_cons,
          List.toFinset_cons]
        rw [hcard]
        simp only [hf, Option.isNone_none, if_true, newFieldCount]
        congr 2
        omega
      · intro g
        rw [hfind g]
        by_cases hg : g = f
        · subst hg
          simp [hself, hf, firstValue]
        · have hg2 : ¬ f = g := fun h => hg h.symm
          rw [hother g hg]
          cases mapFind m g <;> simp [firstValue, hg2]
      · intro h
        apply hasc
        rw [hassign]
        exact addItem_ascending m f _ h
    | some old =>
      obtain ⟨m1, hloop, hfind, hasc⟩ := ih m count
      have hcard := card_filter_insert_split (rest.map Prod.fst).toFinset f
        (fun g => (mapFind m g).isNone) (fun g => (mapFind m g).isNone)
        (by
          intro g
          by_cases hg : g = f
          · subst hg; simp [hf]
          · simp [hg])
      refine ⟨m1, ?_, ?_, hasc⟩
      · simp only [flatPairs, hsetLoop, hf, hloop, newFieldCount, List.map_cons,
          List.toFinset_cons]
        rw [hcard]
        simp [hf, newFieldCount]
      · intro g
        rw [hfind g]
        by_cases hg : g = f
        · subst hg
          simp [hf]
        · have hg2 : ¬ f = g := fun h => hg h.symm
          cases mapFind m g <;> simp [firstValue, hg2]

theorem hget_of_object (db : SkipList) (k f : String) (h1 : List (String × RedisValue))
    (hk : searchItem db k = some (.object h1)) :
    RedisHelper.hget db k f
      = match mapFind h1 f with
        | none => "(nil)"
        | some value => value.stringValue := by
  simp only [RedisHelper.hget, hk, RedisValue.type, RedisValue.objectItems, ne_eq,
    not_true_eq_false, if_false]

/-- C16: on a key that is absent (`h` empty) or holds the hash `h`, `hset`
with the arguments `f1 v1 .. fn vn` replies `(integer) c`, `c` the number of
distinct `fi` that are not in `h`; afterwards the key holds a hash in which
every field of `h` has its old value and every `fi` not in `h` has the value
of its first occurrence.  `hget` of a field of `h` replies as before: the
text `t` when the field holds the string `t`; `hget` of a new field replies
the text of its first occurrence, and `(nil)` for a field neither in `h` nor
among the `fi`. -/
theorem hset_inserts_only (db : SkipList) (k : String) (h : List (String × RedisValue))
    (ps : List (String × String))
    (hk : searchItem db k = some (.object h) ∨ (searchItem db k = none ∧ h = [])) :
    ∃ db1 h1,
      RedisHelper.hset db k (flatPairs ps)
        = .returned ("(integer) " ++ to_string (Int.ofNat (newFieldCount h ps))) db1
      ∧ searchItem db1 k = some (.object h1)
      ∧ (∀ f, mapFind h1 f
          = match mapFind h f with
            | some old => some old
            | none => (firstValue ps f).map RedisValue.str)
      ∧ (∀ f old, mapFind h f = some old →
          RedisHelper.hget db1 k f = RedisHelper.hget db k f)
      ∧ (∀ f text, mapFind h f = some (.str text) →
          RedisHelper.hget db k f = text ∧ RedisHelper.hget db1 k f = text)
      ∧ (∀ f text, mapFind h f = none → firstValue ps f = some text →
          RedisHelper.hget db1 k f = text)
      ∧ (∀ f, mapFind h f = none → firstValue ps f = none →
          RedisHelper.hget db1 k f = "(nil)") := by
  obtain ⟨h1, hloop, hfind, _⟩ := hsetLoop_spec ps h 0
  rw [Nat.zero_add] at hloop
  have hafter : ∀ db1, searchItem db1 k = some (.object h1) →
      (∀ f text, mapFind h f = some (.str text) → RedisHelper.hget db1 k f = text)
      ∧ (∀ f text, mapFind h f = none → firstValue ps f = some text →
          RedisHelper.hget db1 k f = text)
      ∧ (∀ f, mapFind h f = none → firstValue ps f = none →
          RedisHelper.hget db1 k f = "(nil)") := by
    intro db1 hk1
    refine ⟨?_, ?_, ?_⟩
    · intro f text hold
      rw [hget_of_object db1 k f h1 hk1, hfind f, hold]
      rfl
    · intro f text hnone hfirst
      rw [hget_of_object db1 k f h1 hk1, hfind f, hnone, hfirst]
      rfl
    · intro f hnone hfirst
      rw [hget_of_object db1 k f h1 hk1, hfind f, hnone, hfirst]
      rfl
  rcases hk with hk | ⟨hk, hnil⟩
  · have hk1 := searchItem_assignValue_self db k (RedisValue.object h1) _ hk
    obtain ⟨ha, hb, hc⟩ := hafter _ hk1
    refine ⟨assignValue db k (.object h1), h1, ?_, hk1, hfind, ?_, ?_, hb, hc⟩
    · simp [RedisHelper.hset, hk, RedisValue.type, RedisValue.objectItems, hloop]
    · intro f old hold
      have h1f : mapFind h1 f = some old := by rw [hfind f, hold]
      rw [hget_of_object _ k f h1 hk1, hget_of_object db k f h hk, h1f, hold]
    · intro f text hold
      refine ⟨?_, ha f text hold⟩
      rw [hget_of_object db k f h hk, hold]
      rfl
  · subst hnil
    have hk1 := searchItem_addItem_self db k (RedisValue.object h1) hk
    obtain ⟨ha, hb, hc⟩ := hafter _ hk1
    refine ⟨addItem db k (.object h1), h1, ?_, hk1, hfind, ?_, ?_, hb, hc⟩
    · simp [RedisHelper.hset, hk, hloop]
    · intro f old hold
      simp [mapFind, searchItem] at hold
    · intro f text hold
      simp [mapFind, searchItem] at hold

theorem hset_inserts_only_witness :
    RedisHelper.hset [("H", .object [("f1", .str "old")])] "H"
        (flatPairs [("f2", "v2"), ("f1", "v1"), ("f2", "zz")])
      = .returned "(integer) 1" [("H", .object [("f1", .str "old"), ("f2", .str "v2")])]
    ∧ RedisHelper.hget [("H", .object [("f1", .str "old"), ("f2", .str "v2")])] "H" "f1"
      = "old"
    ∧ RedisHelper.hget [("H", .object [("f1", .str "old"), ("f2", .str "v2")])] "H" "f2"
      = "v2"
    ∧ RedisHelper.hget [("H", .object [("f1", .str "old"), ("f2", .str "v2")])] "H" "f3"
      = "(nil)"
    ∧ RedisHelper.hget [("H", .object [("f1", .str "old")])] "H" "f1" = "old" := by
  obtain ⟨db1, h1, hrun, _, _, _, hold, hnew, hnone⟩ :=
    hset_inserts_only [("H", .object [("f1", .str "old")])] "H" [("f1", .str "old")]
      [("f2", "v2"), ("f1", "v1"), ("f2", "zz")] (Or.inl rfl)
  have hval : RedisHelper.hset [("H", .object [("f1", .str "old")])] "H"
        (flatPairs [("f2", "v2"), ("f1", "v1"), ("f2", "zz")])
      = .returned "(integer) 1" [("H", .object [("f1", .str "old"), ("f2", .str "v2")])] :=
    rfl
  rw [hval] at hrun
  have hdb : db1 = [("H", .object [("f1", .str "old"), ("f2", .str "v2")])] :=
    (Outcome.returned.inj hrun).2.symm
  subst hdb
  exact ⟨hval, (hold "f1" "old" rfl).2, hnew "f2" "v2" rfl rfl, hnone "f3" rfl rfl,
    (hold "f1" "old" rfl).1⟩

theorem erase_last_newline (s : String) :
    erase (s ++ "\n") (sizeMinusOne (s ++ "\n")) npos = .ok s := by
  have hdata : (s ++ "\n").data = s.data ++ ['\n'] := by simp [String.data_append]
  have hlen : (s ++ "\n").length = s.data.length + 1 := by
    rw [String.length_append]
    rfl
  have hs : sizeMinusOne (s ++ "\n") = s.data.length := by
    unfold sizeMinusOne
    rw [hlen, if_neg (by omega), Nat.add_sub_cancel]
  have hdrop1 : List.drop (s.data.length + npos) (s.data ++ ['\n']) = [] :=
    List.drop_eq_nil_of_le (by simp only [List.length_append, List.length_singleton, npos]; omega)
  have hle : ¬ s.data.length > (s ++ "\n").length := by omega
  rw [hs]
  unfold erase
  rw [if_neg hle, hdata, hdrop1]
  simp

theorem hkeysLoop_rows (l : List (String × RedisValue)) : ∀ i : Nat, l ≠ [] →
    hkeysLoop i l = String.intercalate "\n" (numberedRows i (l.map Prod.fst)) ++ "\n" := by
  induction l with
  | nil => intro i h; exact absurd rfl h
  | cons e rest ih =>
    intro i _
    cases rest with
    | nil => simp [hkeysLoop, numberedRows, intercalate_singleton]
    | cons e2 rest2 =>
      have h := ih (i + 1) (by simp)
      simp only [hkeysLoop, List.map_cons, numberedRows, intercalate_cons_cons] at h ⊢
      rw [h]
      simp [String.append_assoc]

theorem hvalsLoop_rows (l : List (String × RedisValue)) : ∀ i : Nat, l ≠ [] →
    hvalsLoop i l
      = String.intercalate "\n" (numberedRows i (l.map (fun e => e.2.stringValue))) ++ "\n" := by
  induction l with
  | nil => intro i h; exact absurd rfl h
  | cons e rest ih =>
    intro i _
    cases rest with
    | nil => simp [hvalsLoop, numberedRows, intercalate_singleton]
    | cons e2 rest2 =>
      have h := ih (i + 1) (by simp)
      simp only [hvalsLoop, List.map_cons, numberedRows, intercalate_cons_cons] at h ⊢
      rw [h]
      simp [String.append_assoc]

theorem numberedRows_length (l : List String) : ∀ i : Nat, (numberedRows i l).length = l.length := by
  induction l with
  | nil => intro i; rfl
  | cons x xs ih => intro i; simp [numberedRows, ih]

theorem hsetLoop_invariant : ∀ (filed : List String) (m m1 : List (String × RedisValue))
    (count total : Nat), hsetLoop filed m count = some (m1, total) →
    Ascending m → (∀ e ∈ m, ∃ text, e.2 = RedisValue.str text) →
    Ascending m1 ∧ ∀ e ∈ m1, ∃ text, e.2 = RedisValue.str text
  | [], m, m1, count, total, h, hasc, hstr => by
    simp only [hsetLoop, Option.some.injEq, Prod.mk.injEq] at h
    rw [← h.1]
    exact ⟨hasc, hstr⟩
  | [_], m, m1, count, total, h, _, _ => by
    simp [hsetLoop] at h
  | hkey :: hval :: rest, m, m1, count, total, h, hasc, hstr => by
    unfold hsetLoop at h
    cases hfind : mapFind m hkey with
    | some old =>
      rw [hfind] at h
      exact hsetLoop_invariant rest m m1 count total h hasc hstr
    | none =>
      rw [hfind] at h
      have hassign : mapAssign m hkey (.str hval) = addItem m hkey (.str hval) := by
        unfold mapFind at hfind
        simp only [mapAssign, hfind]
      rw [hassign] at h
      refine hsetLoop_invariant rest _ m1 (count + 1) total h
        (addItem_ascending m hkey _ hasc) ?_
      intro e he
      cases addItem_mem m hkey (.str hval) e he with
      | inl hold => exact hstr e hold
      | inr hnew => exact ⟨hval, by rw [hnew]⟩

theorem hdelLoop_invariant (filed : List String) :
    ∀ (m : List (String × RedisValue)) (count : Nat),
    Ascending m → (∀ e ∈ m, ∃ text, e.2 = RedisValue.str text) →
    Ascending (hdelLoop filed m count).1
      ∧ ∀ e ∈ (hdelLoop filed m count).1, ∃ text, e.2 = RedisValue.str text := by
  induction filed with
  | nil => intro m count hasc hstr; exact ⟨hasc, hstr⟩
  | cons hkey rest ih =>
    intro m count hasc hstr
    unfold hdelLoop
    cases mapFind m hkey with
    | none => exact ih m count hasc hstr
    | some old =>
      exact ih (mapErase m hkey) (count + 1) (deleteItem_ascending m hkey hasc)
        (fun e he => hstr e (deleteItem_mem m hkey e he))

theorem builtHash_invariant (h : List (String × RedisValue)) (hbuilt : BuiltHash h) :
    Ascending h ∧ ∀ e ∈ h, ∃ text, e.2 = RedisValue.str text := by
  induction hbuilt with
  | empty => exact ⟨List.Pairwise.nil, fun e he => by cases he⟩
  | hset filed m m1 count total _ hloop ih =>
    exact hsetLoop_invariant filed m m1 count total hloop ih.1 ih.2
  | hdel filed m count _ ih => exact hdelLoop_invariant filed m count ih.1 ih.2

theorem texts_of_strings (h : List (String × RedisValue))
    (hstr : ∀ e ∈ h, ∃ text, e.2 = RedisValue.str text) :
    h.map Prod.snd = (h.map (fun e => e.2.stringValue)).map RedisValue.str := by
  induction h with
  | nil => rfl
  | cons e rest ih =>
    obtain ⟨text, htext⟩ := hstr e (List.mem_cons_self _ _)
    simp only [List.map_cons, List.cons.injEq]
    exact ⟨by rw [htext]; rfl, ih (fun x hx => hstr x (List.mem_cons_of_mem _ hx))⟩

theorem mapFind_head (f : String) (old : RedisValue) (rest : List (String × RedisValue)) :
    mapFind ((f, old) :: rest) f = some old := by
  simp [mapFind, searchItem, keyLess_irrefl]

/-- C17: on a key holding a hash with at least one field that the commands
have built (from the empty map by the loops of `hset` and `hdel`, in whatever
order the fields came), `hkeys` replies one row `i) field` per field,
numbered from 1, joined by newlines with none at the end, and the fields are
in ascending order; the values are strings, and `hvals` replies the rows
`i) text` of their texts in the same order.  After `hset` with further
pairs, in whatever order, the key holds a hash that has the old fields and
the new ones, and `hkeys` lists it in ascending order again.  The hashes that
`hset` creates for an absent key, and those `hset` and `hdel` leave under the
key, are built in this sense. -/
theorem hkeys_lists_in_map_order (db : SkipList) (k : String)
    (h : List (String × RedisValue)) (ps : List (String × String))
    (hk : searchItem db k = some (.object h)) (hne : h ≠ []) (hbuilt : BuiltHash h) :
    RedisHelper.hkeys db k
      = .returned (String.intercalate "\n" (numberedRows 1 (h.map Prod.fst))) db
    ∧ (numberedRows 1 (h.map Prod.fst)).length = h.length
    ∧ (h.map Prod.fst).Pairwise (fun a b => keyLess a b = true)
    ∧ (∃ texts : List String, h.map Prod.snd = texts.map RedisValue.str
        ∧ texts.length = h.length
        ∧ RedisHelper.hvals db k
          = .returned (String.intercalate "\n" (numberedRows 1 texts)) db)
    ∧ (∃ reply db1 h1, RedisHelper.hset db k (flatPairs ps) = .returned reply db1
        ∧ searchItem db1 k = some (.object h1) ∧ BuiltHash h1
        ∧ (∀ f, mapFind h1 f
            = match mapFind h f with
              | some old => some old
              | none => (firstValue ps f).map RedisValue.str)
        ∧ (h1.map Prod.fst).Pairwise (fun a b => keyLess a b = true)
        ∧ RedisHelper.hkeys db1 k
          = .returned (String.intercalate "\n" (numberedRows 1 (h1.map Prod.fst))) db1)
    ∧ (∀ filed : List String, ∃ h2,
        searchItem (RedisHelper.hdel db k filed).2 k = some (.object h2) ∧ BuiltHash h2
        ∧ ∀ e ∈ h2, e ∈ h)
    ∧ (∀ (d : SkipList) (key : String) (qs : List (String × String)),
        searchItem d key = none →
        ∃ reply d1 m1, RedisHelper.hset d key (flatPairs qs) = .returned reply d1
          ∧ searchItem d1 key = some (.object m1) ∧ BuiltHash m1) := by
  obtain ⟨hasc, hstr⟩ := builtHash_invariant h hbuilt
  have hkeysOf : ∀ (d : SkipList) (m : List (String × RedisValue)),
      searchItem d k = some (.object m) → m ≠ [] →
      RedisHelper.hkeys d k
        = .returned (String.intercalate "\n" (numberedRows 1 (m.map Prod.fst))) d := by
    intro d m hd hm
    simp only [RedisHelper.hkeys, hd, RedisValue.type, RedisValue.objectItems, ne_eq,
      not_true_eq_false, if_false, hkeysLoop_rows m 1 hm, erase_last_newline]
  refine ⟨hkeysOf db h hk hne, ?_, List.pairwise_map.mpr hasc, ?_, ?_, ?_, ?_⟩
  · rw [numberedRows_length, List.length_map]
  · refine ⟨h.map (fun e => e.2.stringValue), texts_of_strings h hstr, by simp, ?_⟩
    simp only [RedisHelper.hvals, hk, RedisValue.type, RedisValue.objectItems, ne_eq,
      not_true_eq_false, if_false, hvalsLoop_rows h 1 hne, erase_last_newline]
  · obtain ⟨h1, hloop, hfind, _⟩ := hsetLoop_spec ps h 0
    have hb1 : BuiltHash h1 := BuiltHash.hset (flatPairs ps) h h1 0 _ hbuilt hloop
    have hk1 := searchItem_assignValue_self db k (RedisValue.object h1) _ hk
    have hne1 : h1 ≠ [] := by
      cases h with
      | nil => exact absurd rfl hne
      | cons e rest =>
        obtain ⟨f, old⟩ := e
        intro hnil
        have := hfind f
        rw [mapFind_head, hnil] at this
        simp [mapFind, searchItem] at this
    refine ⟨"(integer) " ++ to_string (Int.ofNat (0 + newFieldCount h ps)),
      assignValue db k (.object h1), h1, ?_, hk1, hb1, hfind,
      List.pairwise_map.mpr (builtHash_invariant h1 hb1).1, hkeysOf _ h1 hk1 hne1⟩
    simp [RedisHelper.hset, hk, RedisValue.type, RedisValue.objectItems, hloop]
  · intro filed
    have hmem : ∀ (fs : List String) (m : List (String × RedisValue)) (count : Nat),
        ∀ e ∈ (hdelLoop fs m count).1, e ∈ m := by
      intro fs
      induction fs with
      | nil => intro m count e he; exact he
      | cons hkey rest ih =>
        intro m count e he
        unfold hdelLoop at he
        cases hfind : mapFind m hkey with
        | none => rw [hfind] at he; exact ih m count e he
        | some old =>
          rw [hfind] at he
          exact deleteItem_mem m hkey e (ih (mapErase m hkey) (count + 1) e he)
    refine ⟨(hdelLoop filed h 0).1, ?_, BuiltHash.hdel filed h 0 hbuilt, hmem filed h 0⟩
    simp only [RedisHelper.hdel, hk, RedisValue.type, RedisValue.objectItems, ne_eq,
      not_true_eq_false, if_false]
    exact searchItem_assignValue_self db k _ _ hk
  · intro d key qs hnone
    obtain ⟨m1, hloop, _, _⟩ := hsetLoop_spec qs [] 0
    refine ⟨"(integer) " ++ to_string (Int.ofNat (0 + newFieldCount [] qs)),
      addItem d key (.object m1), m1, ?_, searchItem_addItem_self d key _ hnone,
      BuiltHash.hset (flatPairs qs) [] m1 0 _ BuiltHash.empty hloop⟩
    simp [RedisHelper.hset, hnone, hloop]

theorem hkeys_lists_in_map_order_witness :
    hsetLoop ["f2", "v2", "f1", "v1"] [] 0
      = some ([("f1", RedisValue.str "v1"), ("f2", RedisValue.str "v2")], 2)
    ∧ RedisHelper.hkeys [("H", .object [("f1", .str "v1"), ("f2", .str "v2")])] "H"
      = .returned "1) f1\n2) f2" [("H", .object [("f1", .str "v1"), ("f2", .str "v2")])]
    ∧ RedisHelper.hvals [("H", .object [("f1", .str "v1"), ("f2", .str "v2")])] "H"
      = .returned "1) v1\n2) v2" [("H", .object [("f1", .str "v1"), ("f2", .str "v2")])]
    ∧ ([("f1", RedisValue.str "v1"), ("f2", RedisValue.str "v2")].map Prod.fst).Pairwise
        (fun a b => keyLess a b = true) := by
  obtain ⟨hkeys, _, hpair, ⟨texts, htexts, _, hvals⟩, _, _, _⟩ :=
    hkeys_lists_in_map_order [("H", .object [("f1", .str "v1"), ("f2", .str "v2")])] "H"
      [("f1", .str "v1"), ("f2", .str "v2")] [("f3", "c"), ("f0", "a")] rfl (by simp)
      (BuiltHash.hset ["f2", "v2", "f1", "v1"] [] _ 0 2 BuiltHash.empty rfl)
  have ht : texts = ["v1", "v2"] := by
    have hinj : Function.Injective RedisValue.str := fun a b hab => RedisValue.str.inj hab
    exact (List.map_injective_iff.mpr hinj
      (show (["v1", "v2"] : List String).map RedisValue.str = texts.map RedisValue.str from
        htexts)).symm
  subst ht
  exact ⟨rfl,
    hkeys.trans (congrArg
      (fun r => Outcome.returned r [("H", .object [("f1", .str "v1"), ("f2", .str "v2")])])
      (by decide)),
    hvals.trans (congrArg
      (fun r => Outcome.returned r [("H", .object [("f1", .str "v1"), ("f2", .str "v2")])])
      (by decide)),
    hpair⟩

/-- C18 fails on an index that `rename` has left with two nodes of one key:
after `set a 1`, `set b 2` and `rename a b` the index holds the key `b`
twice; `del b` removes one node and replies `(integer) 1`, and `b` is still
present afterwards, so `exists b` replies `(integer) 1`. -/
theorem del_leaves_renamed_duplicate :
    RedisHelper.rename
        (RedisHelper.set (RedisHelper.set [] "a" (.str "1") .NONE).2 "b" (.str "2") .NONE).2
        "a" "b"
      = ("OK", [("b", .str "1"), ("b", .str "2")])
    ∧ RedisHelper.del [("b", .str "1"), ("b", .str "2")] ["b"]
      = ("(integer) 1", [("b", .str "2")])
    ∧ RedisHelper.exists_ (RedisHelper.del [("b", .str "1"), ("b", .str "2")] ["b"]).2 ["b"]
      = "(integer) 1"
    ∧ RedisHelper.exists_ (RedisHelper.del [("b", .str "1"), ("b", .str "2")] ["b"]).2 ["b"]
      ≠ "(integer) 0" :=
  ⟨rfl, rfl, by decide, by decide⟩

/-! ## `incrby` on a value that is not a number -/

/-- When the dump of the stored value, without its first and last character,
has a character that is not a digit, `incrby` replies that the value is not
numeric and leaves the database unchanged. -/
theorem incrby_rejects_non_digit (db : SkipList) (k : String) (current : RedisValue)
    (m : Int) (hk : searchItem db k = some current)
    (hbad : ∃ ch ∈ (stripEnds current.dump).data, isdigit ch = false) :
    RedisHelper.incrby db k m
      = .ok ("The value of " ++ k ++ " is not a numeric type", db) := by
  obtain ⟨a, b, mid, hdata⟩ := dump_has_two_ends current
  have hstrip : stripEnds current.dump = String.mk mid := stripEnds_of_two_ends _ a b mid hdata
  have h1 : erase current.dump 0 1 = .ok (String.mk (mid ++ [b])) := by
    simp [erase, hdata]
  have hlen : (String.mk (mid ++ [b])).length = mid.length + 1 := by
    simp [String.length]
  have hs : sizeMinusOne (String.mk (mid ++ [b])) = mid.length := by
    simp [sizeMinusOne, hlen]
  have h2 : erase (String.mk (mid ++ [b])) mid.length npos = .ok (String.mk mid) := by
    simp [erase, hlen, npos]
  have hall : ¬ ((String.mk mid).data.all isdigit = true) := by
    rw [hstrip] at hbad
    obtain ⟨ch, hch, hd⟩ := hbad
    intro hall
    have := List.all_eq_true.mp hall ch hch
    rw [hd] at this
    cases this
  unfold RedisHelper.incrby
  simp only [hk, h1]
  show (do
    let value ← erase (String.mk (mid ++ [b])) (sizeMinusOne (String.mk (mid ++ [b]))) npos
    _) = _
  rw [hs, h2]
  show (if (String.mk mid).data.all isdigit = true then _ else _) = _
  rw [if_neg hall]

/-! ## `strlen`, `rename`, the key order and negative counters -/

/-- C21: on a key holding the string `666`, `strlen` replies `(integer) 5`,
the size of the dumped text `"666"` with its two quotes, not `(integer) 3`;
on an absent key it replies `(integer) 0`. -/
theorem strlen_counts_the_quotes :
    RedisHelper.strlen [("k", .str "666")] "k" = "(integer) 5"
    ∧ RedisHelper.strlen [("k", .str "666")] "k" ≠ "(integer) 3"
    ∧ RedisHelper.strlen [] "k" = "(integer) 0" := by
  decide

/-- C22: after `set a 1` and `set c 3`, `rename a z` replies `OK` and `get z`
replies `"1"`, but the node keeps its place in front of `c`: `get c`, which
replied `"3"`, now replies `key: c does not exist!`. -/
theorem rename_hides_other_key :
    (RedisHelper.set (RedisHelper.set [] "a" (.str "1") .NONE).2 "c" (.str "3") .NONE).2
      = [("a", .str "1"), ("c", .str "3")]
    ∧ searchItem [("a", .str "1"), ("c", .str "3")] "z" = none
    ∧ RedisHelper.rename [("a", .str "1"), ("c", .str "3")] "a" "z"
      = ("OK", [("z", .str "1"), ("c", .str "3")])
    ∧ RedisHelper.get [("z", .str "1"), ("c", .str "3")] "z" = "\"1\""
    ∧ RedisHelper.get [("a", .str "1"), ("c", .str "3")] "c" = "\"3\""
    ∧ RedisHelper.get [("z", .str "1"), ("c", .str "3")] "c" = "key: c does not exist!" :=
  ⟨rfl, rfl, rfl, by decide, by decide, by decide⟩

/-- C27: the commands `set a 1`, `set c 3`, `rename a z` lead from the empty
database to the chain `z, c`, which is not in ascending order; `set a 1`,
`set b 2`, `rename a b` lead to the chain `b, b`, whose keys are not
distinct. -/
theorem rename_breaks_key_order :
    (RedisHelper.rename
        (RedisHelper.set (RedisHelper.set [] "a" (.str "1") .NONE).2 "c" (.str "3") .NONE).2
        "a" "z").2 = [("z", .str "1"), ("c", .str "3")]
    ∧ ¬ Ascending [("z", .str "1"), ("c", .str "3")]
    ∧ (RedisHelper.rename
        (RedisHelper.set (RedisHelper.set [] "a" (.str "1") .NONE).2 "b" (.str "2") .NONE).2
        "a" "b").2 = [("b", .str "1"), ("b", .str "2")]
    ∧ ¬ ([("b", RedisValue.str "1"), ("b", .str "2")].map Prod.fst).Nodup
    ∧ ¬ Ascending [("b", .str "1"), ("b", .str "2")] := by
  refine ⟨rfl, ?_, rfl, by decide, ?_⟩
  · simp only [Ascending]; decide
  · simp only [Ascending]; decide

/-- C30: from a database without `k`, `decr k` replies `(integer) -1` and
stores `-1`; the next `decr k` finds the character `-`, which is not a digit,
and replies that the value is not numeric instead of `(integer) -2`; so does
`incr k` instead of `(integer) 0`. -/
theorem decr_twice_is_rejected :
    RedisHelper.decr [] "k" = .ok ("(integer) -1", [("k", .str "-1")])
    ∧ RedisHelper.decr [("k", .str "-1")] "k"
      = .ok ("The value of k is not a numeric type", [("k", .str "-1")])
    ∧ RedisHelper.incr [("k", .str "-1")] "k"
      = .ok ("The value of k is not a numeric type", [("k", .str "-1")])
    ∧ "The value of k is not a numeric type" ≠ "(integer) -2" :=
  ⟨rfl, rfl, rfl, by decide⟩

/-- C28: on a key holding a value that is not a list, `lpush` and `rpush`
reply `The key:<k> already exists and the value is not a list!`; on a key
holding a value that is not a hash, `hset` replies
`The key:<k> already exists and the value is not a hashtable!`; the database
is the one before. -/
theorem type_mismatch_is_rejected (db db2 : SkipList) (k k2 v : String)
    (filed : List String) (current current2 : RedisValue)
    (hk : searchItem db k = some current) (hnotlist : current.type ≠ .ARRAY)
    (hk2 : searchItem db2 k2 = some current2) (hnothash : current2.type ≠ .OBJECT) :
    RedisHelper.lpush db k v
      = ("The key:" ++ k ++ " already exists and the value is not a list!", db)
    ∧ RedisHelper.rpush db k v
      = ("The key:" ++ k ++ " already exists and the value is not a list!", db)
    ∧ RedisHelper.hset db2 k2 filed
      = .returned ("The key:" ++ k2 ++ " already exists and the value is not a hashtable!")
          db2 := by
  refine ⟨?_, ?_, ?_⟩
  · simp [RedisHelper.lpush, hk, hnotlist, String.append_assoc]
  · simp [RedisHelper.rpush, hk, hnotlist, String.append_assoc]
  · simp [RedisHelper.hset, hk2, hnothash, String.append_assoc]

theorem type_mismatch_is_rejected_witness :
    RedisHelper.lpush [("s", .str "1")] "s" "x"
      = ("The key:" ++ "s" ++ " already exists and the value is not a list!",
          [("s", .str "1")])
    ∧ RedisHelper.rpush [("s", .str "1")] "s" "x"
      = ("The key:" ++ "s" ++ " already exists and the value is not a list!",
          [("s", .str "1")])
    ∧ RedisHelper.hset [("L", .array [.str "x"])] "L" ["f", "v", "g"]
      = .returned ("The key:" ++ "L" ++ " already exists and the value is not a hashtable!")
          [("L", .array [.str "x"])] :=
  type_mismatch_is_rejected [("s", .str "1")] [("L", .array [.str "x"])] "s" "L" "x"
    ["f", "v", "g"] (.str "1") (.array [.str "x"]) rfl (by decide) rfl (by decide)

/-! ## The dump files and `select` -/

theorem foldl_append_start (l : List String) : ∀ acc : String,
    List.foldl (fun r s => r ++ s) acc l = acc ++ List.foldl (fun r s => r ++ s) "" l := by
  induction l with
  | nil => intro acc; simp
  | cons x xs ih =>
    intro acc
    simp only [List.foldl_cons]
    rw [ih (acc ++ x), ih ("" ++ x)]
    simp [String.append_assoc]

theorem join_cons (a : String) (l : List String) :
    String.join (a :: l) = a ++ String.join l := by
  simp only [String.join, List.foldl_cons]
  rw [foldl_append_start]
  simp

theorem flushLoop_eq_join (db : SkipList) : flushLoop db = String.join (dumpLines db) := by
  induction db with
  | nil => rfl
  | cons e rest ih =>
    by_cases hkey : e.1 = ""
    · simp [flushLoop, dumpLines, hkey] at ih ⊢
      exact ih
    · have hfilter : dumpLines (e :: rest)
          = (e.1 ++ ":" ++ e.2.dump ++ "\n") :: dumpLines rest := by
        simp [dumpLines, hkey]
      rw [hfilter, join_cons, ← ih]
      simp [flushLoop, hkey]

/-- C29: when the dump file opens, `flush` makes its content the lines
`key:dump(value)`, each ended by a newline, of the entries whose key is not
empty, in the order of the level-0 chain (ascending key order when the chain
is ascending), with nothing for the head or an empty key; other files, the
index in memory and the database number are untouched. -/
theorem flush_writes_one_line_per_key (env : Settings) (self : RedisHelper.State)
    (hopen : env.opens (RedisHelper.getFilePath env self) = true) :
    (RedisHelper.flush env self).files (RedisHelper.getFilePath env self)
      = some (String.join (dumpLines self.redisDataBase))
    ∧ (∀ path, path ≠ RedisHelper.getFilePath env self →
        (RedisHelper.flush env self).files path = self.files path)
    ∧ (RedisHelper.flush env self).redisDataBase = self.redisDataBase
    ∧ (RedisHelper.flush env self).dataBaseIndex = self.dataBaseIndex
    ∧ (Ascending self.redisDataBase →
        ((self.redisDataBase.filter (fun entry => entry.1 ≠ "")).map Prod.fst).Pairwise
          (fun a b => keyLess a b = true)) := by
  have hhead : flushLoop (headNode :: self.redisDataBase) = flushLoop self.redisDataBase := by
    simp [flushLoop, headNode]
  refine ⟨?_, ?_, ?_, ?_, ?_⟩
  · simp [RedisHelper.flush, hopen, hhead, flushLoop_eq_join]
  · intro path hpath
    simp [RedisHelper.flush, hopen, hpath]
  · simp [RedisHelper.flush, hopen]
  · simp [RedisHelper.flush, hopen]
  · intro hasc
    exact List.pairwise_map.mpr (List.Pairwise.filter _ hasc)

theorem flush_writes_one_line_per_key_witness :
    (RedisHelper.flush scenarioSettings
        { redisDataBase := [("", .str "x"), ("a", .str "1"), ("b", .array [.str "y"])]
          dataBaseIndex := "0"
          files := fun _ => none }).files "redis-data/db0"
      = some "a:\"1\"\nb:[\"y\"]\n"
    ∧ (RedisHelper.flush scenarioSettings
        { redisDataBase := [("", .str "x"), ("a", .str "1"), ("b", .array [.str "y"])]
          dataBaseIndex := "0"
          files := fun _ => none }).redisDataBase
      = [("", .str "x"), ("a", .str "1"), ("b", .array [.str "y"])] :=
  ⟨(flush_writes_one_line_per_key scenarioSettings
      { redisDataBase := [("", .str "x"), ("a", .str "1"), ("b", .array [.str "y"])]
        dataBaseIndex := "0"
        files := fun _ => none } rfl).1.trans (by decide),
    (flush_writes_one_line_per_key scenarioSettings
      { redisDataBase := [("", .str "x"), ("a", .str "1"), ("b", .array [.str "y"])]
        dataBaseIndex := "0"
        files := fun _ => none } rfl).2.2.1⟩

/-- C23: `select` replies `database index out of range.` exactly for an index
below 0 or not below the number of databases, and then returns the helper as
it was: no file written, same database number, same index in memory; for an
index in range it replies `OK` and the database number becomes the index. -/
theorem select_validates_index (env : Settings) (self : RedisHelper.State)
    (index bad good : Int)
    (hbad : bad < 0 ∨ bad ≥ env.DATABASE_FILE_NUMBER)
    (hgood : 0 ≤ good ∧ good < env.DATABASE_FILE_NUMBER) :
    ((RedisHelper.select env self index).1 = "database index out of range."
        ↔ (index < 0 ∨ index ≥ env.DATABASE_FILE_NUMBER))
    ∧ RedisHelper.select env self bad = ("database index out of range.", self)
    ∧ (RedisHelper.select env self good).1 = "OK"
    ∧ (RedisHelper.select env self good).2.dataBaseIndex = to_string good := by
  have hcond : ∀ i : Int, (i < 0 ∨ i > env.DATABASE_FILE_NUMBER - 1)
      ↔ (i < 0 ∨ i ≥ env.DATABASE_FILE_NUMBER) := by
    intro i
    constructor <;> (intro h; omega)
  refine ⟨?_, ?_, ?_, ?_⟩
  · by_cases h : index < 0 ∨ index > env.DATABASE_FILE_NUMBER - 1
    · simp only [RedisHelper.select, if_pos h, true_iff]
      exact (hcond index).mp h
    · simp only [RedisHelper.select, if_neg h]
      constructor
      · intro hreply
        exact absurd hreply (by decide)
      · intro hrange
        exact absurd ((hcond index).mpr hrange) h
  · simp only [RedisHelper.select, if_pos ((hcond bad).mpr hbad)]
  · have h : ¬ (good < 0 ∨ good > env.DATABASE_FILE_NUMBER - 1) := by omega
    simp only [RedisHelper.select, if_neg h]
  · have h : ¬ (good < 0 ∨ good > env.DATABASE_FILE_NUMBER - 1) := by omega
    simp only [RedisHelper.select, if_neg h]

theorem select_validates_index_witness :
    ((RedisHelper.select scenarioSettings
          { redisDataBase := [("a", .str "1")], dataBaseIndex := "0", files := fun _ => none }
          16).1 = "database index out of range."
        ↔ ((16 : Int) < 0 ∨ (16 : Int) ≥ scenarioSettings.DATABASE_FILE_NUMBER))
    ∧ RedisHelper.select scenarioSettings
        { redisDataBase := [("a", .str "1")], dataBaseIndex := "0", files := fun _ => none } 99
      = ("database index out of range.",
          { redisDataBase := [("a", .str "1")], dataBaseIndex := "0", files := fun _ => none })
    ∧ (RedisHelper.select scenarioSettings
        { redisDataBase := [("a", .str "1")], dataBaseIndex := "0", files := fun _ => none }
        1).1 = "OK"
    ∧ (RedisHelper.select scenarioSettings
        { redisDataBase := [("a", .str "1")], dataBaseIndex := "0", files := fun _ => none }
        1).2.dataBaseIndex = to_string 1 :=
  select_validates_index scenarioSettings
    { redisDataBase := [("a", .str "1")], dataBaseIndex := "0", files := fun _ => none }
    16 99 1 (by decide) (by decide)

/-! ## Comparison of values -/

/-- C26: for two values with different variant tags (hence two objects),
`==` is false and `<` is the order of the tags, so exactly one of `a < b` and
`b < a` holds; a value compared with itself is `==` and not `<`. -/
theorem comparison_by_tag (equals less : RedisValue → RedisValue → Bool)
    (tagValue : RedisValue.Type → Int) (a b c : RedisValue)
    (hinj : Function.Injective tagValue) (htag : a.type ≠ b.type) :
    RedisValue.eqOp equals false a b = false
    ∧ (RedisValue.ltOp less tagValue false a b = true ↔ tagValue a.type < tagValue b.type)
    ∧ (RedisValue.ltOp less tagValue false a b = true
        ↔ RedisValue.ltOp less tagValue false b a = false)
    ∧ RedisValue.eqOp equals true c c = true
    ∧ RedisValue.ltOp less tagValue true c c = false := by
  have htag2 : b.type ≠ a.type := fun h => htag h.symm
  have hne : tagValue a.type ≠ tagValue b.type := fun h => htag (hinj h)
  refine ⟨?_, ?_, ?_, ?_, ?_⟩
  · simp [RedisValue.eqOp, htag]
  · simp [RedisValue.ltOp, htag]
  · simp only [RedisValue.ltOp, Bool.false_eq_true, if_false, htag, htag2, ne_eq,
      not_false_eq_true, if_true, decide_eq_true_eq, decide_eq_false_iff_not]
    omega
  · simp [RedisValue.eqOp]
  · simp [RedisValue.ltOp]

theorem comparison_by_tag_witness :
    RedisValue.eqOp (fun _ _ => true) false (.str "a") (.array []) = false
    ∧ (RedisValue.ltOp (fun _ _ => true) declaredOrder false (.str "a") (.array []) = true
        ↔ declaredOrder (RedisValue.str "a").type < declaredOrder (RedisValue.array []).type)
    ∧ (RedisValue.ltOp (fun _ _ => true) declaredOrder false (.str "a") (.array []) = true
        ↔ RedisValue.ltOp (fun _ _ => true) declaredOrder false (.array []) (.str "a") = false)
    ∧ RedisValue.eqOp (fun _ _ => true) true (.object []) (.object []) = true
    ∧ RedisValue.ltOp (fun _ _ => true) declaredOrder true (.object []) (.object []) = false :=
  comparison_by_tag (fun _ _ => true) (fun _ _ => true) declaredOrder (.str "a") (.array [])
    (.object []) (by intro x y h; cases x <;> cases y <;> first | rfl | (exact absurd h (by decide)))
    (by decide)

/-! ## The format of a dumped string -/

theorem char_eq_iff_toNat (a b : Char) : a = b ↔ a.toNat = b.toNat :=
  ⟨fun h => by rw [h], char_eq_of_toNat_eq a b⟩

theorem hexDigit_eq_lowerHexDigit (d : Nat) (h : d < 16) : hexDigit d = lowerHexDigit d := by
  interval_cases d <;> decide

theorem lowerHexDigit_plain (d : Nat) (h : d < 16) :
    48 ≤ (lowerHexDigit d).toNat ∧ (lowerHexDigit d).toNat ≠ 92
      ∧ (lowerHexDigit d).toNat ≠ 34 := by
  interval_cases d <;> decide

theorem dumpChar_eq_specEscape (ch : Char) : dumpChar ch = specEscape ch := by
  have h1 : (ch = '\\') ↔ ch.toNat = 92 := char_eq_iff_toNat ch '\\'
  have h2 : (ch = '"') ↔ ch.toNat = 34 := char_eq_iff_toNat ch '"'
  have h3 : (ch = Char.ofNat 8) ↔ ch.toNat = 8 := char_eq_iff_toNat ch (Char.ofNat 8)
  have h4 : (ch = Char.ofNat 12) ↔ ch.toNat = 12 := char_eq_iff_toNat ch (Char.ofNat 12)
  have h5 : (ch = '\n') ↔ ch.toNat = 10 := char_eq_iff_toNat ch '\n'
  have h6 : (ch = '\r') ↔ ch.toNat = 13 := char_eq_iff_toNat ch '\r'
  have h7 : (ch = '\t') ↔ ch.toNat = 9 := char_eq_iff_toNat ch '\t'
  simp only [dumpChar, specEscape, h1, h2, h3, h4, h5, h6, h7,
    hexDigit_eq_lowerHexDigit _ (Nat.mod_lt _ (by decide : 16 > 0))]

theorem dumpChars_eq_flatMap (cs : List Char) : dumpChars cs = cs.flatMap specEscape := by
  induction cs with
  | nil => rfl
  | cons c rest ih => simp [dumpChars, dumpChar_eq_specEscape, ih]

theorem specEscape_no_control (ch : Char) : ∀ x ∈ specEscape ch, 32 ≤ x.toNat := by
  intro x hx
  have hd := fun d => lowerHexDigit_plain (d % 16) (Nat.mod_lt _ (by decide : 16 > 0))
  unfold specEscape at hx
  split_ifs at hx with h1 h2 h3 h4 h5 h6 h7 h8
  all_goals simp only [List.mem_cons, List.mem_singleton, List.not_mem_nil, or_false] at hx
  · rcases hx with rfl | rfl <;> decide
  · rcases hx with rfl | rfl <;> decide
  · rcases hx with rfl | rfl <;> decide
  · rcases hx with rfl | rfl <;> decide
  · rcases hx with rfl | rfl <;> decide
  · rcases hx with rfl | rfl <;> decide
  · rcases hx with rfl | rfl <;> decide
  · rcases hx with rfl | rfl | rfl | rfl | rfl | rfl
    · decide
    · decide
    · have := (hd (ch.toNat / 4096)).1; omega
    · have := (hd (ch.toNat / 256)).1; omega
    · have := (hd (ch.toNat / 16)).1; omega
    · have := (hd ch.toNat).1; omega
  · subst hx; omega

theorem wellEscaped_skip (x : Char) (tail : List Char) (h1 : x.toNat ≠ 92)
    (h2 : x.toNat ≠ 34) : wellEscaped (x :: tail) = wellEscaped tail := by
  conv_lhs => unfold wellEscaped
  simp only [if_neg h1, if_neg h2]

theorem wellEscaped_pair (x : Char) (tail : List Char) :
    wellEscaped ('\\' :: x :: tail) = wellEscaped tail := by
  conv_lhs => unfold wellEscaped
  simp only [if_pos (by decide : ('\\' : Char).toNat = 92)]

theorem wellEscaped_specEscape_append (ch : Char) (tail : List Char) :
    wellEscaped (specEscape ch ++ tail) = wellEscaped tail := by
  have hd := fun d => lowerHexDigit_plain (d % 16) (Nat.mod_lt _ (by decide : 16 > 0))
  unfold specEscape
  split_ifs with h1 h2 h3 h4 h5 h6 h7 h8
  · exact wellEscaped_pair _ tail
  · exact wellEscaped_pair _ tail
  · exact wellEscaped_pair _ tail
  · exact wellEscaped_pair _ tail
  · exact wellEscaped_pair _ tail
  · exact wellEscaped_pair _ tail
  · exact wellEscaped_pair _ tail
  · show wellEscaped ('\\' :: 'u' :: lowerHexDigit (ch.toNat / 4096 % 16)
      :: lowerHexDigit (ch.toNat / 256 % 16) :: lowerHexDigit (ch.toNat / 16 % 16)
      :: lowerHexDigit (ch.toNat % 16) :: tail) = wellEscaped tail
    rw [wellEscaped_pair,
      wellEscaped_skip _ _ (hd (ch.toNat / 4096)).2.1 (hd (ch.toNat / 4096)).2.2,
      wellEscaped_skip _ _ (hd (ch.toNat / 256)).2.1 (hd (ch.toNat / 256)).2.2,
      wellEscaped_skip _ _ (hd (ch.toNat / 16)).2.1 (hd (ch.toNat / 16)).2.2,
      wellEscaped_skip _ _ (hd ch.toNat).2.1 (hd ch.toNat).2.2]
  · exact wellEscaped_skip ch tail h1 h2

theorem wellEscaped_flatMap (cs : List Char) : wellEscaped (cs.flatMap specEscape) = true := by
  induction cs with
  | nil => rfl
  | cons c rest ih => rw [List.flatMap_cons, wellEscaped_specEscape_append, ih]

/-- C25: the dump of a string is a double quote, the escapes of its
characters in order (two characters for backslash, double quote, `\b`, `\f`,
`\n`, `\r`, `\t`; `\u` and four lowercase hexadecimal digits for the other
characters up to `0x1F`; the character itself otherwise, `0x7F` and above
included) and a closing double quote; between the quotes there is no
character up to `0x1F` and no double quote outside an escape. -/
theorem string_dump_format (s : String) :
    (RedisValue.str s).dump = "\"" ++ String.mk (s.data.flatMap specEscape) ++ "\""
    ∧ (∀ x ∈ s.data.flatMap specEscape, 32 ≤ x.toNat)
    ∧ wellEscaped (s.data.flatMap specEscape) = true
    ∧ (∀ ch : Char, 127 ≤ ch.toNat → specEscape ch = [ch]) := by
  refine ⟨?_, ?_, wellEscaped_flatMap s.data, ?_⟩
  · simp only [RedisValue.dump, dumpString, dumpChars_eq_flatMap]
  · intro x hx
    obtain ⟨c, _, hxc⟩ := List.mem_flatMap.mp hx
    exact specEscape_no_control c x hxc
  · intro ch hch
    unfold specEscape
    split_ifs <;> first | omega | rfl

theorem string_dump_format_witness :
    (RedisValue.str (String.mk ['a', '"', Char.ofNat 1, '\n', Char.ofNat 127])).dump
      = "\"" ++ String.mk
          ((String.mk ['a', '"', Char.ofNat 1, '\n', Char.ofNat 127]).data.flatMap specEscape)
        ++ "\""
    ∧ (RedisValue.str (String.mk ['a', '"', Char.ofNat 1, '\n', Char.ofNat 127])).dump
      = String.mk ['"', 'a', '\\', '"', '\\', 'u', '0', '0', '0', '1', '\\', 'n',
          Char.ofNat 127, '"']
    ∧ specEscape (Char.ofNat 127) = [Char.ofNat 127] :=
  ⟨(string_dump_format (String.mk ['a', '"', Char.ofNat 1, '\n', Char.ofNat 127])).1,
    by decide,
    (string_dump_format "").2.2.2 (Char.ofNat 127) (by decide)⟩

/-! ## Reading back a dumped value -/

theorem consumeGarbage_token (ch : Char) (rest : List Char)
    (h : ¬ (ch = ' ' ∨ ch = '\r' ∨ ch = '\n' ∨ ch = '\t')) :
    consumeGarbage (ch :: rest) = ch :: rest := by
  simp only [consumeGarbage, if_neg h]

theorem consumeGarbage_space (rest : List Char) :
    consumeGarbage (' ' :: rest) = consumeGarbage rest := by
  simp [consumeGarbage]

theorem parseString_quote (last : Option Nat) (out rest : List Char) :
    parseString last out ('"' :: rest) = .ok (String.mk (out ++ flushPending last), rest) := by
  conv_lhs => unfold parseString
  simp

theorem parseString_plain (last : Option Nat) (out rest : List Char) (ch : Char)
    (h1 : ch ≠ '"') (h2 : ¬ ch.toNat ≤ 0x1f) (h3 : ch ≠ '\\') :
    parseString last out (ch :: rest)
      = parseString none (out ++ flushPending last ++ [ch]) rest := by
  conv_lhs => unfold parseString
  simp only [if_neg h1, if_neg h2, if_pos h3]

theorem parseString_escape (last : Option Nat) (out rest : List Char) (e c : Char)
    (he : e ≠ 'u') (hc : unescape e = some c) :
    parseString last out ('\\' :: e :: rest)
      = parseString none (out ++ flushPending last ++ [c]) rest := by
  conv_lhs => unfold parseString
  have h1 : ('\\' : Char) ≠ '"' := by decide
  have h2 : ¬ ('\\' : Char).toNat ≤ 0x1f := by decide
  simp only [if_neg h1, if_neg h2, ne_eq, not_true_eq_false, if_false, if_neg he, hc]

theorem parseString_unicode (last : Option Nat) (out rest : List Char) (a b c d : Char)
    (codepoint : Nat) (h : hex4 a b c d = some codepoint) :
    parseString last out ('\\' :: 'u' :: a :: b :: c :: d :: rest)
      = parseString (joinSurrogate last codepoint).2
          (out ++ (joinSurrogate last codepoint).1) rest := by
  conv_lhs => unfold parseString
  have h1 : ('\\' : Char) ≠ '"' := by decide
  have h2 : ¬ ('\\' : Char).toNat ≤ 0x1f := by decide
  simp only [if_neg h1, if_neg h2, ne_eq, not_true_eq_false, if_false, if_true, h]

theorem hexValue_hexDigit (d : Nat) (h : d < 16) : hexValue (hexDigit d) = some d := by
  interval_cases d <;> decide

theorem hex4_of_control (n : Nat) (h : n ≤ 0x1f) :
    hex4 (hexDigit (n / 4096 % 16)) (hexDigit (n / 256 % 16)) (hexDigit (n / 16 % 16))
      (hexDigit (n % 16)) = some n := by
  have h16 : (16 : Nat) > 0 := by decide
  simp only [hex4, hexValue_hexDigit _ (Nat.mod_lt _ h16)]
  congr 1
  omega

theorem joinSurrogate_of_control (last : Option Nat) (n : Nat) (h : n ≤ 0x1f) :
    joinSurrogate last n = (flushPending last, some n) := by
  cases last with
  | none => rfl
  | some hi =>
    have hno : ¬ (0xD800 ≤ hi ∧ hi ≤ 0xDBFF ∧ 0xDC00 ≤ n ∧ n ≤ 0xDFFF) := by omega
    simp only [joinSurrogate, if_neg hno, flushPending]

theorem flushPending_of_control (ch : Char) (h : ch.toNat ≤ 0x1f) :
    flushPending (some ch.toNat) = [ch] := by
  have hno : ¬ (0xD800 ≤ ch.toNat ∧ ch.toNat ≤ 0xDFFF) := by omega
  simp only [flushPending, encodeUtf8, if_neg hno, Char.ofNat_toNat]

theorem parseString_dumpChars (cs : List Char) :
    ∀ (last : Option Nat) (out tail : List Char),
      parseString last out (dumpChars cs ++ '"' :: tail)
        = .ok (String.mk (out ++ flushPending last ++ cs), tail) := by
  induction cs with
  | nil =>
    intro last out tail
    simp only [dumpChars, List.nil_append, List.append_nil]
    exact parseString_quote last out tail
  | cons c cs ih =>
    intro last out tail
    have hnone : ∀ x : List Char, x ++ [c] ++ flushPending none ++ cs = x ++ c :: cs := by
      intro x; simp [flushPending]
    simp only [dumpChars, List.append_assoc]
    unfold dumpChar
    split_ifs with h1 h2 h3 h4 h5 h6 h7 h8
    · subst h1
      rw [List.cons_append, List.cons_append, List.nil_append,
        parseString_escape last out _ '\\' '\\' (by decide) (by decide), ih, hnone, List.append_assoc]
    · subst h2
      rw [List.cons_append, List.cons_append, List.nil_append,
        parseString_escape last out _ '"' '"' (by decide) (by decide), ih, hnone, List.append_assoc]
    · subst h3
      rw [List.cons_append, List.cons_append, List.nil_append,
        parseString_escape last out _ 'b' (Char.ofNat 8) (by decide) (by decide), ih, hnone, List.append_assoc]
    · subst h4
      rw [List.cons_append, List.cons_append, List.nil_append,
        parseString_escape last out _ 'f' (Char.ofNat 12) (by decide) (by decide), ih, hnone, List.append_assoc]
    · subst h5
      rw [List.cons_append, List.cons_append, List.nil_append,
        parseString_escape last out _ 'n' '\n' (by decide) (by decide), ih, hnone, List.append_assoc]
    · subst h6
      rw [List.cons_append, List.cons_append, List.nil_append,
        parseString_escape last out _ 'r' '\r' (by decide) (by decide), ih, hnone, List.append_assoc]
    · subst h7
      rw [List.cons_append, List.cons_append, List.nil_append,
        parseString_escape last out _ 't' '\t' (by decide) (by decide), ih, hnone, List.append_assoc]
    · simp only [List.cons_append, List.nil_append]
      rw [parseString_unicode last out _ _ _ _ _ c.toNat (hex4_of_control c.toNat h8),
        joinSurrogate_of_control last c.toNat h8, ih, flushPending_of_control c h8]
      simp
    · rw [List.cons_append, List.nil_append,
        parseString_plain last out _ c h2 h8 h1, ih, hnone, List.append_assoc]

theorem parseValue_space (literal : List Char → Parsed RedisValue) (budget : Nat)
    (input : List Char) :
    parseValue literal budget (' ' :: input) = parseValue literal budget input := by
  cases budget with
  | zero => rfl
  | succ b =>
    conv_lhs => unfold parseValue
    conv_rhs => unfold parseValue
    rw [consumeGarbage_space]

theorem quote_is_token : ¬ (('"' : Char) = ' ' ∨ ('"' : Char) = '\r' ∨ ('"' : Char) = '\n'
    ∨ ('"' : Char) = '\t') := by decide

theorem parseValue_str (literal : List Char → Parsed RedisValue) (budget : Nat) (s : String)
    (tail : List Char) :
    parseValue literal (budget + 1) ((RedisValue.str s).dump.data ++ tail)
      = .ok (.str s, tail) := by
  have hdata : (RedisValue.str s).dump.data ++ tail = '"' :: (dumpChars s.data ++ '"' :: tail) := by
    simp [RedisValue.dump, dumpString_data]
  rw [hdata]
  conv_lhs => unfold parseValue
  rw [consumeGarbage_token _ _ quote_is_token]
  simp only [if_true, parseString_dumpChars, flushPending, List.nil_append]

theorem dumpArrayItems_false_cons (value : RedisValue) (rest : List RedisValue) :
    (dumpArrayItems false (value :: rest)).data
      = ',' :: ' ' :: (value.dump.data ++ (dumpArrayItems false rest).data) := by
  simp [dumpArrayItems, String.data_append]

theorem dumpArrayItems_true_cons (value : RedisValue) (rest : List RedisValue) :
    (dumpArrayItems true (value :: rest)).data
      = value.dump.data ++ (dumpArrayItems false rest).data := by
  simp [dumpArrayItems, String.data_append]

theorem dumpArrayItems_length (items : List RedisValue) :
    items.length ≤ (dumpArrayItems false items).data.length := by
  induction items with
  | nil => simp
  | cons value rest ih =>
    rw [dumpArrayItems_false_cons]
    simp only [List.length_cons, List.length_append]
    omega

theorem parseArrayLoop_strings (literal : List Char → Parsed RedisValue) (budget : Nat)
    (items : List RedisValue) :
    (∀ x ∈ items, ∃ s, x = RedisValue.str s) →
    ∀ (s : String) (fuel : Nat) (data : List RedisValue) (tail : List Char),
      items.length < fuel →
      parseArrayLoop (parseValue literal (budget + 1)) fuel data
          ((RedisValue.str s).dump.data ++ ((dumpArrayItems false items).data ++ ']' :: tail))
        = .ok (.array (data ++ RedisValue.str s :: items), tail) := by
  induction items with
  | nil =>
    intro _ s fuel data tail hfuel
    obtain ⟨f, rfl⟩ : ∃ f, fuel = f + 1 := ⟨fuel - 1, by omega⟩
    conv_lhs => unfold parseArrayLoop
    rw [parseValue_str]
    have hd : (dumpArrayItems false []).data = [] := by simp [dumpArrayItems]
    simp only [hd, List.nil_append]
    rw [consumeGarbage_token _ _ (by decide)]
    simp
  | cons x rest ih =>
    intro hall s fuel data tail hfuel
    obtain ⟨f, rfl⟩ : ∃ f, fuel = f + 1 := ⟨fuel - 1, by omega⟩
    obtain ⟨s2, rfl⟩ := hall x (List.mem_cons_self _ _)
    have hrest : ∀ y ∈ rest, ∃ t, y = RedisValue.str t :=
      fun y hy => hall y (List.mem_cons_of_mem _ hy)
    conv_lhs => unfold parseArrayLoop
    rw [parseValue_str, dumpArrayItems_false_cons]
    simp only [List.cons_append]
    rw [consumeGarbage_token _ _ (by decide)]
    have hc1 : ¬ ((',' : Char) = ']') := by decide
    simp only [if_neg hc1, if_true]
    have hstep : ∀ (g : Nat) (d : List RedisValue) (input : List Char),
        parseArrayLoop (parseValue literal (budget + 1)) g d (' ' :: input)
          = parseArrayLoop (parseValue literal (budget + 1)) g d input := by
      intro g d input
      cases g with
      | zero => rfl
      | succ g =>
        conv_lhs => unfold parseArrayLoop
        conv_rhs => unfold parseArrayLoop
        rw [parseValue_space]
    rw [hstep, List.append_assoc, ih hrest s2 f (data ++ [RedisValue.str s]) tail
      (by simp only [List.length_cons] at hfuel; omega)]
    simp

theorem dumpObjectItems_false_cons (k : String) (value : RedisValue)
    (rest : List (String × RedisValue)) :
    (dumpObjectItems false ((k, value) :: rest)).data
      = ',' :: ' ' :: '"' :: (dumpChars k.data ++ '"' :: ':' :: ' '
          :: (value.dump.data ++ (dumpObjectItems false rest).data)) := by
  simp [dumpObjectItems, String.data_append, dumpString_data]

theorem dumpObjectItems_true_cons (k : String) (value : RedisValue)
    (rest : List (String × RedisValue)) :
    (dumpObjectItems true ((k, value) :: rest)).data
      = '"' :: (dumpChars k.data ++ '"' :: ':' :: ' '
          :: (value.dump.data ++ (dumpObjectItems false rest).data)) := by
  simp [dumpObjectItems, String.data_append, dumpString_data]

theorem dumpObjectItems_length (items : List (String × RedisValue)) :
    items.length ≤ (dumpObjectItems false items).data.length := by
  induction items with
  | nil => simp
  | cons e rest ih =>
    obtain ⟨k, value⟩ := e
    rw [dumpObjectItems_false_cons]
    simp only [List.length_cons, List.length_append]
    omega

theorem addItem_after_all (data : List (String × RedisValue)) (k : String) (v : RedisValue)
    (h : ∀ e ∈ data, keyLess e.1 k = true) :
    searchItem data k = none ∧ addItem data k v = data ++ [(k, v)] := by
  induction data with
  | nil => exact ⟨rfl, rfl⟩
  | cons e rest ih =>
    obtain ⟨a, b⟩ := e
    have ha : keyLess a k = true := h (a, b) (List.mem_cons_self _ _)
    have hr := ih (fun e he => h e (List.mem_cons_of_mem _ he))
    simp only [searchItem, addItem, ha, if_true, hr.1, hr.2, List.cons_append, and_self]

theorem mapAssign_after_all (data rest : List (String × RedisValue)) (k : String)
    (v : RedisValue) (h : Ascending (data ++ (k, v) :: rest)) :
    mapAssign data k v = data ++ [(k, v)] := by
  have hall : ∀ e ∈ data, keyLess e.1 k = true := by
    intro e he
    exact (List.pairwise_append.mp h).2.2 e he (k, v) (List.mem_cons_self _ _)
  have := addItem_after_all data k v hall
  simp only [mapAssign, this.1, this.2]

theorem parseObjectLoop_strings (literal : List Char → Parsed RedisValue) (budget : Nat)
    (items : List (String × RedisValue)) :
    (∀ e ∈ items, ∃ s, e.2 = RedisValue.str s) →
    ∀ (k s : String) (fuel : Nat) (data : List (String × RedisValue)) (tail : List Char),
      items.length < fuel →
      Ascending (data ++ (k, RedisValue.str s) :: items) →
      parseObjectLoop (parseValue literal (budget + 1)) fuel data
          ('"' :: (dumpChars k.data ++ '"' :: ':' :: ' '
            :: ((RedisValue.str s).dump.data
              ++ ((dumpObjectItems false items).data ++ '\x7d' :: tail))))
        = .ok (.object (data ++ (k, RedisValue.str s) :: items), tail) := by
  induction items with
  | nil =>
    intro _ k s fuel data tail hfuel hasc
    obtain ⟨f, rfl⟩ : ∃ f, fuel = f + 1 := ⟨fuel - 1, by omega⟩
    conv_lhs => unfold parseObjectLoop
    rw [consumeGarbage_token _ _ quote_is_token]
    simp only [ne_eq, not_true_eq_false, if_false, parseString_dumpChars, flushPending,
      List.nil_append]
    rw [consumeGarbage_token _ _ (by decide)]
    simp only [ne_eq, not_true_eq_false, if_false, parseValue_space, parseValue_str]
    have hd : (dumpObjectItems false []).data = [] := by simp [dumpObjectItems]
    simp only [hd, List.nil_append]
    rw [consumeGarbage_token _ _ (by decide)]
    simp only [if_true, mapAssign_after_all data [] k (RedisValue.str s) hasc]
  | cons e rest ih =>
    intro hall k s fuel data tail hfuel hasc
    obtain ⟨f, rfl⟩ : ∃ f, fuel = f + 1 := ⟨fuel - 1, by omega⟩
    obtain ⟨k2, v2⟩ := e
    obtain ⟨s2, hs2⟩ := hall (k2, v2) (List.mem_cons_self _ _)
    simp only at hs2
    subst hs2
    have hrest : ∀ y ∈ rest, ∃ t, y.2 = RedisValue.str t :=
      fun y hy => hall y (List.mem_cons_of_mem _ hy)
    conv_lhs => unfold parseObjectLoop
    rw [consumeGarbage_token _ _ quote_is_token]
    simp only [ne_eq, not_true_eq_false, if_false, parseString_dumpChars, flushPending,
      List.nil_append]
    rw [consumeGarbage_token _ _ (by decide)]
    simp only [ne_eq, not_true_eq_false, if_false, parseValue_space, parseValue_str]
    rw [dumpObjectItems_false_cons]
    simp only [List.cons_append, List.append_assoc]
    rw [consumeGarbage_token _ _ (by decide)]
    have hc1 : ¬ ((',' : Char) = '\x7d') := by decide
    simp only [if_neg hc1, if_true]
    have hstep : ∀ (g : Nat) (d : List (String × RedisValue)) (input : List Char),
        parseObjectLoop (parseValue literal (budget + 1)) g d (' ' :: input)
          = parseObjectLoop (parseValue literal (budget + 1)) g d input := by
      intro g d input
      cases g with
      | zero => rfl
      | succ g =>
        conv_lhs => unfold parseObjectLoop
        conv_rhs => unfold parseObjectLoop
        rw [consumeGarbage_space]
    rw [hstep, mapAssign_after_all data _ k (RedisValue.str s) hasc,
      ih hrest k2 s2 f (data ++ [(k, RedisValue.str s)]) tail
        (by simp only [List.length_cons] at hfuel; omega)
        (by simpa [List.append_assoc] using hasc)]
    simp

theorem parseValue_core (literal : List Char → Parsed RedisValue) (budget : Nat)
    (v : RedisValue) (hv : CoreValue v) (tail : List Char) :
    parseValue literal (budget + 2) (v.dump.data ++ tail) = .ok (v, tail) := by
  cases v with
  | null => exact absurd hv (by simp [CoreValue])
  | str s => exact parseValue_str literal (budget + 1) s tail
  | array items =>
    simp only [CoreValue] at hv
    have hdata : (RedisValue.array items).dump.data ++ tail
        = '[' :: ((dumpArrayItems true items).data ++ ']' :: tail) := by
      simp [RedisValue.dump, String.data_append]
    rw [hdata]
    conv_lhs => unfold parseValue
    rw [consumeGarbage_token _ _ (by decide)]
    have h1 : ¬ (('[' : Char) = '"') := by decide
    simp only [if_neg h1, if_true]
    cases items with
    | nil =>
      have hd : (dumpArrayItems true []).data = [] := by simp [dumpArrayItems]
      simp only [hd, List.nil_append]
      rw [consumeGarbage_token _ _ (by decide)]
      simp
    | cons x rest =>
      obtain ⟨s, rfl⟩ := hv x (List.mem_cons_self _ _)
      have hrest : ∀ y ∈ rest, ∃ t, y = RedisValue.str t :=
        fun y hy => hv y (List.mem_cons_of_mem _ hy)
      have hs : (RedisValue.str s).dump.data = '"' :: (dumpChars s.data ++ ['"']) := by
        simp [RedisValue.dump, dumpString_data]
      have hlen := dumpArrayItems_length rest
      have hfuel : rest.length
          < ((RedisValue.str s).dump.data
              ++ ((dumpArrayItems false rest).data ++ ']' :: tail)).length := by
        simp only [List.length_append, List.length_cons]
        omega
      rw [dumpArrayItems_true_cons, List.append_assoc,
        parseArrayLoop_strings literal budget rest hrest s _ [] tail hfuel]
      rw [hs, List.cons_append, consumeGarbage_token _ _ quote_is_token]
      have h2 : ¬ (('"' : Char) = ']') := by decide
      simp only [if_neg h2, List.nil_append]
  | object items =>
    simp only [CoreValue] at hv
    obtain ⟨hall, hasc⟩ := hv
    have hdata : (RedisValue.object items).dump.data ++ tail
        = '\x7b' :: ((dumpObjectItems true items).data ++ '\x7d' :: tail) := by
      simp [RedisValue.dump, String.data_append]
    rw [hdata]
    conv_lhs => unfold parseValue
    rw [consumeGarbage_token _ _ (by decide)]
    have h1 : ¬ (('\x7b' : Char) = '"') := by decide
    have h2 : ¬ (('\x7b' : Char) = '[') := by decide
    simp only [if_neg h1, if_neg h2, if_true]
    cases items with
    | nil =>
      have hd : (dumpObjectItems true []).data = [] := by simp [dumpObjectItems]
      simp only [hd, List.nil_append]
      rw [consumeGarbage_token _ _ (by decide)]
      simp
    | cons e rest =>
      obtain ⟨k, x⟩ := e
      obtain ⟨s, hs⟩ := hall (k, x) (List.mem_cons_self _ _)
      simp only at hs
      subst hs
      have hrest : ∀ y ∈ rest, ∃ t, y.2 = RedisValue.str t :=
        fun y hy => hall y (List.mem_cons_of_mem _ hy)
      have hlen := dumpObjectItems_length rest
      rw [dumpObjectItems_true_cons]
      simp only [List.cons_append, List.append_assoc]
      rw [parseObjectLoop_strings literal budget rest hrest k s _ [] tail
        (by simp only [List.length_append, List.length_cons]; omega)
        (by simpa using hasc)]
      rw [consumeGarbage_token _ _ quote_is_token]
      have h3 : ¬ (('"' : Char) = '\x7d') := by decide
      simp only [if_neg h3, List.nil_append]

/-- C24: for a string, a list of strings and a hash of strings, whatever the
parser does with the other words of the notation, `parseRedisValue(0)` reads
the dump of the value up to its end and gives the value back, and
`RedisValue::parse` called with an empty `err` returns the value and leaves
`err` empty; the value returned is equal to the original under `operator==`
for every `equals` that holds on equal contents. -/
theorem dump_parse_round_trip (literal : List Char → Parsed RedisValue) (v : RedisValue)
    (hv : CoreValue v) (equals : RedisValue → RedisValue → Bool)
    (hequals : ∀ x, equals x x = true) :
    parseRedisValue literal 0 v.dump.data = .ok (v, [])
    ∧ RedisValue.parse literal v.dump "" = (v, "")
    ∧ RedisValue.eqOp equals false (RedisValue.parse literal v.dump "").1 v = true := by
  have hparse : parseRedisValue literal 0 v.dump.data = .ok (v, []) := by
    have := parseValue_core literal 199 v hv []
    rw [List.append_nil] at this
    exact this
  have hwhole : RedisValue.parse literal v.dump "" = (v, "") := by
    simp only [RedisValue.parse, hparse, consumeGarbage]
  refine ⟨hparse, hwhole, ?_⟩
  rw [hwhole]
  simp only [RedisValue.eqOp, hequals]
  simp

theorem dump_parse_round_trip_witness :
    (RedisValue.object [("a", RedisValue.str "x\ny"), ("b", RedisValue.str "2")]).dump
      = "\x7b\"a\": \"x\\ny\", \"b\": \"2\"\x7d"
    ∧ RedisValue.parse noLiteral
        (RedisValue.object [("a", RedisValue.str "x\ny"), ("b", RedisValue.str "2")]).dump ""
      = (RedisValue.object [("a", RedisValue.str "x\ny"), ("b", RedisValue.str "2")], "")
    ∧ RedisValue.parse noLiteral
        (RedisValue.array [RedisValue.str "a", RedisValue.str "b\"c"]).dump ""
      = (RedisValue.array [RedisValue.str "a", RedisValue.str "b\"c"], "")
    ∧ RedisValue.parse noLiteral "[\"a\", \"b\\\"c\"]  " ""
      = (RedisValue.array [RedisValue.str "a", RedisValue.str "b\"c"], "")
    ∧ (RedisValue.parse noLiteral "[\"a\", \"b\"] x" "").2 = "unexpected trailing \x27x\x27 (120)" :=
  ⟨by decide,
    (dump_parse_round_trip noLiteral
      (RedisValue.object [("a", RedisValue.str "x\ny"), ("b", RedisValue.str "2")])
      ⟨by simp, by simp only [Ascending]; decide⟩
      (fun a b => a.dump == b.dump) (fun x => beq_self_eq_true _)).2.1,
    (dump_parse_round_trip noLiteral
      (RedisValue.array [RedisValue.str "a", RedisValue.str "b\"c"])
      (by simp [CoreValue])
      (fun a b => a.dump == b.dump) (fun x => beq_self_eq_true _)).2.1,
    rfl, by decide⟩

/-! ## Emptied hashes and lists -/

/-- C31: `hset h f v` on the empty database and then `hdel h f` leave the key
`h` with an empty hash; on it `hkeys h` and `hvals h` erase position
`size() - 1` of an empty text and raise `std::out_of_range`. -/
theorem hkeys_on_emptied_hash_throws :
    RedisHelper.hset [] "h" ["f", "v"]
      = .returned "(integer) 1" [("h", .object [("f", .str "v")])]
    ∧ RedisHelper.hdel [("h", .object [("f", .str "v")])] "h" ["f"]
      = ("(integer) 1", [("h", .object [])])
    ∧ RedisHelper.hkeys [("h", .object [])] "h"
      = .thrown (.out_of_range
          "basic_string::erase: __pos (which is 18446744073709551615) > this->size() (which is 0)")
          [("h", .object [])]
    ∧ RedisHelper.hvals [("h", .object [])] "h"
      = .thrown (.out_of_range
          "basic_string::erase: __pos (which is 18446744073709551615) > this->size() (which is 0)")
          [("h", .object [])]
    ∧ (RedisHelper.hkeys [("h", .object [])] "h").reply? = none
    ∧ (RedisHelper.hvals [("h", .object [])] "h").reply? = none :=
  ⟨rfl, rfl, rfl, rfl, rfl, rfl⟩

/-- C32: `rpush L x` on the empty database and then `rpop L` leave the key
`L` with an empty list; on it `lpop L` reads `*valueList.begin()` and
`rpop L` reads `valueList.back()` of a vector of size 0. -/
theorem pop_reads_emptied_list :
    RedisHelper.rpush [] "L" "x" = ("(integer) 1", [("L", .array [.str "x"])])
    ∧ RedisHelper.rpop [("L", .array [.str "x"])] "L" = .returned "x" [("L", .array [])]
    ∧ searchItem [("L", .array [])] "L" = some (.array [])
    ∧ RedisHelper.lpop [("L", .array [])] "L" = .undefined
    ∧ RedisHelper.rpop [("L", .array [])] "L" = .undefined
    ∧ RedisHelper.lpush [] "L" "x" = ("(integer) 1", [("L", .array [.str "x"])])
    ∧ RedisHelper.lpop [("L", .array [.str "x"])] "L" = .returned "x" [("L", .array [])] :=
  ⟨rfl, rfl, rfl, rfl, rfl, rfl, rfl⟩

/-! ## The indices `lrange` reads -/

theorem sizeMinusOneAsInt_eq (size : Nat) (h : size < 2 ^ 31) :
    sizeMinusOneAsInt size = (size : Int) - 1 := by
  unfold sizeMinusOneAsInt wrapInt
  have h64 : (2 : Nat) ^ 64 = 18446744073709551616 := by norm_num
  have h31 : (2 : Nat) ^ 31 = 2147483648 := by norm_num
  have hi32 : (2 : Int) ^ 32 = 4294967296 := by norm_num
  have hi31 : (2 : Int) ^ 31 = 2147483648 := by norm_num
  rw [h31] at h
  rw [h64, hi32, hi31]
  simp only [Int.ofNat_eq_coe]
  omega

theorem lrangeIndices_between (fuel : Nat) : ∀ (i right : Int),
    ∀ j ∈ lrangeIndices fuel i right, i ≤ j ∧ j ≤ right := by
  induction fuel with
  | zero => intro i right j hj; simp [lrangeIndices] at hj
  | succ fuel ih =>
    intro i right j hj
    unfold lrangeIndices at hj
    split_ifs at hj with hle
    · cases List.mem_cons.mp hj with
      | inl h => subst h; exact ⟨le_refl _, hle⟩
      | inr h =>
        have := ih (i + 1) right j h
        exact ⟨by omega, this.2⟩
    · simp at hj

theorem lrangeIndices_complete (extra : Nat) : ∀ (fuel : Nat) (i right : Int),
    (right - i + 1).toNat ≤ fuel →
    lrangeIndices (fuel + extra) i right = lrangeIndices fuel i right := by
  intro fuel
  induction fuel with
  | zero =>
    intro i right h
    have hlt : ¬ i ≤ right := by omega
    cases extra with
    | zero => rfl
    | succ extra => simp [lrangeIndices, hlt]
  | succ fuel ih =>
    intro i right h
    have hsucc : fuel + 1 + extra = (fuel + extra) + 1 := by omega
    rw [hsucc]
    unfold lrangeIndices
    by_cases hle : i ≤ right
    · rw [if_pos hle, if_pos hle, ih (i + 1) right (by omega)]
    · rw [if_neg hle, if_neg hle]

theorem vectorAt_defined_iff (es : List RedisValue) (j : Int) :
    (vectorAt es j).isSome = true ↔ 0 ≤ j ∧ j < (es.length : Int) := by
  unfold vectorAt
  by_cases hneg : j < 0
  · rw [if_pos hneg]
    constructor
    · intro h; cases h
    · intro h; omega
  · rw [if_neg hneg]
    cases hget : es.get? j.toNat with
    | none =>
      have := List.get?_eq_none.mp hget
      constructor
      · intro h; cases h
      · intro h; omega
    | some v =>
      have hlt : j.toNat < es.length := by
        by_contra hge
        rw [List.get?_eq_none.mpr (by omega)] at hget
        cases hget
      constructor
      · intro _; omega
      · intro _; rfl

theorem lrangeLoop_defined_iff (es : List RedisValue) (right : Int) :
    ∀ (fuel : Nat) (i : Int),
      (lrangeLoop es right fuel i).isSome = true
        ↔ ∀ j : Nat, j < fuel → (vectorAt es (i + (j : Int))).isSome = true := by
  intro fuel
  induction fuel with
  | zero =>
    intro i
    constructor
    · intro _ j hj; omega
    · intro _; rfl
  | succ fuel ih =>
    intro i
    have hnext : ∀ j : Nat, i + 1 + (j : Int) = i + ((j + 1 : Nat) : Int) := by
      intro j; push_cast; omega
    unfold lrangeLoop
    cases hv : vectorAt es i with
    | none =>
      constructor
      · intro h; cases h
      · intro h
        have := h 0 (by omega)
        simp only [Nat.cast_zero, add_zero, hv] at this
        cases this
    | some item =>
      cases hl : lrangeLoop es right fuel (i + 1) with
      | none =>
        constructor
        · intro h; cases h
        · intro h
          have hrest : ∀ j : Nat, j < fuel → (vectorAt es (i + 1 + (j : Int))).isSome = true := by
            intro j hj
            rw [hnext]
            exact h (j + 1) (by omega)
          have := (ih (i + 1)).mpr hrest
          rw [hl] at this
          cases this
      | some rest =>
        constructor
        · intro _ j hj
          cases j with
          | zero => simp only [Nat.cast_zero, add_zero, hv]; rfl
          | succ j =>
            have hsome : (lrangeLoop es right fuel (i + 1)).isSome = true := by rw [hl]; rfl
            have := (ih (i + 1)).mp hsome j (by omega)
            rw [hnext] at this
            exact this
        · intro _; rfl

theorem lrangeIndices_eq_range (fuel : Nat) : ∀ (i right : Int),
    i + (fuel : Int) ≤ right + 1 →
    lrangeIndices fuel i right = (List.range fuel).map (fun j : Nat => i + (j : Int)) := by
  induction fuel with
  | zero => intro i right _; rfl
  | succ fuel ih =>
    intro i right h
    have hle : i ≤ right := by push_cast at h; omega
    unfold lrangeIndices
    rw [if_pos hle, ih (i + 1) right (by push_cast at h ⊢; omega), List.range_succ_eq_map]
    simp only [List.map_cons, List.map_map, Nat.cast_zero, add_zero, List.cons.injEq, true_and]
    apply List.map_congr_left
    intro j _
    simp only [Function.comp, Nat.cast_succ]
    omega

/-- C33: on a key holding a list of `n < 2^31` elements, for all `int`
values of `start` and `end`: `int(size() - 1)` is `n - 1` (`-1` for the empty
list); the read `valueList[i]` is defined exactly for `0 <= i < n`, and the
loop of `lrange` is defined exactly when each of its reads is; the indices of
the `for` loop from `left = max(start, 0)` to `right = min(end, n - 1)` are
the reads of that loop, every one of them has `0 <= i < n` and `i + 1` fits
an `int`, and more turns add none; so `lrange` returns a reply and leaves the
database as it is; on the empty list no index is read and the reply is
`(empty list or set)`. -/
theorem lrange_reads_in_bounds (db : SkipList) (k start stop : String)
    (es : List RedisValue) (s e : Int) (hk : searchItem db k = some (.array es))
    (hs : stoi start = .ok s) (he : stoi stop = .ok e) (hsize : es.length < 2 ^ 31) :
    sizeMinusOneAsInt es.length = (es.length : Int) - 1
    ∧ (∀ j : Int, (vectorAt es j).isSome = true ↔ 0 ≤ j ∧ j < (es.length : Int))
    ∧ (∀ (fuel : Nat) (i r : Int),
        (lrangeLoop es r fuel i).isSome = true
          ↔ ∀ j : Nat, j < fuel → (vectorAt es (i + (j : Int))).isSome = true)
    ∧ lrangeIndices (min e ((es.length : Int) - 1) - max s 0 + 1).toNat (max s 0)
          (min e ((es.length : Int) - 1))
        = (List.range (min e ((es.length : Int) - 1) - max s 0 + 1).toNat).map
            (fun j : Nat => max s 0 + (j : Int))
    ∧ (∀ fuel : Nat, ∀ i ∈ lrangeIndices fuel (max s 0) (min e ((es.length : Int) - 1)),
        0 ≤ i ∧ i < (es.length : Int) ∧ i + 1 < 2 ^ 31 ∧ (vectorAt es i).isSome = true)
    ∧ (∀ extra : Nat,
        lrangeIndices ((min e ((es.length : Int) - 1) - max s 0 + 1).toNat + extra)
            (max s 0) (min e ((es.length : Int) - 1))
          = lrangeIndices (min e ((es.length : Int) - 1) - max s 0 + 1).toNat
            (max s 0) (min e ((es.length : Int) - 1)))
    ∧ (lrangeLoop es (min e ((es.length : Int) - 1))
          (min e ((es.length : Int) - 1) - max s 0 + 1).toNat (max s 0)).isSome = true
    ∧ (∃ reply, RedisHelper.lrange db k start stop = .returned reply db)
    ∧ (es = [] →
        (∀ fuel : Nat, lrangeIndices fuel (max s 0) (min e ((es.length : Int) - 1)) = [])
        ∧ RedisHelper.lrange db k start stop = .returned "(empty list or set)" db) := by
  have hmin : min e ((es.length : Int) - 1) ≤ (es.length : Int) - 1 := min_le_right _ _
  have h0 : (0 : Int) ≤ max s 0 := le_max_right _ _
  have h31 : ((2 : Nat) ^ 31 : Nat) = 2147483648 := by norm_num
  have hi31 : (2 : Int) ^ 31 = 2147483648 := by norm_num
  have hbound : ∀ fuel : Nat,
      ∀ i ∈ lrangeIndices fuel (max s 0) (min e ((es.length : Int) - 1)),
      0 ≤ i ∧ i < (es.length : Int) := by
    intro fuel i hi
    have := lrangeIndices_between fuel _ _ i hi
    omega
  have hloop : (lrangeLoop es (min e ((es.length : Int) - 1))
      (min e ((es.length : Int) - 1) - max s 0 + 1).toNat (max s 0)).isSome = true := by
    rw [lrangeLoop_defined_iff]
    intro j hj
    rw [vectorAt_defined_iff]
    omega
  have hrun : ∃ reply, RedisHelper.lrange db k start stop = .returned reply db := by
    simp only [RedisHelper.lrange, hk, RedisValue.type, RedisValue.arrayItems, hs, he, ne_eq,
      not_true_eq_false, if_false, Int.ofNat_eq_coe]
    cases hl : lrangeLoop es (min e ((es.length : Int) - 1))
        (min e ((es.length : Int) - 1) - max s 0 + 1).toNat (max s 0) with
    | none => rw [hl] at hloop; cases hloop
    | some rows => exact ⟨_, rfl⟩
  refine ⟨sizeMinusOneAsInt_eq es.length hsize, vectorAt_defined_iff es,
    fun fuel i r => lrangeLoop_defined_iff es r fuel i, ?_, ?_, ?_, hloop, hrun, ?_⟩
  · by_cases hempty : min e ((es.length : Int) - 1) < max s 0
    · have hfuel : (min e ((es.length : Int) - 1) - max s 0 + 1).toNat = 0 := by omega
      rw [hfuel]
      rfl
    · apply lrangeIndices_eq_range
      omega
  · intro fuel i hi
    have hb := hbound fuel i hi
    rw [h31] at hsize
    rw [hi31]
    exact ⟨hb.1, hb.2, by omega, (vectorAt_defined_iff es i).mpr hb⟩
  · intro extra
    exact lrangeIndices_complete extra _ _ _ (le_refl _)
  · intro hnil
    subst hnil
    have hright : min e (((([] : List RedisValue).length : Nat) : Int) - 1) < max s 0 := by
      simp only [List.length_nil, Nat.cast_zero] at hmin ⊢
      omega
    constructor
    · intro fuel
      cases fuel with
      | zero => rfl
      | succ fuel =>
        unfold lrangeIndices
        rw [if_neg (by omega)]
    · simp only [RedisHelper.lrange, hk, RedisValue.type, RedisValue.arrayItems, hs, he, ne_eq,
        not_true_eq_false, if_false, Int.ofNat_eq_coe]
      have hfuel : (min e (((([] : List RedisValue).length : Nat) : Int) - 1)
          - max s 0 + 1).toNat = 0 := by omega
      rw [hfuel]
      simp [hright, lrangeLoop]

theorem lrange_reads_in_bounds_witness :
    sizeMinusOneAsInt ([] : List RedisValue).length = -1
    ∧ RedisHelper.lrange [("L", .array [])] "L" "-5" "2147483647"
      = .returned "(empty list or set)" [("L", .array [])]
    ∧ (RedisHelper.lrange [("L", .array [.str "x", .str "y"])] "L" "-5" "2147483647").reply?
      = some "1) \"x\"\n2) \"y\""
    ∧ lrangeIndices 7 (max (-5 : Int) 0)
        (min 2147483647 ((([RedisValue.str "x", RedisValue.str "y"].length : Nat) : Int) - 1))
      = [0, 1]
    ∧ vectorAt [RedisValue.str "x", RedisValue.str "y"] (-1) = none
    ∧ vectorAt [RedisValue.str "x", RedisValue.str "y"] 2 = none
    ∧ (∀ fuel : Nat, ∀ i ∈ lrangeIndices fuel (max (-5 : Int) 0)
        (min 2147483647 ((([RedisValue.str "x", RedisValue.str "y"].length : Nat) : Int) - 1)),
        0 ≤ i ∧ i < (([RedisValue.str "x", RedisValue.str "y"].length : Nat) : Int)
          ∧ i + 1 < 2 ^ 31
          ∧ (vectorAt [RedisValue.str "x", RedisValue.str "y"] i).isSome = true) :=
  ⟨by decide,
    ((lrange_reads_in_bounds [("L", .array [])] "L" "-5" "2147483647" [] (-5) 2147483647
      rfl rfl rfl (by decide)).2.2.2.2.2.2.2.2 rfl).2,
    by decide, by decide, rfl, rfl,
    (lrange_reads_in_bounds [("L", .array [.str "x", .str "y"])] "L" "-5" "2147483647"
      [.str "x", .str "y"] (-5) 2147483647 rfl rfl rfl (by decide)).2.2.2.2.1⟩

/-! ## The transaction queue holds only lines that were queued -/

theorem handleClient_keeps_queueable {σ : Type} (f : ParserFlyweightFactory σ)
    (self self1 : RedisServer) (helper helper1 : σ) (line reply : String)
    (hstep : handleClient f self helper line = some (reply, self1, helper1))
    (hinv : ∀ l ∈ self.commandsQueue, Queueable f l) :
    ∀ l ∈ self1.commandsQueue, Queueable f l := by
  unfold handleClient at hstep
  by_cases hlen : line.length > 0
  · rw [if_pos hlen] at hstep
    cases htok : tokenize line with
    | nil =>
      rw [htok] at hstep
      cases hstep
      exact hinv
    | cons c rest =>
      rw [htok] at hstep
      simp only at hstep
      split_ifs at hstep with h1 h2 h3 h4 h5 h6 h7 h8
      · cases hstep; exact hinv
      · cases hstep; exact hinv
      · cases hstep; intro l hl; cases hl
      · cases hstep; exact hinv
      · obtain ⟨replies, helper2, _, _, hexec⟩ :=
          executeTransaction_sequential f self.commandsQueue [] helper hinv
        rw [hexec] at hstep
        cases hstep
        intro l hl
        cases hl
      · cases hstep; exact hinv
      · cases hstep; exact hinv
      · cases hp : f.getParser c with
        | none => rw [hp] at hstep; cases hstep; exact hinv
        | some p => rw [hp] at hstep; cases hstep; exact hinv
      · cases hp : f.getParser c with
        | none => rw [hp] at hstep; cases hstep; exact hinv
        | some p =>
          rw [hp] at hstep
          cases hstep
          intro l hl
          cases List.mem_append.mp hl with
          | inl h => exact hinv l h
          | inr h =>
            rw [List.mem_singleton] at h
            subst h
            exact ⟨c, rest, p, htok, h1, h2, h4, h7, hp⟩
  · rw [if_neg hlen] at hstep
    cases hstep
    exact hinv

theorem reachable_queueable {σ : Type} (f : ParserFlyweightFactory σ)
    (self : RedisServer) (helper : σ) (h : Reachable f self helper) :
    ∀ l ∈ self.commandsQueue, Queueable f l := by
  induction h with
  | initial helper => intro l hl; cases hl
  | step line _ hstep ih => exact handleClient_keeps_queueable f _ _ _ _ _ _ hstep ih

theorem handleClient_defined {σ : Type} (f : ParserFlyweightFactory σ)
    (self : RedisServer) (helper : σ) (line : String)
    (hinv : ∀ l ∈ self.commandsQueue, Queueable f l) :
    ∃ r, handleClient f self helper line = some r := by
  obtain ⟨replies, helper2, _, _, hexec⟩ :=
    executeTransaction_sequential f self.commandsQueue [] helper hinv
  unfold handleClient
  by_cases hlen : line.length > 0
  · rw [if_pos hlen]
    cases htok : tokenize line with
    | nil => exact ⟨_, rfl⟩
    | cons c rest =>
      simp only [hexec]
      split_ifs
      all_goals first
        | exact ⟨_, rfl⟩
        | (cases f.getParser c <;> exact ⟨_, rfl⟩)
  · rw [if_neg hlen]
    exact ⟨_, rfl⟩

/-- C34: in every session reachable from the initial one, every line of the
transaction queue has a first token, the token is none of `multi`, `exec`,
`discard`, `quit`, `exit`, and the registry, a function of the name, has a
parser for it.  Hence, on whatever helper state, `executeTransaction` on the
queue has a defined result (no `front()` of an empty vector, no call through
a null parser), empties the queue and replies one row per line, the rows
being the replies the lines get when dispatched outside a transaction; and
`handleClient` has a defined result on every line. -/
theorem queue_lines_were_queued {σ : Type} (f : ParserFlyweightFactory σ)
    (self : RedisServer) (helper : σ) (h : Reachable f self helper) :
    (∀ l ∈ self.commandsQueue, ∃ c rest p, tokenize l = c :: rest
      ∧ c ≠ "multi" ∧ c ≠ "exec" ∧ c ≠ "discard" ∧ c ≠ "quit" ∧ c ≠ "exit"
      ∧ f.getParser c = some p)
    ∧ (∀ helper0 : σ, ∃ replies helper1, replies.length = self.commandsQueue.length
        ∧ (∀ s0 : RedisServer, s0.startMulti = false →
            handleClients f s0 helper0 self.commandsQueue = some (replies, s0, helper1))
        ∧ executeTransaction f self.commandsQueue [] helper0
          = some (joinResponses replies.length 0 replies, [], helper1))
    ∧ (∀ line : String, ∃ r, handleClient f self helper line = some r) := by
  have hq := reachable_queueable f self helper h
  refine ⟨?_, ?_, ?_⟩
  · intro l hl
    obtain ⟨c, rest, p, htok, h1, h2, h3, h4, hp⟩ := hq l hl
    exact ⟨c, rest, p, htok, h2, h3, h4, fun hc => h1 (Or.inl hc), fun hc => h1 (Or.inr hc), hp⟩
  · intro helper0
    obtain ⟨replies, helper1, hlen, hseq, hexec⟩ :=
      executeTransaction_sequential f self.commandsQueue [] helper0 hq
    rw [List.nil_append] at hexec
    exact ⟨replies, helper1, hlen, hseq, hexec⟩
  · intro line
    exact handleClient_defined f self helper line hq

theorem queue_lines_were_queued_witness :
    (∀ l ∈ ["set a 1", "get a"], ∃ c rest p, tokenize l = c :: rest
      ∧ c ≠ "multi" ∧ c ≠ "exec" ∧ c ≠ "discard" ∧ c ≠ "quit" ∧ c ≠ "exit"
      ∧ (catalogue "?").getParser c = some p)
    ∧ (∀ helper0 : SkipList, ∃ replies helper1, replies.length = ["set a 1", "get a"].length
        ∧ (∀ s0 : RedisServer, s0.startMulti = false →
            handleClients (catalogue "?") s0 helper0 ["set a 1", "get a"]
              = some (replies, s0, helper1))
        ∧ executeTransaction (catalogue "?") ["set a 1", "get a"] [] helper0
          = some (joinResponses replies.length 0 replies, [], helper1))
    ∧ (∀ line : String, ∃ r,
        handleClient (catalogue "?")
          { startMulti := true, fallback := true, commandsQueue := ["set a 1", "get a"] }
          [] line = some r) :=
  queue_lines_were_queued (catalogue "?")
    { startMulti := true, fallback := true, commandsQueue := ["set a 1", "get a"] } []
    (Reachable.step "get a"
      (Reachable.step "bogus"
        (Reachable.step "set a 1"
          (Reachable.step "multi" (Reachable.initial []) rfl) rfl) rfl) rfl)

/-! ## The footprint of the single-key commands -/

theorem touch_frame (db db1 : SkipList) (k other : String) (hne : other ≠ k)
    (h : db1 = db ∨ (∃ v, db1 = addItem db k v) ∨ ∃ v, db1 = assignValue db k v) :
    searchItem db1 other = searchItem db other := by
  rcases h with rfl | ⟨v, rfl⟩ | ⟨v, rfl⟩
  · rfl
  · exact searchItem_addItem_other db k other v hne
  · exact searchItem_assignValue_other db k other v hne

theorem erase_ends_ok (current : RedisValue) :
    ∃ mid b, erase current.dump 0 1 = .ok (String.mk (mid ++ [b]))
      ∧ sizeMinusOne (String.mk (mid ++ [b])) = mid.length
      ∧ erase (String.mk (mid ++ [b])) mid.length npos = .ok (String.mk mid) := by
  obtain ⟨a, b, mid, hdata⟩ := dump_has_two_ends current
  have hlen : (String.mk (mid ++ [b])).length = mid.length + 1 := by
    simp [String.length]
  exact ⟨mid, b, by simp [erase, hdata], by simp [sizeMinusOne, hlen],
    by simp [erase, hlen, npos]⟩

theorem incrby_touches (db db1 : SkipList) (k r : String) (m : Int)
    (h : RedisHelper.incrby db k m = .ok (r, db1)) :
    db1 = db ∨ (∃ v, db1 = addItem db k v) ∨ ∃ v, db1 = assignValue db k v := by
  unfold RedisHelper.incrby at h
  cases hk : searchItem db k with
  | none =>
    rw [hk] at h
    simp only [Except.ok.injEq, Prod.mk.injEq] at h
    exact Or.inr (Or.inl ⟨_, h.2.symm⟩)
  | some current =>
    rw [hk] at h
    obtain ⟨mid, b, h1, hs, h2⟩ := erase_ends_ok current
    simp only [h1] at h
    change (do
      let value ← erase (String.mk (mid ++ [b])) (sizeMinusOne (String.mk (mid ++ [b]))) npos
      _) = _ at h
    rw [hs, h2] at h
    change (if (String.mk mid).data.all isdigit = true then _ else _) = _ at h
    split_ifs at h with hall
    · cases hst : stoi (String.mk mid) with
      | error e =>
        rw [hst] at h
        cases h
      | ok parsed =>
        rw [hst] at h
        change Except.ok _ = _ at h
        simp only [Except.ok.injEq, Prod.mk.injEq] at h
        exact Or.inr (Or.inr ⟨_, h.2.symm⟩)
    · simp only [Except.ok.injEq, Prod.mk.injEq] at h
      exact Or.inl h.2.symm

theorem incrbyfloat_touches (incrementText : String) (addTo : String → Except Exception String)
    (db db1 : SkipList) (k r : String)
    (h : RedisHelper.incrbyfloat incrementText addTo db k = .ok (r, db1)) :
    db1 = db ∨ (∃ v, db1 = addItem db k v) ∨ ∃ v, db1 = assignValue db k v := by
  unfold RedisHelper.incrbyfloat at h
  cases hk : searchItem db k with
  | none =>
    rw [hk] at h
    simp only [Except.ok.injEq, Prod.mk.injEq] at h
    exact Or.inr (Or.inl ⟨_, h.2.symm⟩)
  | some current =>
    rw [hk] at h
    obtain ⟨mid, b, h1, hs, h2⟩ := erase_ends_ok current
    simp only [h1] at h
    change (do
      let value ← erase (String.mk (mid ++ [b])) (sizeMinusOne (String.mk (mid ++ [b]))) npos
      _) = _ at h
    rw [hs, h2] at h
    change (match addTo (String.mk mid) with
      | .error (.invalid_argument _) => _
      | .error e => _
      | .ok text => _) = _ at h
    cases hadd : addTo (String.mk mid) with
    | error e =>
      rw [hadd] at h
      cases e with
      | invalid_argument msg =>
        simp only [Except.ok.injEq, Prod.mk.injEq] at h
        exact Or.inl h.2.symm
      | out_of_range msg => cases h
    | ok text =>
      rw [hadd] at h
      simp only [Except.ok.injEq, Prod.mk.injEq] at h
      exact Or.inr (Or.inr ⟨_, h.2.symm⟩)

theorem lpop_touches (db db1 : SkipList) (k : String)
    (h : (RedisHelper.lpop db k).db? = some db1) :
    db1 = db ∨ (∃ v, db1 = addItem db k v) ∨ ∃ v, db1 = assignValue db k v := by
  unfold RedisHelper.lpop at h
  cases hk : searchItem db k with
  | none =>
    rw [hk] at h
    simp only [Outcome.db?, Option.some.injEq] at h
    exact Or.inl h.symm
  | some current =>
    rw [hk] at h
    simp only at h
    split_ifs at h with hty
    · simp only [Outcome.db?, Option.some.injEq] at h
      exact Or.inl h.symm
    · cases hitems : current.arrayItems with
      | nil => rw [hitems] at h; cases h
      | cons first rest =>
        rw [hitems] at h
        simp only [eraseEnds_dump, Outcome.db?, Option.some.injEq] at h
        exact Or.inr (Or.inr ⟨_, h.symm⟩)

theorem rpop_touches (db db1 : SkipList) (k : String)
    (h : (RedisHelper.rpop db k).db? = some db1) :
    db1 = db ∨ (∃ v, db1 = addItem db k v) ∨ ∃ v, db1 = assignValue db k v := by
  unfold RedisHelper.rpop at h
  cases hk : searchItem db k with
  | none =>
    rw [hk] at h
    simp only [Outcome.db?, Option.some.injEq] at h
    exact Or.inl h.symm
  | some current =>
    rw [hk] at h
    simp only at h
    split_ifs at h with hty
    · simp only [Outcome.db?, Option.some.injEq] at h
      exact Or.inl h.symm
    · cases hitems : current.arrayItems.getLast? with
      | none => rw [hitems] at h; cases h
      | some last =>
        rw [hitems] at h
        simp only [eraseEnds_dump, Outcome.db?, Option.some.injEq] at h
        exact Or.inr (Or.inr ⟨_, h.symm⟩)

theorem hset_touches (db db1 : SkipList) (k : String) (filed : List String)
    (h : (RedisHelper.hset db k filed).db? = some db1) :
    db1 = db ∨ (∃ v, db1 = addItem db k v) ∨ ∃ v, db1 = assignValue db k v := by
  unfold RedisHelper.hset at h
  cases hk : searchItem db k with
  | none =>
    rw [hk] at h
    simp only at h
    cases hloop : hsetLoop filed [] 0 with
    | none => rw [hloop] at h; cases h
    | some result =>
      rw [hloop] at h
      simp only [Outcome.db?, Option.some.injEq] at h
      exact Or.inr (Or.inl ⟨_, h.symm⟩)
  | some current =>
    rw [hk] at h
    simp only at h
    split_ifs at h with hty
    · simp only [Outcome.db?, Option.some.injEq] at h
      exact Or.inl h.symm
    · cases hloop : hsetLoop filed current.objectItems 0 with
      | none => rw [hloop] at h; cases h
      | some result =>
        rw [hloop] at h
        simp only [Outcome.db?, Option.some.injEq] at h
        exact Or.inr (Or.inr ⟨_, h.symm⟩)

theorem readers_keep_db (db db1 : SkipList) (k start stop : String) :
    ((RedisHelper.lrange db k start stop).db? = some db1 → db1 = db)
    ∧ ((RedisHelper.hkeys db k).db? = some db1 → db1 = db)
    ∧ ((RedisHelper.hvals db k).db? = some db1 → db1 = db) := by
  refine ⟨?_, ?_, ?_⟩
  · intro h
    unfold RedisHelper.lrange at h
    cases hk : searchItem db k with
    | none =>
      rw [hk] at h
      simp only [Outcome.db?, Option.some.injEq] at h
      exact h.symm
    | some current =>
      rw [hk] at h
      simp only at h
      split_ifs at h with hty
      · simp only [Outcome.db?, Option.some.injEq] at h
        exact h.symm
      · cases hs : stoi start with
        | error e =>
          rw [hs] at h
          simp only [Outcome.db?, Option.some.injEq] at h
          exact h.symm
        | ok left0 =>
          rw [hs] at h
          simp only at h
          cases he : stoi stop with
          | error e =>
            rw [he] at h
            simp only [Outcome.db?, Option.some.injEq] at h
            exact h.symm
          | ok right0 =>
            rw [he] at h
            simp only at h
            split at h
            · cases h
            · simp only [Outcome.db?, Option.some.injEq] at h
              exact h.symm
  · intro h
    unfold RedisHelper.hkeys at h
    cases hk : searchItem db k with
    | none =>
      rw [hk] at h
      simp only [Outcome.db?, Option.some.injEq] at h
      exact h.symm
    | some current =>
      rw [hk] at h
      simp only at h
      split_ifs at h with hty
      · simp only [Outcome.db?, Option.some.injEq] at h
        exact h.symm
      · split at h <;>
        · simp only [Outcome.db?, Option.some.injEq] at h
          exact h.symm
  · intro h
    unfold RedisHelper.hvals at h
    cases hk : searchItem db k with
    | none =>
      rw [hk] at h
      simp only [Outcome.db?, Option.some.injEq] at h
      exact h.symm
    | some current =>
      rw [hk] at h
      simp only at h
      split_ifs at h with hty
      · simp only [Outcome.db?, Option.some.injEq] at h
        exact h.symm
      · split at h <;>
        · simp only [Outcome.db?, Option.some.injEq] at h
          exact h.symm

/-- Where the calls are defined the footprint is one key: for every database,
ordered or not, and every key `other` different from `k`, the search for
`other` gives the same result
before and after `set`, `setnx`, `setex`, `append`, `lpush`, `rpush`, `hdel`
on `k`, after `incrby` and `incrbyfloat` on `k` when they return, and after
`lpop`, `rpop`, `hset` on `k` whenever the call returns or throws; `lrange`,
`hkeys` and `hvals` leave the database they were given.  `lpop` and `rpop` on
a list that is not empty and `hset` with complete field-value pairs do return
or throw. -/
theorem single_key_footprint (db : SkipList) (k other : String) (hne : other ≠ k)
    (v : RedisValue) (model : SET_MODEL) (m : Int) (incrementText : String)
    (addTo : String → Except Exception String) (value : String) (filed : List String)
    (start stop : String) :
    searchItem (RedisHelper.set db k v model).2 other = searchItem db other
    ∧ searchItem (RedisHelper.setnx db k v).2 other = searchItem db other
    ∧ searchItem (RedisHelper.setex db k v).2 other = searchItem db other
    ∧ (∀ r db1, RedisHelper.incrby db k m = .ok (r, db1) →
        searchItem db1 other = searchItem db other)
    ∧ (∀ r db1, RedisHelper.incrbyfloat incrementText addTo db k = .ok (r, db1) →
        searchItem db1 other = searchItem db other)
    ∧ searchItem (RedisHelper.append db k value).2 other = searchItem db other
    ∧ searchItem (RedisHelper.lpush db k value).2 other = searchItem db other
    ∧ searchItem (RedisHelper.rpush db k value).2 other = searchItem db other
    ∧ (∀ db1, (RedisHelper.lpop db k).db? = some db1 →
        searchItem db1 other = searchItem db other)
    ∧ (∀ db1, (RedisHelper.rpop db k).db? = some db1 →
        searchItem db1 other = searchItem db other)
    ∧ (∀ db1, (RedisHelper.hset db k filed).db? = some db1 →
        searchItem db1 other = searchItem db other)
    ∧ searchItem (RedisHelper.hdel db k filed).2 other = searchItem db other
    ∧ (∀ db1, (RedisHelper.lrange db k start stop).db? = some db1 → db1 = db)
    ∧ (∀ db1, (RedisHelper.hkeys db k).db? = some db1 → db1 = db)
    ∧ (∀ db1, (RedisHelper.hvals db k).db? = some db1 → db1 = db)
    ∧ (∀ e1 tl, searchItem db k = some (.array (e1 :: tl)) →
        (RedisHelper.lpop db k).db? ≠ none)
    ∧ (∀ init en, searchItem db k = some (.array (init ++ [en])) →
        (RedisHelper.rpop db k).db? ≠ none)
    ∧ (∀ ps : List (String × String), (RedisHelper.hset db k (flatPairs ps)).db? ≠ none) := by
  have hsetnx : searchItem (RedisHelper.setnx db k v).2 other = searchItem db other := by
    unfold RedisHelper.setnx
    cases searchItem db k with
    | none => exact searchItem_addItem_other db k other v hne
    | some w => rfl
  have hsetex : searchItem (RedisHelper.setex db k v).2 other = searchItem db other := by
    unfold RedisHelper.setex
    cases searchItem db k with
    | none => rfl
    | some w => exact searchItem_assignValue_other db k other v hne
  refine ⟨?_, hsetnx, hsetex, ?_, ?_, ?_, ?_, ?_, ?_, ?_, ?_, ?_, ?_, ?_, ?_, ?_, ?_, ?_⟩
  · unfold RedisHelper.set
    split_ifs
    · exact hsetex
    · exact hsetnx
    · cases searchItem db k with
      | none => exact hsetnx
      | some w => exact hsetex
  · intro r db1 h
    exact touch_frame db db1 k other hne (incrby_touches db db1 k r m h)
  · intro r db1 h
    exact touch_frame db db1 k other hne (incrbyfloat_touches incrementText addTo db db1 k r h)
  · unfold RedisHelper.append
    cases searchItem db k with
    | none => exact searchItem_addItem_other db k other _ hne
    | some w => exact searchItem_assignValue_other db k other _ hne
  · unfold RedisHelper.lpush
    cases searchItem db k with
    | none => exact searchItem_addItem_other db k other _ hne
    | some w =>
      simp only
      split_ifs
      · rfl
      · exact searchItem_assignValue_other db k other _ hne
  · unfold RedisHelper.rpush
    cases searchItem db k with
    | none => exact searchItem_addItem_other db k other _ hne
    | some w =>
      simp only
      split_ifs
      · rfl
      · exact searchItem_assignValue_other db k other _ hne
  · intro db1 h
    exact touch_frame db db1 k other hne (lpop_touches db db1 k h)
  · intro db1 h
    exact touch_frame db db1 k other hne (rpop_touches db db1 k h)
  · intro db1 h
    exact touch_frame db db1 k other hne (hset_touches db db1 k filed h)
  · unfold RedisHelper.hdel
    cases searchItem db k with
    | none => rfl
    | some w =>
      simp only
      split_ifs
      · rfl
      · exact searchItem_assignValue_other db k other _ hne
  · exact fun db1 => (readers_keep_db db db1 k start stop).1
  · exact fun db1 => (readers_keep_db db db1 k start stop).2.1
  · exact fun db1 => (readers_keep_db db db1 k start stop).2.2
  · intro e1 tl hk
    rw [lpop_front db k e1 tl hk]
    simp [Outcome.db?]
  · intro init en hk
    rw [rpop_back db k en init hk]
    simp [Outcome.db?]
  · intro ps
    unfold RedisHelper.hset
    cases searchItem db k with
    | none =>
      obtain ⟨m1, hloop, _⟩ := hsetLoop_spec ps [] 0
      simp [hloop, Outcome.db?]
    | some w =>
      simp only
      split_ifs
      · simp [Outcome.db?]
      · obtain ⟨m1, hloop, _⟩ := hsetLoop_spec ps w.objectItems 0
        simp [hloop, Outcome.db?]

theorem single_key_footprint_witness :
    searchItem (RedisHelper.set [("a", .str "1"), ("b", .array [.str "x"])] "b" (.str "2")
        .NONE).2 "a" = some (.str "1")
    ∧ (∀ db1, (RedisHelper.lpop [("a", .str "1"), ("b", .array [.str "x"])] "b").db? = some db1 →
        searchItem db1 "a" = some (.str "1"))
    ∧ (RedisHelper.lpop [("a", .str "1"), ("b", .array [.str "x"])] "b").db?
      = some [("a", .str "1"), ("b", .array [])]
    ∧ searchItem (RedisHelper.hdel [("a", .str "1"), ("h", .object [("f", .str "v")])] "h"
        ["f"]).2 "a" = some (.str "1") :=
  ⟨(single_key_footprint [("a", .str "1"), ("b", .array [.str "x"])] "b" "a" (by decide)
      (.str "2") .NONE 1 "1.000000" (fun _ => .ok "2.000000") "x" [] "0" "1").1,
    (single_key_footprint [("a", .str "1"), ("b", .array [.str "x"])] "b" "a" (by decide)
      (.str "2") .NONE 1 "1.000000" (fun _ => .ok "2.000000") "x" [] "0"
      "1").2.2.2.2.2.2.2.2.1,
    rfl,
    (single_key_footprint [("a", .str "1"), ("h", .object [("f", .str "v")])] "h" "a"
      (by decide) (.str "2") .NONE 1 "1.000000" (fun _ => .ok "2.000000") "x" ["f"] "0"
      "1").2.2.2.2.2.2.2.2.2.2.2.1⟩

/-- C35: `rpush L x`, `set b 1`, `rpop L` lead from the empty database to
the ordered database holding the empty list under `L` and a string under `b`.
There `lpop L` and `rpop L` read an element of a vector of size 0, and
`hset h f` reads `filed[1]` of a vector of size 1: the calls have no defined
behaviour, so no state of the other key `b` after them is defined. -/
theorem undefined_call_has_no_footprint :
    Ascending [("L", .array []), ("b", .str "1")]
    ∧ (RedisHelper.rpop
        (RedisHelper.set (RedisHelper.rpush [] "L" "x").2 "b" (.str "1") .NONE).2 "L").db?
      = some [("L", .array []), ("b", .str "1")]
    ∧ RedisHelper.lpop [("L", .array []), ("b", .str "1")] "L" = .undefined
    ∧ RedisHelper.rpop [("L", .array []), ("b", .str "1")] "L" = .undefined
    ∧ RedisHelper.hset [("L", .array []), ("b", .str "1")] "h" ["f"] = .undefined
    ∧ (RedisHelper.lpop [("L", .array []), ("b", .str "1")] "L").db? = none
    ∧ ¬ ∃ db1, (RedisHelper.lpop [("L", .array []), ("b", .str "1")] "L").db? = some db1
        ∧ searchItem db1 "b" = searchItem [("L", .array []), ("b", .str "1")] "b" := by
  refine ⟨?_, rfl, rfl, rfl, rfl, rfl, ?_⟩
  · simp only [Ascending]; decide
  · rintro ⟨db1, h, _⟩
    cases h

/-! ## The dumped text determines the value -/

theorem dumpChars_decode (x y s t : List Char)
    (h : dumpChars x ++ '"' :: s = dumpChars y ++ '"' :: t) : x = y ∧ s = t := by
  have hx := parseString_dumpChars x none [] s
  have hy := parseString_dumpChars y none [] t
  rw [h, hy] at hx
  simp only [flushPending, List.nil_append, Except.ok.injEq, Prod.mk.injEq] at hx
  exact ⟨congrArg String.data hx.1.symm, hx.2.symm⟩

theorem dump_data_str (x : String) :
    (RedisValue.str x).dump.data = '"' :: (dumpChars x.data ++ ['"']) := by
  simp [RedisValue.dump, dumpString_data]

theorem dump_data_array (xs : List RedisValue) :
    (RedisValue.array xs).dump.data = '[' :: ((dumpArrayItems true xs).data ++ [']']) := by
  simp [RedisValue.dump, String.data_append]

theorem dump_data_object (es : List (String × RedisValue)) :
    (RedisValue.object es).dump.data
      = '\x7b' :: ((dumpObjectItems true es).data ++ ['\x7d']) := by
  simp [RedisValue.dump, String.data_append]

theorem dump_data_null : RedisValue.null.dump.data = ['n', 'u', 'l', 'l'] := by
  decide

theorem dump_head (v : RedisValue) :
    ∃ c rest, v.dump.data = c :: rest ∧ c ≠ ']' ∧ c ≠ ',' := by
  cases v with
  | null => exact ⟨'n', _, dump_data_null, by decide, by decide⟩
  | str x => exact ⟨'"', _, dump_data_str x, by decide, by decide⟩
  | array xs => exact ⟨'[', _, dump_data_array xs, by decide, by decide⟩
  | object es => exact ⟨'\x7b', _, dump_data_object es, by decide, by decide⟩

theorem dumpArrayItems_nil_data (first : Bool) : (dumpArrayItems first []).data = [] := by
  cases first <;> simp [dumpArrayItems]

theorem dumpObjectItems_nil_data (first : Bool) : (dumpObjectItems first []).data = [] := by
  cases first <;> simp [dumpObjectItems]

theorem dumpArrayItems_cons_head (first : Bool) (y : RedisValue) (ys : List RedisValue) :
    ∃ c rest, (dumpArrayItems first (y :: ys)).data = c :: rest ∧ c ≠ ']' := by
  cases first with
  | false => exact ⟨',', _, dumpArrayItems_false_cons y ys, by decide⟩
  | true =>
    obtain ⟨c, rest, hd, hc, _⟩ := dump_head y
    exact ⟨c, rest ++ (dumpArrayItems false ys).data, by
      rw [dumpArrayItems_true_cons, hd, List.cons_append], hc⟩

theorem dumpObjectItems_cons_head (first : Bool) (e : String × RedisValue)
    (es : List (String × RedisValue)) :
    ∃ c rest, (dumpObjectItems first (e :: es)).data = c :: rest ∧ c ≠ '\x7d' := by
  obtain ⟨k, v⟩ := e
  cases first with
  | false => exact ⟨',', _, dumpObjectItems_false_cons k v es, by decide⟩
  | true => exact ⟨'"', _, dumpObjectItems_true_cons k v es, by decide⟩

mutual
theorem dump_decode : ∀ (a b : RedisValue) (s t : List Char),
    a.dump.data ++ s = b.dump.data ++ t → a = b ∧ s = t
  | .null, b, s, t, h => by
    rw [dump_data_null] at h
    cases b with
    | null =>
      rw [dump_data_null] at h
      exact ⟨rfl, by simpa using h⟩
    | str y =>
      rw [dump_data_str] at h
      exact absurd (List.cons.inj h).1 (by decide)
    | array ys =>
      rw [dump_data_array] at h
      exact absurd (List.cons.inj h).1 (by decide)
    | object fs =>
      rw [dump_data_object] at h
      exact absurd (List.cons.inj h).1 (by decide)
  | .str x, b, s, t, h => by
    rw [dump_data_str] at h
    cases b with
    | null =>
      rw [dump_data_null] at h
      exact absurd (List.cons.inj h).1 (by decide)
    | str y =>
      rw [dump_data_str] at h
      simp only [List.cons_append, List.append_assoc, List.nil_append, List.cons.injEq,
        true_and] at h
      obtain ⟨hxy, hst⟩ := dumpChars_decode _ _ _ _ h
      exact ⟨by rw [String.ext hxy], hst⟩
    | array ys =>
      rw [dump_data_array] at h
      exact absurd (List.cons.inj h).1 (by decide)
    | object fs =>
      rw [dump_data_object] at h
      exact absurd (List.cons.inj h).1 (by decide)
  | .array xs, b, s, t, h => by
    rw [dump_data_array] at h
    cases b with
    | null =>
      rw [dump_data_null] at h
      exact absurd (List.cons.inj h).1 (by decide)
    | str y =>
      rw [dump_data_str] at h
      exact absurd (List.cons.inj h).1 (by decide)
    | array ys =>
      rw [dump_data_array] at h
      simp only [List.cons_append, List.append_assoc, List.nil_append, List.cons.injEq,
        true_and] at h
      obtain ⟨hxy, hst⟩ := dumpArrayItems_decode xs true ys s t h
      exact ⟨by rw [hxy], hst⟩
    | object fs =>
      rw [dump_data_object] at h
      exact absurd (List.cons.inj h).1 (by decide)
  | .object es, b, s, t, h => by
    rw [dump_data_object] at h
    cases b with
    | null =>
      rw [dump_data_null] at h
      exact absurd (List.cons.inj h).1 (by decide)
    | str y =>
      rw [dump_data_str] at h
      exact absurd (List.cons.inj h).1 (by decide)
    | array ys =>
      rw [dump_data_array] at h
      exact absurd (List.cons.inj h).1 (by decide)
    | object fs =>
      rw [dump_data_object] at h
      simp only [List.cons_append, List.append_assoc, List.nil_append, List.cons.injEq,
        true_and] at h
      obtain ⟨hxy, hst⟩ := dumpObjectItems_decode es true fs s t h
      exact ⟨by rw [hxy], hst⟩
theorem dumpArrayItems_decode : ∀ (xs : List RedisValue) (first : Bool)
    (ys : List RedisValue) (s t : List Char),
    (dumpArrayItems first xs).data ++ ']' :: s = (dumpArrayItems first ys).data ++ ']' :: t →
    xs = ys ∧ s = t
  | [], first, ys, s, t, h => by
    rw [dumpArrayItems_nil_data, List.nil_append] at h
    cases ys with
    | nil =>
      rw [dumpArrayItems_nil_data, List.nil_append] at h
      exact ⟨rfl, (List.cons.inj h).2⟩
    | cons y ys =>
      obtain ⟨c, rest, hd, hc⟩ := dumpArrayItems_cons_head first y ys
      rw [hd, List.cons_append] at h
      exact absurd (List.cons.inj h).1.symm hc
  | x :: xs, first, ys, s, t, h => by
    cases ys with
    | nil =>
      obtain ⟨c, rest, hd, hc⟩ := dumpArrayItems_cons_head first x xs
      rw [hd, dumpArrayItems_nil_data, List.nil_append, List.cons_append] at h
      exact absurd (List.cons.inj h).1 hc
    | cons y ys =>
      have key : x.dump.data ++ ((dumpArrayItems false xs).data ++ ']' :: s)
          = y.dump.data ++ ((dumpArrayItems false ys).data ++ ']' :: t) := by
        cases first with
        | false =>
          rw [dumpArrayItems_false_cons, dumpArrayItems_false_cons] at h
          simpa using h
        | true =>
          rw [dumpArrayItems_true_cons, dumpArrayItems_true_cons] at h
          simpa using h
      obtain ⟨hxy, hrest⟩ := dump_decode x y _ _ key
      obtain ⟨hxs, hst⟩ := dumpArrayItems_decode xs false ys s t hrest
      exact ⟨by rw [hxy, hxs], hst⟩
theorem dumpObjectItems_decode : ∀ (es : List (String × RedisValue)) (first : Bool)
    (fs : List (String × RedisValue)) (s t : List Char),
    (dumpObjectItems first es).data ++ '\x7d' :: s
      = (dumpObjectItems first fs).data ++ '\x7d' :: t →
    es = fs ∧ s = t
  | [], first, fs, s, t, h => by
    rw [dumpObjectItems_nil_data, List.nil_append] at h
    cases fs with
    | nil =>
      rw [dumpObjectItems_nil_data, List.nil_append] at h
      exact ⟨rfl, (List.cons.inj h).2⟩
    | cons f fs =>
      obtain ⟨c, rest, hd, hc⟩ := dumpObjectItems_cons_head first f fs
      rw [hd, List.cons_append] at h
      exact absurd (List.cons.inj h).1.symm hc
  | (k, v) :: es, first, fs, s, t, h => by
    cases fs with
    | nil =>
      obtain ⟨c, rest, hd, hc⟩ := dumpObjectItems_cons_head first (k, v) es
      rw [hd, dumpObjectItems_nil_data, List.nil_append, List.cons_append] at h
      exact absurd (List.cons.inj h).1 hc
    | cons f fs =>
      obtain ⟨k2, v2⟩ := f
      have key : dumpChars k.data ++ '"' :: (':' :: ' '
            :: (v.dump.data ++ ((dumpObjectItems false es).data ++ '\x7d' :: s)))
          = dumpChars k2.data ++ '"' :: (':' :: ' '
            :: (v2.dump.data ++ ((dumpObjectItems false fs).data ++ '\x7d' :: t))) := by
        cases first with
        | false =>
          rw [dumpObjectItems_false_cons, dumpObjectItems_false_cons] at h
          simpa using h
        | true =>
          rw [dumpObjectItems_true_cons, dumpObjectItems_true_cons] at h
          simpa using h
      obtain ⟨hk, hrest⟩ := dumpChars_decode _ _ _ _ key
      simp only [List.cons.injEq, true_and] at hrest
      obtain ⟨hv, hrest2⟩ := dump_decode v v2 _ _ hrest
      obtain ⟨hes, hst⟩ := dumpObjectItems_decode es false fs s t hrest2
      exact ⟨by rw [String.ext hk, hv, hes], hst⟩
end

/-- C36: two values with the same dumped text are the same value, whatever
their nesting of strings, lists and hashes (the null value included); in
particular two different strings have different dumps. -/
theorem dump_is_injective (a b : RedisValue) :
    (a.dump = b.dump ↔ a = b)
    ∧ (∀ x y : String, x ≠ y → (RedisValue.str x).dump ≠ (RedisValue.str y).dump) := by
  have hinj : ∀ u w : RedisValue, u.dump = w.dump → u = w := by
    intro u w h
    have hd : u.dump.data ++ [] = w.dump.data ++ [] := by rw [h]
    exact (dump_decode u w [] [] hd).1
  refine ⟨⟨hinj a b, fun h => by rw [h]⟩, ?_⟩
  intro x y hne h
  have := hinj _ _ h
  exact hne (RedisValue.str.inj this)

theorem dump_is_injective_witness :
    (RedisValue.array [.str "a, b"]).dump ≠ (RedisValue.array [.str "a", .str "b"]).dump
    ∧ (RedisValue.str "a\nb").dump ≠ (RedisValue.str "a\\nb").dump :=
  ⟨fun h => absurd
      ((dump_is_injective (RedisValue.array [.str "a, b"])
        (RedisValue.array [.str "a", .str "b"])).1.mp h)
      (by simp),
    (dump_is_injective .null .null).2 "a\nb" "a\\nb" (by decide)⟩

end TinyRedis
